import Mathlib

/-!
# Transcoding pipeline: muxer timestamp processing and the thread-safe queue

A shallow embedding of `src/src/Muxer.cpp` (`writePacket`, `rescaleTimestamp`,
`setPlaybackSpeed`) and of `src/include/queue.h` (`ThreadSafeQueue` and the four
typed queues), followed by the properties proved about them.

Conventions.
* `int64_t` values are integers; the one addition the code performs on them
  (`last + 1`) is wrapped to 64 bits by `wrapInt64`.
* A C++ `double` is a `Double`: NaN, the two infinities, or a finite value held as
  an exact rational.  The operations `Double.add`, `Double.sub`, `Double.mul`,
  `Double.div` and `Double.ofInt64` compute without rounding; this agrees with the
  machine whenever the operands and the result are representable, e.g. for integers
  below `2^53` divided by a power of two.  Properties that depend on how the machine
  rounds are stated over `Arith`, which takes the five rounding operations as a
  parameter; IEEE 754 binary64 (`Arith.binary64`) is one such arithmetic.
* Pointers are `Option Nat` (`none` is `nullptr`).
-/

/-! ## Machine numbers -/

/-- Smallest `int64_t`. -/
def INT64_MIN : Int := -9223372036854775808

/-- Largest `int64_t`. -/
def INT64_MAX : Int := 9223372036854775807

/-- FFmpeg's "no timestamp" sentinel, `((int64_t)UINT64_C(0x8000000000000000))`. -/
def AV_NOPTS_VALUE : Int := INT64_MIN

/-- Two's-complement wrap of an integer to the `int64_t` range. -/
def wrapInt64 (x : Int) : Int := (x + 9223372036854775808) % 18446744073709551616 - 9223372036854775808

/-- A C++ `double`: NaN, minus infinity, plus infinity, or a finite value. -/
inductive Double where
  | nan : Double
  | negInf : Double
  | posInf : Double
  | fin (q : ℚ) : Double
  deriving DecidableEq

namespace Double

/-- The conversion `static_cast<double>(t)` of an `int64_t`, without rounding (exact
for `|t| <= 2^53`). -/
def ofInt64 (t : Int) : Double := fin (t : ℚ)

/-- The comparison `x < y`; false as soon as one side is NaN. -/
def lt : Double → Double → Bool
  | fin a, fin b => decide (a < b)
  | negInf, fin _ => true
  | negInf, posInf => true
  | fin _, posInf => true
  | _, _ => false

/-- The comparison `x <= y`; false as soon as one side is NaN. -/
def le : Double → Double → Bool
  | fin a, fin b => decide (a ≤ b)
  | negInf, fin _ => true
  | negInf, posInf => true
  | fin _, posInf => true
  | negInf, negInf => true
  | posInf, posInf => true
  | _, _ => false

/-- The comparison `x != y`; true as soon as one side is NaN. -/
def ne : Double → Double → Bool
  | nan, _ => true
  | _, nan => true
  | x, y => decide (x ≠ y)

/-- The product `x * y`, without rounding. -/
def mul : Double → Double → Double
  | nan, _ => nan
  | _, nan => nan
  | fin a, fin b => fin (a * b)
  | fin a, posInf => if a = 0 then nan else if 0 < a then posInf else negInf
  | fin a, negInf => if a = 0 then nan else if 0 < a then negInf else posInf
  | posInf, fin b => if b = 0 then nan else if 0 < b then posInf else negInf
  | negInf, fin b => if b = 0 then nan else if 0 < b then negInf else posInf
  | posInf, posInf => posInf
  | negInf, negInf => posInf
  | posInf, negInf => negInf
  | negInf, posInf => negInf

/-- The quotient `x / y`, without rounding (a zero divisor is taken to be `+0.0`). -/
def div : Double → Double → Double
  | nan, _ => nan
  | _, nan => nan
  | fin a, fin b =>
      if b = 0 then (if a = 0 then nan else if 0 < a then posInf else negInf) else fin (a / b)
  | fin _, posInf => fin 0
  | fin _, negInf => fin 0
  | posInf, fin b => if 0 ≤ b then posInf else negInf
  | negInf, fin b => if 0 ≤ b then negInf else posInf
  | posInf, posInf => nan
  | posInf, negInf => nan
  | negInf, posInf => nan
  | negInf, negInf => nan

/-- Truncation of a rational towards zero. -/
def truncRat (q : ℚ) : Int := Int.tdiv q.num (q.den : Int)

/-- The conversion `static_cast<int64_t>(x)`: truncation towards zero.  For NaN, an
infinity or a value outside the `int64_t` range the C++ result is undefined; the
model returns `INT64_MIN`, the value the x86-64 conversion instruction produces. -/
def toInt64 : Double → Int
  | fin q => if INT64_MIN ≤ truncRat q ∧ truncRat q ≤ INT64_MAX then truncRat q else INT64_MIN
  | _ => INT64_MIN

end Double

/-! ## Muxer -/

/-- FFmpeg's rational number `AVRational`. -/
structure AVRational where
  num : Int
  den : Int
  deriving DecidableEq

/-- The fields of FFmpeg's `AVPacket` that `Muxer::writePacket` reads or writes. -/
structure AVPacket where
  stream_index : Int
  pts : Int
  dts : Int
  duration : Int
  deriving DecidableEq

/-- One output stream of the muxer: the `AVStream` created by `initMuxer` together
with the encoder context it was created from (`initMuxer` creates the stream only
for a non-null encoder context and `closeMuxer` resets both, so the two pointers
are null together). -/
structure OutputStream where
  /-- Field `stream->index`. -/
  index : Int
  /-- Field `codecContext->time_base`, the source time base. -/
  codecTimeBase : AVRational
  /-- Field `stream->time_base`, the destination time base. -/
  time_base : AVRational
  deriving DecidableEq

/-- State of the class `Muxer` that the timestamp layer uses. -/
structure Muxer where
  /-- Whether `formatContext` is non-null. -/
  formatContext : Bool
  videoStream : Option OutputStream
  audioStream : Option OutputStream
  playbackSpeed : Double
  lastVideoPts : Int
  lastVideoDts : Int
  lastAudioPts : Int
  lastAudioDts : Int
  deriving DecidableEq

/-- Modelled from the spec: FFmpeg's `av_rescale_q(a, bq, cq)` is not part of the
repository.  It is the "exact rational rescaling" `a * bq / cq`, rounded to the
nearest integer with halves away from zero, and `INT64_MIN` when the divisor is
not positive or the result does not fit. -/
def av_rescale_q (a : Int) (bq cq : AVRational) : Int :=
  let b := bq.num * cq.den
  let c := cq.num * bq.den
  if c ≤ 0 ∨ b < 0 then INT64_MIN
  else
    let r := if 0 ≤ a then (a * b + c / 2) / c else -(((-(max a (-INT64_MAX))) * b + c / 2) / c)
    if INT64_MIN ≤ r ∧ r ≤ INT64_MAX then r else INT64_MIN

namespace Muxer

/-- The constructor `Muxer::Muxer`. -/
def new : Muxer :=
  { formatContext := false
    videoStream := none
    audioStream := none
    playbackSpeed := Double.fin 1
    lastVideoPts := AV_NOPTS_VALUE
    lastVideoDts := AV_NOPTS_VALUE
    lastAudioPts := AV_NOPTS_VALUE
    lastAudioDts := AV_NOPTS_VALUE }

/-- An initialised muxer as `init` leaves it for a 30 fps video encoder and a
48 kHz audio encoder: both streams present, each stream time base equal to its
encoder time base (`stream->time_base = codecContext->time_base`), speed `1.0`,
no timestamp emitted yet. -/
def initialised : Muxer :=
  { formatContext := true
    videoStream := some { index := 0, codecTimeBase := { num := 1, den := 30 }, time_base := { num := 1, den := 30 } }
    audioStream := some { index := 1, codecTimeBase := { num := 1, den := 48000 }, time_base := { num := 1, den := 48000 } }
    playbackSpeed := Double.fin 1
    lastVideoPts := AV_NOPTS_VALUE
    lastVideoDts := AV_NOPTS_VALUE
    lastAudioPts := AV_NOPTS_VALUE
    lastAudioDts := AV_NOPTS_VALUE }

/-- The speed adjustment of one timestamp, written out three times in `writePacket`
and once in `rescaleTimestamp`: `t / speed` above `1.0`, `t * (1.0 / speed)`
otherwise, converted back to `int64_t`. -/
def speedAdjust (speed : Double) (t : Int) : Int :=
  if Double.lt (Double.fin 1) speed then
    Double.toInt64 (Double.div (Double.ofInt64 t) speed)
  else
    Double.toInt64 (Double.mul (Double.ofInt64 t) (Double.div (Double.fin 1) speed))

/-- The method `Muxer::rescaleTimestamp`. -/
def rescaleTimestamp (m : Muxer) (timestamp : Int) (srcTimeBase dstTimeBase : AVRational) : Int :=
  let timestamp :=
    if Double.ne m.playbackSpeed (Double.fin 1) = true ∧ timestamp ≠ AV_NOPTS_VALUE then
      speedAdjust m.playbackSpeed timestamp
    else timestamp
  av_rescale_q timestamp srcTimeBase dstTimeBase

/-- Lines 600-680 of `writePacket`: the playback-speed block. -/
def applySpeed (m : Muxer) (packet : AVPacket) : AVPacket :=
  if Double.ne m.playbackSpeed (Double.fin 1) = true then
    let p1 := if packet.pts ≠ AV_NOPTS_VALUE then
      { packet with pts := speedAdjust m.playbackSpeed packet.pts } else packet
    let p2 := if p1.dts ≠ AV_NOPTS_VALUE then
      { p1 with dts := speedAdjust m.playbackSpeed p1.dts } else p1
    if 0 < p2.duration then
      { p2 with duration := speedAdjust m.playbackSpeed p2.duration } else p2
  else packet

/-- Lines 682-713 of `writePacket`: time-base conversion of pts and dts, an unset
dts taking the pts. -/
def convertTimestamps (m : Muxer) (src dst : AVRational) (packet : AVPacket) : AVPacket :=
  let p1 := if packet.pts ≠ AV_NOPTS_VALUE then
    { packet with pts := rescaleTimestamp m packet.pts src dst } else packet
  if p1.dts ≠ AV_NOPTS_VALUE then
    { p1 with dts := rescaleTimestamp m p1.dts src dst }
  else { p1 with dts := p1.pts }

/-- The packet as it reaches the monotonicity check (after lines 600-713). -/
def rescaled (m : Muxer) (s : OutputStream) (packet : AVPacket) : AVPacket :=
  convertTimestamps m s.codecTimeBase s.time_base
    (applySpeed m { packet with stream_index := s.index })

/-- Lines 719-745 of `writePacket`: the two monotonicity corrections. -/
def correctMonotonic (lastPts lastDts : Int) (packet : AVPacket) : AVPacket :=
  let p1 := if lastPts ≠ AV_NOPTS_VALUE ∧ packet.pts ≤ lastPts then
    { packet with pts := wrapInt64 (lastPts + 1) } else packet
  if lastDts ≠ AV_NOPTS_VALUE ∧ p1.dts ≤ lastDts then
    { p1 with dts := wrapInt64 (lastDts + 1) } else p1

/-- Lines 747-758 of `writePacket`: dts is not allowed above pts. -/
def clampDts (packet : AVPacket) : AVPacket :=
  if packet.dts > packet.pts then { packet with dts := packet.pts } else packet

/-- Lines 764-775 of `writePacket`: time-base conversion of the duration. -/
def convertDuration (m : Muxer) (src dst : AVRational) (packet : AVPacket) : AVPacket :=
  if 0 < packet.duration then
    { packet with duration := rescaleTimestamp m packet.duration src dst } else packet

/-- The stream `isVideo ? videoStream : audioStream`. -/
def stream (m : Muxer) (isVideo : Bool) : Option OutputStream :=
  if isVideo then m.videoStream else m.audioStream

/-- The reference `isVideo ? lastVideoPts : lastAudioPts`. -/
def lastPts (m : Muxer) (isVideo : Bool) : Int :=
  if isVideo then m.lastVideoPts else m.lastAudioPts

/-- The reference `isVideo ? lastVideoDts : lastAudioDts`. -/
def lastDts (m : Muxer) (isVideo : Bool) : Int :=
  if isVideo then m.lastVideoDts else m.lastAudioDts

/-- The assignments `lastPts = packet->pts; lastDts = packet->dts;`. -/
def setLast (m : Muxer) (isVideo : Bool) (pts dts : Int) : Muxer :=
  if isVideo then { m with lastVideoPts := pts, lastVideoDts := dts }
  else { m with lastAudioPts := pts, lastAudioDts := dts }

/-- The method `Muxer::writePacket`.  `packet` is `none` for a null pointer and
`ret` is the value returned by FFmpeg's `av_interleaved_write_frame`.  The result
is the returned flag, the muxer afterwards, and the packet as it is handed to
`av_interleaved_write_frame` (unchanged on the two early returns). -/
def writePacket (m : Muxer) (packet : Option AVPacket) (isVideo : Bool) (ret : Int) :
    Bool × Muxer × Option AVPacket :=
  match m.formatContext, packet with
  | true, some pkt =>
    match m.stream isVideo with
    | none => (false, m, packet)
    | some s =>
      let p1 := rescaled m s pkt
      let p2 := clampDts (correctMonotonic (m.lastPts isVideo) (m.lastDts isVideo) p1)
      let m1 := m.setLast isVideo p2.pts p2.dts
      let p3 := convertDuration m s.codecTimeBase s.time_base p2
      (decide (0 ≤ ret), m1, some p3)
  | _, _ => (false, m, packet)

/-- The method `Muxer::setPlaybackSpeed`. -/
def setPlaybackSpeed (m : Muxer) (speed : Double) : Muxer :=
  if Double.le speed (Double.fin 0) = true then m
  else
    { m with
      playbackSpeed := speed
      lastVideoPts := AV_NOPTS_VALUE
      lastVideoDts := AV_NOPTS_VALUE
      lastAudioPts := AV_NOPTS_VALUE
      lastAudioDts := AV_NOPTS_VALUE }

/-- The method `Muxer::getPlaybackSpeed`. -/
def getPlaybackSpeed (m : Muxer) : Double := m.playbackSpeed

/-- A run of `writePacket` over a sequence of packets of one stream kind, each with
the return code of its `av_interleaved_write_frame`; collects the packets as they
are left. -/
def writePackets (isVideo : Bool) : Muxer → List (AVPacket × Int) → Muxer × List AVPacket
  | m, [] => (m, [])
  | m, (pkt, ret) :: rest =>
    let r := m.writePacket (some pkt) isVideo ret
    let rr := writePackets isVideo r.2.1 rest
    (rr.1, r.2.2.getD pkt :: rr.2)

end Muxer

/-! ### Muxer states and packets used in the scenarios -/

namespace Muxer

/-- Packets with decreasing, repeated and unset incoming timestamps, used to exercise
the monotonicity theorem. -/
def unorderedPackets : List (AVPacket × Int) :=
  [({ stream_index := 7, pts := 5, dts := 5, duration := 1 }, 0),
   ({ stream_index := 7, pts := 3, dts := 9, duration := 1 }, -1),
   ({ stream_index := 7, pts := 3, dts := AV_NOPTS_VALUE, duration := 0 }, 0),
   ({ stream_index := 7, pts := 40, dts := 2, duration := 1 }, 0)]

/-- The muxer of the counterexample to C1: initialised, then slowed to half speed. -/
def halfSpeed : Muxer := initialised.setPlaybackSpeed (Double.fin (1 / 2))

/-- A packet whose pts is set and doubles to exactly `INT64_MIN` at half speed. -/
def sentinelPacket : AVPacket :=
  { stream_index := 0, pts := -4611686018427387904, dts := AV_NOPTS_VALUE, duration := 0 }

/-- A muxer state in which the stored audio dts is above the stored audio pts. -/
def skewed : Muxer := { initialised with lastAudioPts := 10, lastAudioDts := 500 }

/-- The muxer of the speed scenario: initialised, then `setPlaybackSpeed(2.0)`. -/
def doubleSpeed : Muxer := initialised.setPlaybackSpeed (Double.fin 2)

/-- The video stream of `initialised`. -/
def videoStream30 : OutputStream :=
  { index := 0, codecTimeBase := { num := 1, den := 30 }, time_base := { num := 1, den := 30 } }

/-- The 1000 packets of the speed scenario, pts 0,1,...,999. -/
def scenarioPackets : List (AVPacket × Int) :=
  (List.range 1000).map (fun n : Nat =>
    (({ stream_index := 0, pts := Int.ofNat n, dts := Int.ofNat n, duration := 1 } : AVPacket), (0 : Int)))

/-- A muxer that has already emitted video timestamps around 1000. -/
def advanced : Muxer := { initialised with lastVideoPts := 1000, lastVideoDts := 998 }

end Muxer

/-! ## Thread-safe queue (`src/include/queue.h`)

The queue is a singly linked list of heap nodes.  The model keeps the heap cells that
hold the nodes inside the queue value: `memory a` is the node stored at address `a`
(`none` when nothing is allocated there), `new` hands out the address `fresh`, and
`delete` empties a cell.  Operations are run by one thread at a time (every method
body holds the queue mutex), so each is a function on the state. -/

/-- Smallest `int`. -/
def INT_MIN : Int := -2147483648

/-- Largest `int`. -/
def INT_MAX : Int := 2147483647

/-- Two's-complement wrap of an integer to the range of `int`. -/
def wrapInt (x : Int) : Int := (x + 2147483648) % 4294967296 - 2147483648

/-- What a call does when no other thread touches the queue. -/
inductive Outcome (α : Type) where
  /-- The call returns. -/
  | ok (a : α) : Outcome α
  /-- The call waits on the condition variable and is never woken. -/
  | blocked : Outcome α
  /-- The call dereferences a null or dangling pointer. -/
  | fault : Outcome α
  /-- The loop did not finish within the given number of iterations. -/
  | unfinished : Outcome α

/-- The struct `QueueNode<T>`; `next` is `none` for `nullptr`. -/
structure QueueNode (T : Type) where
  data : T
  next : Option Nat

/-- The class `ThreadSafeQueue<T>` together with the heap cells of its nodes. -/
structure ThreadSafeQueue (T : Type) where
  memory : Nat → Option (QueueNode T)
  /-- Address returned by the next `new QueueNode<T>`. -/
  fresh : Nat
  head : Option Nat
  tail : Option Nat
  size : Int

namespace ThreadSafeQueue

variable {T : Type}

/-- The constructor: `head(nullptr), tail(nullptr), size(0)`. -/
def new : ThreadSafeQueue T :=
  { memory := fun _ => none, fresh := 0, head := none, tail := none, size := 0 }

/-- The method `isEmptyUnsafe`: `head == nullptr`. -/
def isEmptyUnsafe (q : ThreadSafeQueue T) : Bool := q.head.isNone

/-- The method `isEmpty`: `head == nullptr`. -/
def isEmpty (q : ThreadSafeQueue T) : Bool := q.head.isNone

/-- The method `getSize`. -/
def getSize (q : ThreadSafeQueue T) : Int := q.size

/-- The method `push`. -/
def push (q : ThreadSafeQueue T) (value : T) : Outcome (ThreadSafeQueue T) :=
  let newNode := q.fresh
  let mem1 := Function.update q.memory newNode (some { data := value, next := none })
  if q.isEmptyUnsafe then
    Outcome.ok { memory := mem1, fresh := q.fresh + 1, head := some newNode, tail := some newNode,
                 size := wrapInt (q.size + 1) }
  else
    match q.tail with
    | none => Outcome.fault
    | some t =>
      match mem1 t with
      | none => Outcome.fault
      | some node =>
        Outcome.ok { memory := Function.update mem1 t (some { node with next := some newNode }),
                     fresh := q.fresh + 1, head := q.head, tail := some newNode,
                     size := wrapInt (q.size + 1) }

/-- The statements shared by `pop` and `tryPop` once the queue is known to be
non-empty: read the head node, advance `head`, reset `tail` when the queue became
empty, decrement `size`, delete the old head node. -/
def removeHead (q : ThreadSafeQueue T) (temp : Nat) : Outcome (T × ThreadSafeQueue T) :=
  match q.memory temp with
  | none => Outcome.fault
  | some node =>
    Outcome.ok (node.data,
      { memory := Function.update q.memory temp none, fresh := q.fresh, head := node.next,
        tail := if node.next = none then none else q.tail, size := wrapInt (q.size - 1) })

/-- The method `pop`: waits until the queue is non-empty, then removes the head.  With
no other thread to push, an empty queue blocks the caller for good. -/
def pop (q : ThreadSafeQueue T) : Outcome (T × ThreadSafeQueue T) :=
  match q.head with
  | none => Outcome.blocked
  | some temp => q.removeHead temp

/-- The method `tryPop`; `value` is the caller's variable passed by reference, and the
result carries the returned flag, the variable afterwards and the queue. -/
def tryPop (q : ThreadSafeQueue T) (value : T) : Outcome (Bool × T × ThreadSafeQueue T) :=
  match q.head with
  | none => Outcome.ok (false, value, q)
  | some temp =>
    match q.removeHead temp with
    | Outcome.ok (v, q1) => Outcome.ok (true, v, q1)
    | Outcome.blocked => Outcome.blocked
    | Outcome.fault => Outcome.fault
    | Outcome.unfinished => Outcome.unfinished

/-- The loop of `ThreadSafeQueue::clear`: `while (current != nullptr)` delete the node
and move to its successor.  `fuel` bounds the number of iterations. -/
def deleteNodes : Nat → (Nat → Option (QueueNode T)) → Option Nat →
    Outcome (Nat → Option (QueueNode T))
  | _, mem, none => Outcome.ok mem
  | 0, _, some _ => Outcome.unfinished
  | fuel + 1, mem, some current =>
    match mem current with
    | none => Outcome.fault
    | some node => deleteNodes fuel (Function.update mem current none) node.next

/-- The method `ThreadSafeQueue::clear` (the base-class version). -/
def clear (fuel : Nat) (q : ThreadSafeQueue T) : Outcome (ThreadSafeQueue T) :=
  match deleteNodes fuel q.memory q.head with
  | Outcome.ok mem =>
    Outcome.ok { memory := mem, fresh := q.fresh, head := none, tail := none, size := 0 }
  | Outcome.blocked => Outcome.blocked
  | Outcome.fault => Outcome.fault
  | Outcome.unfinished => Outcome.unfinished

end ThreadSafeQueue

/-- A `void *` element of the typed queues: `none` is `nullptr`, `some p` points to the
packet or frame `p`. -/
abbrev VoidPtr := Option Nat

/-- A call of an FFmpeg release function made by a queue. -/
inductive Release where
  /-- The call `av_packet_free(&packet)` for the packet at `p`. -/
  | av_packet_free (p : Nat) : Release
  /-- The call `av_frame_free(&frame)` for the frame at `p`. -/
  | av_frame_free (p : Nat) : Release
  deriving DecidableEq

/-- The loop of the four overriding `clear` methods, which differ only in the release
function `free`: for each node, release its unit when `temp->data != nullptr`, then
delete the node.  Returns the memory and the release calls made, in order. -/
def releaseNodes (free : Nat → Release) : Nat → (Nat → Option (QueueNode VoidPtr)) → Option Nat →
    List Release → Outcome ((Nat → Option (QueueNode VoidPtr)) × List Release)
  | _, mem, none, calls => Outcome.ok (mem, calls)
  | 0, _, some _, _ => Outcome.unfinished
  | fuel + 1, mem, some current, calls =>
    match mem current with
    | none => Outcome.fault
    | some temp =>
      let calls1 := match temp.data with
        | some p => calls ++ [free p]
        | none => calls
      releaseNodes free fuel (Function.update mem current none) temp.next calls1

/-- Body shared by the four overriding `clear` methods. -/
def releasingClear (free : Nat → Release) (fuel : Nat) (q : ThreadSafeQueue VoidPtr) :
    Outcome (List Release × ThreadSafeQueue VoidPtr) :=
  match releaseNodes free fuel q.memory q.head [] with
  | Outcome.ok (mem, calls) =>
    Outcome.ok (calls, { memory := mem, fresh := q.fresh, head := none, tail := none, size := 0 })
  | Outcome.blocked => Outcome.blocked
  | Outcome.fault => Outcome.fault
  | Outcome.unfinished => Outcome.unfinished

/-- The destructor `~ThreadSafeQueue`, whose body is the call `clear()`.  While a base
class destructor runs, the object has the base class as its dynamic type, so the
call is bound to `ThreadSafeQueue::clear` also when a typed queue is being destroyed.
No release function is called; the result lists the release calls made (none). -/
def ThreadSafeQueue.destructor (fuel : Nat) (q : ThreadSafeQueue VoidPtr) :
    Outcome (List Release × ThreadSafeQueue VoidPtr) :=
  match ThreadSafeQueue.clear fuel q with
  | Outcome.ok q1 => Outcome.ok ([], q1)
  | Outcome.blocked => Outcome.blocked
  | Outcome.fault => Outcome.fault
  | Outcome.unfinished => Outcome.unfinished

/-- The override `VideoPacketQueue::clear`. -/
def VideoPacketQueue.clear := releasingClear Release.av_packet_free

/-- The override `AudioPacketQueue::clear`. -/
def AudioPacketQueue.clear := releasingClear Release.av_packet_free

/-- The override `VideoFrameQueue::clear`. -/
def VideoFrameQueue.clear := releasingClear Release.av_frame_free

/-- The override `AudioFrameQueue::clear`. -/
def AudioFrameQueue.clear := releasingClear Release.av_frame_free

/-- Destruction of a `VideoPacketQueue`: the body of `~VideoPacketQueue` is empty, then
the base destructor runs. -/
def VideoPacketQueue.destructor (fuel : Nat) (q : ThreadSafeQueue VoidPtr) :
    Outcome (List Release × ThreadSafeQueue VoidPtr) :=
  ThreadSafeQueue.destructor fuel q

/-- Destruction of an `AudioPacketQueue`: empty body, then the base destructor. -/
def AudioPacketQueue.destructor (fuel : Nat) (q : ThreadSafeQueue VoidPtr) :
    Outcome (List Release × ThreadSafeQueue VoidPtr) :=
  ThreadSafeQueue.destructor fuel q

/-- Destruction of a `VideoFrameQueue`: empty body, then the base destructor. -/
def VideoFrameQueue.destructor (fuel : Nat) (q : ThreadSafeQueue VoidPtr) :
    Outcome (List Release × ThreadSafeQueue VoidPtr) :=
  ThreadSafeQueue.destructor fuel q

/-- Destruction of an `AudioFrameQueue`: empty body, then the base destructor. -/
def AudioFrameQueue.destructor (fuel : Nat) (q : ThreadSafeQueue VoidPtr) :
    Outcome (List Release × ThreadSafeQueue VoidPtr) :=
  ThreadSafeQueue.destructor fuel q

/-! ### Abstraction: the sequence of units a queue holds -/

namespace ThreadSafeQueue

variable {T : Type}

/-- The cells `(address, data)` met when following `next` from `p` to `nullptr`. -/
def IsChain (mem : Nat → Option (QueueNode T)) : Option Nat → List (Nat × T) → Prop
  | p, [] => p = none
  | p, c :: rest =>
    p = some c.1 ∧ ∃ nx, mem c.1 = some { data := c.2, next := nx } ∧ IsChain mem nx rest

/-- Representation invariant of the linked list: `head` starts a chain of distinct,
allocated cells that ends in `nullptr`, and `tail` is its last cell. -/
structure Repr (q : ThreadSafeQueue T) (cells : List (Nat × T)) : Prop where
  chain : IsChain q.memory q.head cells
  nodup : (cells.map Prod.fst).Nodup
  tail_eq : q.tail = (cells.map Prod.fst).getLast?
  below : ∀ c ∈ cells, c.1 < q.fresh

/-- One operation of a client thread. -/
inductive Op (T : Type) where
  | push (value : T) : Op T
  | pop : Op T
  | tryPop (value : T) : Op T

/-- How far a sequential run got. -/
inductive Status where
  | running : Status
  | blocked : Status
  | faulted : Status
  deriving DecidableEq

/-- A sequential run on one queue: the queue, the values pushed so far, the values
returned by the successful `pop` and `tryPop` calls so far, and the status. -/
structure Run (T : Type) where
  queue : ThreadSafeQueue T
  pushed : List T
  popped : List T
  status : Status

/-- Executes one operation; a run that is blocked or has faulted executes nothing
more. -/
def exec (r : Run T) (op : Op T) : Run T :=
  match r.status with
  | Status.running =>
    match op with
    | Op.push v =>
      match r.queue.push v with
      | Outcome.ok q => { r with queue := q, pushed := r.pushed ++ [v] }
      | Outcome.blocked => { r with status := Status.blocked }
      | _ => { r with status := Status.faulted }
    | Op.pop =>
      match r.queue.pop with
      | Outcome.ok (v, q) => { r with queue := q, popped := r.popped ++ [v] }
      | Outcome.blocked => { r with status := Status.blocked }
      | _ => { r with status := Status.faulted }
    | Op.tryPop value =>
      match r.queue.tryPop value with
      | Outcome.ok (true, v, q) => { r with queue := q, popped := r.popped ++ [v] }
      | Outcome.ok (false, _, q) => { r with queue := q }
      | Outcome.blocked => { r with status := Status.blocked }
      | _ => { r with status := Status.faulted }
  | _ => r

/-- Executes the operations one after another on an initially empty queue. -/
def runOps (ops : List (Op T)) : Run T :=
  ops.foldl exec { queue := ThreadSafeQueue.new, pushed := [], popped := [], status := Status.running }

end ThreadSafeQueue

namespace ThreadSafeQueue

variable {T : Type}

/-- Invariant of a sequential run: no fault so far, the queue is well formed, and
what was pushed is what was popped followed by what the queue still holds. -/
def RunInv (r : Run T) : Prop :=
  r.status ≠ Status.faulted ∧
    ∃ cells, Repr r.queue cells ∧ r.pushed = r.popped ++ cells.map Prod.snd

end ThreadSafeQueue

/-! ### Queues used in the scenarios -/

/-- A typed queue holding five non-null units (the packets or frames at 100,...,104) in
the cells 0,...,4. -/
def fiveUnits : ThreadSafeQueue VoidPtr :=
  { memory := fun a =>
      match a with
      | 0 => some { data := some 100, next := some 1 }
      | 1 => some { data := some 101, next := some 2 }
      | 2 => some { data := some 102, next := some 3 }
      | 3 => some { data := some 103, next := some 4 }
      | 4 => some { data := some 104, next := none }
      | _ => none
    fresh := 5
    head := some 0
    tail := some 4
    size := 5 }

/-- The cells of `fiveUnits`. -/
def fiveCells : List (Nat × VoidPtr) :=
  [(0, some 100), (1, some 101), (2, some 102), (3, some 103), (4, some 104)]

/-! ### Muxer states used for the monotonicity rule -/

namespace Muxer

/-- A muxer whose last written video packet had pts 10 and dts 5. -/
def reordered : Muxer := { initialised with lastVideoPts := 10, lastVideoDts := 5 }

/-- A video packet with pts 8 and no dts. -/
def noDtsPacket : AVPacket :=
  { stream_index := 0, pts := 8, dts := AV_NOPTS_VALUE, duration := 1 }

end Muxer

/-! ## Stage lifecycle: `start()` of the six stage classes -/

/-- The lifecycle fields every stage class has: the atomic flags `isRunning` and
`isPaused`, whether the stage's context pointer (`codecContext`, for `Demux` and
`Muxer` `formatContext`) is non-null, and the number of worker threads created so
far. -/
structure Worker where
  isRunning : Bool
  isPaused : Bool
  context : Bool
  threads : Nat
  deriving DecidableEq

/-- The three statements that end each `start()`: `isRunning = true; isPaused = false;`
and the creation of the worker thread. -/
def Worker.launch (w : Worker) : Worker :=
  { w with isRunning := true, isPaused := false, threads := w.threads + 1 }

/-- The method `Demux::start`: returns early only `if (isRunning)`. -/
def Demux.start (w : Worker) : Worker :=
  if w.isRunning then w else w.launch

/-- The method `VideoDecoder::start`: returns early `if (isRunning || !codecContext)`. -/
def VideoDecoder.start (w : Worker) : Worker :=
  if w.isRunning || !w.context then w else w.launch

/-- The method `AudioDecoder::start`: returns early `if (isRunning || !codecContext)`. -/
def AudioDecoder.start (w : Worker) : Worker :=
  if w.isRunning || !w.context then w else w.launch

/-- The method `VideoEncoder::start`: returns early `if (isRunning)`, then
`if (!codecContext)`. -/
def VideoEncoder.start (w : Worker) : Worker :=
  if w.isRunning then w
  else if !w.context then w
  else w.launch

/-- The method `AudioEncoder::start`: returns early only `if (isRunning)`. -/
def AudioEncoder.start (w : Worker) : Worker :=
  if w.isRunning then w else w.launch

/-- The method `Muxer::start`: returns early only `if (isRunning)`. -/
def Muxer.start (w : Worker) : Worker :=
  if w.isRunning then w else w.launch

/-- A stage as constructed whose initialisation failed: not running, not paused, no
context, no thread. -/
def Worker.uninitialised : Worker :=
  { isRunning := false, isPaused := false, context := false, threads := 0 }

/-! ## Command line of `main` (`src/Transcode.cpp`, lines 186-293) -/

namespace Transcode

/-- The local variables that the argument loop of `main` fills, and `g_debugMode`. -/
structure Options where
  inputFile : String
  videoOutputFile : String
  audioOutputFile : String
  outputFile : String
  customVideoFilter : String
  customAudioFilter : String
  rotationAngle : Int
  playbackSpeed : Double
  useDirectVideo : Bool
  useDirectAudio : Bool
  debugMode : Bool
  deriving DecidableEq

/-- The initial values of the locals of `main`. -/
def Options.initial : Options :=
  { inputFile := "", videoOutputFile := "", audioOutputFile := "", outputFile := "output.mp4",
    customVideoFilter := "", customAudioFilter := "", rotationAngle := 0,
    playbackSpeed := Double.fin 1, useDirectVideo := false, useDirectAudio := false,
    debugMode := false }

end Transcode

/-! ## Ring buffer (`src/include/RingBuffer.h`)

`size_t` values are natural numbers: with a capacity of at least 1 (and below `2^63`)
no operation of the class leaves the range of `size_t`.  The array `buffer` is a
function from indices to elements. -/

/-- The class `RingBuffer<T>`. -/
structure RingBuffer (T : Type) where
  buffer : Nat → T
  capacity : Nat
  size : Nat
  head : Nat
  tail : Nat
  overwrite : Bool

namespace RingBuffer

variable {T : Type}

/-- The constructor; `init` is the content of the freshly allocated array. -/
def new (capacity : Nat) (allowOverwrite : Bool) (init : Nat → T) : RingBuffer T :=
  { buffer := init, capacity := capacity, size := 0, head := 0, tail := 0,
    overwrite := allowOverwrite }

/-- The method `isEmpty`. -/
def isEmpty (b : RingBuffer T) : Bool := b.size == 0

/-- The method `isFull`. -/
def isFull (b : RingBuffer T) : Bool := b.size == b.capacity

/-- The method `getSize`. -/
def getSize (b : RingBuffer T) : Nat := b.size

/-- The method `getCapacity`. -/
def getCapacity (b : RingBuffer T) : Nat := b.capacity

/-- The method `getAvailableSpace`. -/
def getAvailableSpace (b : RingBuffer T) : Nat := b.capacity - b.size

/-- The method `clear`. -/
def clear (b : RingBuffer T) : RingBuffer T := { b with head := 0, tail := 0, size := 0 }

/-- The last three statements of `write`: store at `tail`, advance `tail`, count. -/
def store (b : RingBuffer T) (item : T) : RingBuffer T :=
  { b with buffer := Function.update b.buffer b.tail item,
           tail := (b.tail + 1) % b.capacity, size := b.size + 1 }

/-- The method `write`: the returned flag and the buffer afterwards. -/
def write (b : RingBuffer T) (item : T) : Bool × RingBuffer T :=
  if b.isFull then
    if !b.overwrite then (false, b)
    else (true, store { b with head := (b.head + 1) % b.capacity, size := b.size - 1 } item)
  else (true, store b item)

/-- The loop of the generic `writeMultiple`: writes item after item, counting, and
stops at the first `write` that fails. -/
def writeLoop : List T → Nat → RingBuffer T → Nat × RingBuffer T
  | [], written, b => (written, b)
  | item :: rest, written, b =>
    if (b.write item).1 then writeLoop rest (written + 1) (b.write item).2
    else (written, (b.write item).2)

/-- The generic method `writeMultiple`; `items` is the array of `count` elements. -/
def writeMultiple (b : RingBuffer T) (items : List T) : Nat × RingBuffer T :=
  if items.length = 0 then (0, b) else writeLoop items 0 b

/-- The method `read`; `item` is the caller's variable, returned with the flag and
the buffer. -/
def read (b : RingBuffer T) (item : T) : Bool × T × RingBuffer T :=
  if b.isEmpty then (false, item, b)
  else (true, b.buffer b.head,
    { b with head := (b.head + 1) % b.capacity, size := b.size - 1 })

/-- The loop of the generic `readMultiple`: reads into `items[i]` for `i = 0, 1, ...`
and stops at the first `read` that fails; returns the elements read, in order. -/
def readLoop : Nat → List T → RingBuffer T → List T × RingBuffer T
  | 0, acc, b => (acc, b)
  | count + 1, acc, b =>
    if b.isEmpty then (acc, b)
    else readLoop count (acc ++ [b.buffer b.head])
      { b with head := (b.head + 1) % b.capacity, size := b.size - 1 }

/-- The generic method `readMultiple`: the returned count, the elements stored into
`items[0 .. count)`, and the buffer. -/
def readMultiple (b : RingBuffer T) (count : Nat) : Nat × List T × RingBuffer T :=
  ((readLoop count [] b).1.length, (readLoop count [] b).1, (readLoop count [] b).2)

/-- The method `peek`. -/
def peek (b : RingBuffer T) (item : T) : Bool × T :=
  if b.isEmpty then (false, item) else (true, b.buffer b.head)

/-- The sequence the buffer holds, oldest first: the `size` elements from `head` on,
around the end of the array. -/
def contents (b : RingBuffer T) : List T :=
  (List.range b.size).map (fun i => b.buffer ((b.head + i) % b.capacity))

/-- Index invariant of the ring buffer. -/
structure Inv (b : RingBuffer T) : Prop where
  pos : 0 < b.capacity
  size_le : b.size ≤ b.capacity
  head_lt : b.head < b.capacity
  tail_eq : b.tail = (b.head + b.size) % b.capacity

/-- Writes the items one at a time with `write`, collecting the returned flags. -/
def writeAll : List T → RingBuffer T → List Bool × RingBuffer T
  | [], b => ([], b)
  | item :: rest, b => ((b.write item).1 :: (writeAll rest (b.write item).2).1,
      (writeAll rest (b.write item).2).2)

/-- Calls `read` `n` times, collecting the returned flags and values. -/
def readAll : Nat → T → RingBuffer T → List (Bool × T) × RingBuffer T
  | 0, _, b => ([], b)
  | n + 1, item, b =>
    (((b.read item).1, (b.read item).2.1) :: (readAll n item (b.read item).2.2).1,
      (readAll n item (b.read item).2.2).2)

end RingBuffer

/-- The specialisation `RingBuffer<unsigned char>`; a byte is a natural number. -/
abbrev ByteRingBuffer := RingBuffer Nat

namespace ByteRingBuffer

/-- The call `memcpy(buffer + dst, src, src.length)`. -/
def memcpy (buffer : Nat → Nat) (dst : Nat) (src : List Nat) : Nat → Nat :=
  fun i => if dst ≤ i ∧ i < dst + src.length then src.getD (i - dst) (buffer i) else buffer i

/-- The `n` bytes of `buffer` from index `start` on. -/
def slice (buffer : Nat → Nat) (start n : Nat) : List Nat :=
  (List.range n).map (fun i => buffer (start + i))

/-- The copy at the end of the specialised `writeMultiple`: `items` go to `tail`, in
two parts when they do not fit before the end of the array. -/
def copyIn (b : ByteRingBuffer) (items : List Nat) : ByteRingBuffer :=
  let count := items.length
  let buffer1 :=
    if b.tail + count ≤ b.capacity then memcpy b.buffer b.tail items
    else
      let firstPart := b.capacity - b.tail
      memcpy (memcpy b.buffer b.tail (items.take firstPart)) 0 (items.drop firstPart)
  { b with buffer := buffer1, tail := (b.tail + count) % b.capacity, size := b.size + count }

/-- The specialised method `writeMultiple`; `items` is the array of `count` bytes. -/
def writeMultiple (b : ByteRingBuffer) (items : List Nat) : Nat × ByteRingBuffer :=
  let count := items.length
  if count = 0 then (0, b)
  else if b.isFull && !b.overwrite then (0, b)
  else
    let available := b.capacity - b.size
    if b.overwrite && decide (count > b.capacity) then
      (b.capacity, copyIn b.clear (items.drop (count - b.capacity)))
    else if decide (count > available) && b.overwrite then
      let overflow := count - available
      (count, copyIn { b with head := (b.head + overflow) % b.capacity,
                              size := b.size - overflow } items)
    else if count > available then
      (available, copyIn b (items.take available))
    else (count, copyIn b items)

/-- The specialised method `readMultiple`: the returned count, the bytes stored into
`items[0 .. count)`, and the buffer. -/
def readMultiple (b : ByteRingBuffer) (count : Nat) : Nat × List Nat × ByteRingBuffer :=
  if b.isEmpty || count == 0 then (0, [], b)
  else
    let count := if count > b.size then b.size else count
    let bytes :=
      if b.head + count ≤ b.capacity then slice b.buffer b.head count
      else
        let firstPart := b.capacity - b.head
        slice b.buffer b.head firstPart ++ slice b.buffer 0 (count - firstPart)
    (count, bytes, { b with head := (b.head + count) % b.capacity, size := b.size - count })

end ByteRingBuffer

/-! ### Ring buffers used in the scenarios -/

/-- An empty buffer of capacity 3 that overwrites, on zeroed memory. -/
def ring3 : ByteRingBuffer := RingBuffer.new 3 true (fun _ => 0)


/-! ## The scheduling loop of the muxer (`Muxer::muxThreadFunc`) -/

namespace Double

/-- The negation `-x`. -/
def neg : Double → Double
  | nan => nan
  | negInf => posInf
  | posInf => negInf
  | fin a => fin (-a)

/-- The sum `x + y`, without rounding. -/
def add : Double → Double → Double
  | nan, _ => nan
  | _, nan => nan
  | fin a, fin b => fin (a + b)
  | posInf, negInf => nan
  | negInf, posInf => nan
  | posInf, _ => posInf
  | negInf, _ => negInf
  | fin _, posInf => posInf
  | fin _, negInf => negInf

/-- The difference `x - y`, without rounding. -/
def sub (x y : Double) : Double := add x (neg y)

/-- The function `fabs`. -/
def fabs : Double → Double
  | nan => nan
  | negInf => posInf
  | posInf => posInf
  | fin a => fin |a|

end Double

/-- FFmpeg's `av_q2d`: `num / (double) den`. -/
def av_q2d (a : AVRational) : Double :=
  Double.div (Double.ofInt64 a.num) (Double.ofInt64 a.den)

/-- What an element of an encoded-packet queue points to: the `data` pointer of the
packet (`none` for `nullptr`) and its timestamp fields. -/
structure EncodedPacket where
  data : Option Nat
  packet : AVPacket
  deriving DecidableEq

/-- What the other threads do between two evaluations of the loop condition: the
values of the two atomic flags, the elements the encoders push onto the two queues,
and the value `av_interleaved_write_frame` returns if the iteration writes a
packet. -/
structure MuxEnv where
  isRunning : Bool
  isPaused : Bool
  pushVideo : List (Option EncodedPacket)
  pushAudio : List (Option EncodedPacket)
  ret : Int
  deriving DecidableEq

/-- The locals of `muxThreadFunc`, the muxer, the contents of the two input queues
(an element is `none` for a null pointer), and three records for the statements
below: the elements popped from each queue and the packets handed to
`av_interleaved_write_frame` (with the flag `isVideo`), in order. -/
structure MuxLoop where
  muxer : Muxer
  videoQueue : List (Option EncodedPacket)
  audioQueue : List (Option EncodedPacket)
  videoFinished : Bool
  audioFinished : Bool
  emptyQueueCount : Int
  packetCounter : Int
  lastAudioTimeSec : Double
  lastVideoTimeSec : Double
  audioSilenceCount : Int
  audioStreamInterrupted : Bool
  needSync : Bool
  videoPacketCount : Int
  audioPacketCount : Int
  packetProcessedCount : Int
  poppedVideo : List (Option EncodedPacket)
  poppedAudio : List (Option EncodedPacket)
  written : List (Bool × AVPacket)
  deriving DecidableEq

namespace MuxLoop

/-- The constant `MAX_EMPTY_COUNT`. -/
def MAX_EMPTY_COUNT : Int := 100

/-- The constant `MAX_AUDIO_SILENCE`. -/
def MAX_AUDIO_SILENCE : Int := 50

/-- The initial value of `audioVideoSyncThreshold`. -/
def audioVideoSyncThreshold : Double := Double.fin (1 / 2)

/-- The locals as initialised before the loop. -/
def start (m : Muxer) (videoQueue audioQueue : List (Option EncodedPacket)) : MuxLoop :=
  { muxer := m, videoQueue := videoQueue, audioQueue := audioQueue,
    videoFinished := m.videoStream.isNone, audioFinished := m.audioStream.isNone,
    emptyQueueCount := 0, packetCounter := 0,
    lastAudioTimeSec := Double.fin 0, lastVideoTimeSec := Double.fin 0,
    audioSilenceCount := 0, audioStreamInterrupted := false, needSync := false,
    videoPacketCount := 0, audioPacketCount := 0, packetProcessedCount := 0,
    poppedVideo := [], poppedAudio := [], written := [] }

/-- The value of `adjustedSyncThreshold` (lines 344-355); `sqrt` is the library
function. -/
def adjustedSyncThreshold (sqrt : Double → Double) (speed : Double) : Double :=
  if Double.lt (Double.fin 1) speed then
    let t := Double.mul audioVideoSyncThreshold (sqrt speed)
    if Double.lt (Double.fin 4) speed then Double.mul t (Double.fin (3 / 2)) else t
  else audioVideoSyncThreshold

/-- Whether the sync test of lines 366-367 holds. -/
def outOfSync (sqrt : Double → Double) (st : MuxLoop) : Bool :=
  Double.lt (Double.fin 0) st.lastVideoTimeSec && Double.lt (Double.fin 0) st.lastAudioTimeSec &&
    Double.lt (adjustedSyncThreshold sqrt st.muxer.playbackSpeed)
      (Double.fabs (Double.sub st.lastAudioTimeSec st.lastVideoTimeSec))

/-- The value of `tryAudioFirst` when the queues are tested (lines 340-388);
`counter` is `packetCounter` after its increment. -/
def tryAudioFirst (sqrt : Double → Double) (st : MuxLoop) (counter : Int) : Bool :=
  let initial := Double.ne st.muxer.playbackSpeed (Double.fin 1) || decide (counter % 2 = 0)
  let t := adjustedSyncThreshold sqrt st.muxer.playbackSpeed
  if outOfSync sqrt st then
    if Double.lt (Double.add st.lastVideoTimeSec t) st.lastAudioTimeSec then false
    else if Double.lt (Double.add st.lastAudioTimeSec t) st.lastVideoTimeSec then true
    else initial
  else initial

/-- The branch of lines 391-443: an element popped from the audio queue. -/
def processAudio (ret : Int) (st : MuxLoop) (ptr : Option EncodedPacket)
    (rest : List (Option EncodedPacket)) : MuxLoop × Bool :=
  let st1 := { st with audioQueue := rest, poppedAudio := st.poppedAudio ++ [ptr] }
  match ptr with
  | none => (st1, false)
  | some p =>
    match p.data with
    | none => ({ st1 with audioFinished := true }, false)
    | some _ =>
      let st2 := { st1 with audioSilenceCount := 0 }
      let st3 :=
        match st2.muxer.audioStream with
        | some s =>
          if p.packet.pts ≠ AV_NOPTS_VALUE then
            let current := Double.mul (Double.ofInt64 p.packet.pts) (av_q2d s.codecTimeBase)
            { st2 with
              lastAudioTimeSec := current
              needSync := st2.needSync ||
                (Double.lt (Double.fin 0) st2.lastVideoTimeSec &&
                  Double.lt audioVideoSyncThreshold
                    (Double.fabs (Double.sub current st2.lastVideoTimeSec))) }
          else st2
        | none => st2
      let w := st3.muxer.writePacket (some p.packet) false ret
      let handed := st3.muxer.formatContext && (st3.muxer.stream false).isSome
      let st4 := { st3 with muxer := w.2.1,
                            written := if handed then
                              st3.written ++ (w.2.2.map (fun q => (false, q))).toList
                              else st3.written }
      let st5 := if w.1 then
        { st4 with audioPacketCount := wrapInt (st4.audioPacketCount + 1),
                   packetProcessedCount := wrapInt (st4.packetProcessedCount + 1) }
        else st4
      (st5, true)

/-- The branch of lines 446-508: an element popped from the video queue. -/
def processVideo (ret : Int) (st : MuxLoop) (ptr : Option EncodedPacket)
    (rest : List (Option EncodedPacket)) : MuxLoop × Bool :=
  let st1 := { st with videoQueue := rest, poppedVideo := st.poppedVideo ++ [ptr] }
  match ptr with
  | none => (st1, false)
  | some p =>
    match p.data with
    | none => ({ st1 with videoFinished := true }, false)
    | some _ =>
      let st2 :=
        if !st1.audioFinished && st1.muxer.audioStream.isSome then
          let n := wrapInt (st1.audioSilenceCount + 1)
          { st1 with audioSilenceCount := n,
                     audioStreamInterrupted := st1.audioStreamInterrupted ||
                       decide (MAX_AUDIO_SILENCE ≤ n) }
        else st1
      let st3 :=
        match st2.muxer.videoStream with
        | some s =>
          if p.packet.pts ≠ AV_NOPTS_VALUE then
            let current := Double.mul (Double.ofInt64 p.packet.pts) (av_q2d s.codecTimeBase)
            { st2 with
              lastVideoTimeSec := current
              needSync := st2.needSync ||
                (Double.lt (Double.fin 0) st2.lastAudioTimeSec &&
                  Double.lt audioVideoSyncThreshold
                    (Double.fabs (Double.sub current st2.lastAudioTimeSec))) }
          else st2
        | none => st2
      let w := st3.muxer.writePacket (some p.packet) true ret
      let handed := st3.muxer.formatContext && (st3.muxer.stream true).isSome
      let st4 := { st3 with muxer := w.2.1,
                            written := if handed then
                              st3.written ++ (w.2.2.map (fun q => (true, q))).toList
                              else st3.written }
      let st5 := if w.1 then
        { st4 with videoPacketCount := wrapInt (st4.videoPacketCount + 1),
                   packetProcessedCount := wrapInt (st4.packetProcessedCount + 1) }
        else st4
      (st5, true)

/-- The three-way branch of lines 391-520 once `tryAudioFirst` is known: the audio
branch, the video branch, or the idle branch that counts `emptyQueueCount` up.  The
result is the state, the value of `processedPacket`, and whether the idle branch
executes `break`. -/
def dispatch (ret : Int) (audioFirst : Bool) (st : MuxLoop) : (MuxLoop × Bool) × Bool :=
  match audioFirst && !st.audioFinished, st.audioQueue with
  | true, ptr :: rest => (processAudio ret st ptr rest, false)
  | _, _ =>
    match !st.videoFinished, st.videoQueue with
    | true, ptr :: rest => (processVideo ret st ptr rest, false)
    | _, _ =>
      (({ st with emptyQueueCount := wrapInt (st.emptyQueueCount + 1) }, false),
        decide (MAX_EMPTY_COUNT ≤ wrapInt (st.emptyQueueCount + 1)))

/-- One evaluation of the loop condition and, if it holds, one execution of the loop
body.  The flag of the result says that the loop is left (by the condition or by
`break`), after which `finalizeFile()` is called. -/
def iteration (sqrt : Double → Double) (env : MuxEnv) (st0 : MuxLoop) : MuxLoop × Bool :=
  let st := { st0 with videoQueue := st0.videoQueue ++ env.pushVideo,
                       audioQueue := st0.audioQueue ++ env.pushAudio }
  if !(env.isRunning && (!st.videoFinished || !st.audioFinished)) then (st, true)
  else if env.isPaused then (st, false)
  else
    let counter := wrapInt (st.packetCounter + 1)
    let audioFirst := tryAudioFirst sqrt st counter
    let needSync := st.needSync || outOfSync sqrt st
    let result := dispatch env.ret audioFirst { st with packetCounter := counter, needSync := needSync }
    if result.2 then (result.1.1, true)
    else if result.1.2 then ({ result.1.1 with emptyQueueCount := 0 }, false)
    else (result.1.1, false)

/-- The loop under a schedule of the other threads, one entry per evaluation of the
loop condition: the state reached and whether the loop was left (so that
`finalizeFile()` is reached) within the schedule. -/
def run (sqrt : Double → Double) : List MuxEnv → MuxLoop → MuxLoop × Bool
  | [], st => (st, false)
  | env :: rest, st =>
    if (iteration sqrt env st).2 then ((iteration sqrt env st).1, true)
    else run sqrt rest (iteration sqrt env st).1

/-- Whether a queue element is an end-of-stream packet for the loop. -/
def isEos (ptr : Option EncodedPacket) : Bool :=
  match ptr with
  | some p => p.data.isNone
  | none => false

/-- An end-of-stream packet as the encoders push it: `data` is null. -/
def eosPacket : EncodedPacket :=
  { data := none, packet := { stream_index := 0, pts := AV_NOPTS_VALUE, dts := AV_NOPTS_VALUE,
                              duration := 0 } }

/-- A stand-in for the library square root in evaluations that never reach it. -/
def sampleSqrt (x : Double) : Double := x

/-- The schedule in which the muxer keeps running unpaused and nothing is pushed. -/
def quiet : MuxEnv :=
  { isRunning := true, isPaused := false, pushVideo := [], pushAudio := [], ret := 0 }

end MuxLoop

/-! ## The decoder and encoder threads

The four worker threads between the demultiplexer and the muxer.  The FFmpeg codec
(`avcodec_send_packet`, `avcodec_receive_frame`, `avcodec_send_frame`,
`avcodec_receive_packet`), the resampler and the filters are library code; they are
parameters of the model.  A receive loop (`while (ret >= 0) { ret = receive...; }`)
ends at the first negative return of the library, so the library is represented by
the burst it delivers: the values returned before that first negative return.
Allocation (`av_frame_alloc`, `av_packet_alloc`) is taken to succeed, exceptions and
the counters that are only printed are left out, and the elements of a packet queue
are taken to be non-null, as `Demux::demuxThreadFunc` pushes them. -/

/-- The value of `AVERROR(EAGAIN)`. -/
def AVERROR_EAGAIN : Int := -11

/-- The value of `AVERROR_EOF`. -/
def AVERROR_EOF : Int := -541478725

/-- The fields of an `AVPacket` that the decoder threads read. -/
structure CodecPacket where
  data : Option Nat
  size : Int
  flags : Nat
  deriving DecidableEq

/-- The fields of a video `AVFrame` that the decoder and the encoder read or write;
`data0` is `data[0]`. -/
structure VideoFrame where
  data0 : Option Nat
  pts : Int
  width : Int
  height : Int
  format : Int
  pict_type : Int
  key_frame : Int
  deriving DecidableEq

/-- The fields of an audio `AVFrame` that the audio stages read or write. -/
structure AudioFrame where
  pts : Int
  nb_samples : Int
  deriving DecidableEq

/-- The two atomic flags as a worker reads them at one evaluation of its loop
condition. -/
structure StageEnv where
  isRunning : Bool
  isPaused : Bool
  deriving DecidableEq

/-- The decoder library: `avcodec_send_packet` (the return code and the new codec
state) and the burst of `avcodec_receive_frame`. -/
structure DecoderLib (σ F : Type) where
  avcodec_send_packet : σ → Option CodecPacket → Int × σ
  receive_frames : σ → List F × σ

/-- The encoder library: `avcodec_send_frame`, the burst of `avcodec_receive_packet`
with the negative code that ended it, and `processFrame` of the filter (`none` when
it returns false). -/
structure EncoderLib (σ φ F : Type) where
  avcodec_send_frame : σ → Option F → Int × σ
  receive_packets : σ → List EncodedPacket × Int × σ
  processFrame : φ → F → Option F × φ

/-- The end-of-stream test of both decoder threads:
`pkt->data == NULL && pkt->size == 0 && (pkt->flags & 0x100)`. -/
def CodecPacket.isEof (pkt : CodecPacket) : Bool :=
  pkt.data.isNone && pkt.size == 0 && (pkt.flags &&& 0x100 != 0)

/-- The packet `Demux::demuxThreadFunc` pushes at the end of the file:
`flags = AV_PKT_FLAG_KEY | 0x100`. -/
def Demux.eofPkt : CodecPacket :=
  { data := none, size := 0, flags := 1 ||| 0x100 }

/-- The state of `VideoDecoder::decodeThreadFunc` after its prologue (which returns at
once without a codec context): the codec, the input queue, and what was pushed onto
the decoded-frame queue. -/
structure VideoDecodeLoop (σ : Type) where
  codecContext : σ
  packetQueue : List CodecPacket
  decodedFrameQueue : List VideoFrame
  receivedEOF : Bool

namespace VideoDecodeLoop

/-- The frame pushed as the end-of-stream marker (VideoDecoder.cpp, lines 433-446). -/
def eofFrame : VideoFrame :=
  { data0 := none, pts := AV_NOPTS_VALUE, width := 0, height := 0, format := -1,
    pict_type := 0, key_frame := 0 }

/-- One evaluation of `while (isRunning)` and, if it holds, one execution of the
body.  The flag says that the loop is left. -/
def iteration {σ : Type} (lib : DecoderLib σ VideoFrame) (env : StageEnv)
    (st : VideoDecodeLoop σ) : VideoDecodeLoop σ × Bool :=
  if !env.isRunning then (st, true)
  else if env.isPaused then (st, false)
  else
    match st.packetQueue with
    | [] => (st, false)
    | pkt :: rest =>
      if pkt.isEof then
        let sent := lib.avcodec_send_packet st.codecContext none
        let burst := lib.receive_frames sent.2
        ({ st with packetQueue := rest, receivedEOF := true, codecContext := burst.2,
                   decodedFrameQueue := st.decodedFrameQueue ++ burst.1 ++ [eofFrame] }, true)
      else
        let sent := lib.avcodec_send_packet st.codecContext (some pkt)
        if sent.1 < 0 then ({ st with packetQueue := rest, codecContext := sent.2 }, false)
        else
          let burst := lib.receive_frames sent.2
          ({ st with packetQueue := rest, codecContext := burst.2,
                     decodedFrameQueue := st.decodedFrameQueue ++ burst.1 }, false)

/-- The loop of `VideoDecoder::decodeThreadFunc` under a schedule of flag values, one
entry per evaluation of the loop condition: the state reached and whether the loop
was left within the schedule. -/
def decodeThreadFunc {σ : Type} (lib : DecoderLib σ VideoFrame) :
    List StageEnv → VideoDecodeLoop σ → VideoDecodeLoop σ × Bool
  | [], st => (st, false)
  | env :: rest, st =>
    if (iteration lib env st).2 then ((iteration lib env st).1, true)
    else decodeThreadFunc lib rest (iteration lib env st).1

/-- The locals and queues when the loop is entered. -/
def start {σ : Type} (ctx : σ) (packetQueue : List CodecPacket) : VideoDecodeLoop σ :=
  { codecContext := ctx, packetQueue := packetQueue, decodedFrameQueue := [],
    receivedEOF := false }

end VideoDecodeLoop

/-- The state of a `VideoEncoder` and of its `encodeThreadFunc`: the members the
thread uses, the input queue, what was pushed onto the encoded-packet queue, and a
record of the frames handed to `avcodec_send_frame`. -/
structure VideoEncodeLoop (σ φ : Type) where
  codecContext : Option σ
  codecName : String
  frameCount : Int
  useFilter : Bool
  videoFilter : Option φ
  filterFailCount : Int
  frameQueue : List (Option VideoFrame)
  packetQueue : List EncodedPacket
  receivedEOF : Bool
  submitted : List (Option VideoFrame)

namespace VideoEncodeLoop

/-- The value of `AV_PICTURE_TYPE_I`. -/
def AV_PICTURE_TYPE_I : Int := 1

/-- The value of `AV_PICTURE_TYPE_P`. -/
def AV_PICTURE_TYPE_P : Int := 2

/-- The end-of-stream test of `VideoEncoder::encodeThreadFunc`:
`format == -1 || width == 0 || height == 0 || data[0] == nullptr`. -/
def isEofFrame (frame : VideoFrame) : Bool :=
  frame.format == -1 || frame.width == 0 || frame.height == 0 || frame.data0.isNone

/-- The packet `VideoEncoder::sendEOF` pushes: a fresh packet with `data = nullptr`,
`size = 0` and the flag `0x100`. -/
def eofPacket : EncodedPacket :=
  { data := none, packet := { stream_index := 0, pts := AV_NOPTS_VALUE, dts := AV_NOPTS_VALUE,
                              duration := 0 } }

/-- The timestamp and picture type `encodeFrame` gives a non-null frame before it is
sent: `frame->pts = frameCount++`, and for "mpeg4" an I frame when the incremented
count is a multiple of 15 and a P frame otherwise. -/
def stamp (codecName : String) (frameCount : Int) (frame : VideoFrame) : VideoFrame :=
  if codecName = "mpeg4" then
    if wrapInt (frameCount + 1) % 15 = 0 then
      { frame with pts := frameCount, pict_type := AV_PICTURE_TYPE_I, key_frame := 1 }
    else
      { frame with pts := frameCount, pict_type := AV_PICTURE_TYPE_P, key_frame := 0 }
  else { frame with pts := frameCount }

/-- The receive loop of `encodeFrame`: every packet of the burst is pushed; the result
is `packetReceived` when the burst ended with `EAGAIN` or `AVERROR_EOF`, and false
when it ended with another error. -/
def receiveLoop {σ φ : Type} (lib : EncoderLib σ φ VideoFrame) (st : VideoEncodeLoop σ φ)
    (ctx : σ) : VideoEncodeLoop σ φ × Bool :=
  let burst := lib.receive_packets ctx
  ({ st with codecContext := some burst.2.2, packetQueue := st.packetQueue ++ burst.1 },
    if burst.2.1 = AVERROR_EAGAIN ∨ burst.2.1 = AVERROR_EOF then !burst.1.isEmpty else false)

/-- The method `VideoEncoder::encodeFrame(AVFrame *frame)`; `none` is the null frame
that flushes the codec. -/
def encodeFrame {σ φ : Type} (lib : EncoderLib σ φ VideoFrame) (st : VideoEncodeLoop σ φ)
    (frame : Option VideoFrame) : VideoEncodeLoop σ φ × Bool :=
  match st.codecContext with
  | none => (st, false)
  | some ctx =>
    let stamped := frame.map (stamp st.codecName st.frameCount)
    let st1 := if frame.isSome then { st with frameCount := wrapInt (st.frameCount + 1) } else st
    let sent := lib.avcodec_send_frame ctx stamped
    let st2 := { st1 with codecContext := some sent.2, submitted := st1.submitted ++ [stamped] }
    if sent.1 < 0 then
      match stamped with
      | some f =>
        if st.codecName = "mpeg4" then
          let again := some { f with pict_type := AV_PICTURE_TYPE_I, key_frame := 1 }
          let resent := lib.avcodec_send_frame sent.2 again
          let st3 := { st2 with codecContext := some resent.2,
                                submitted := st2.submitted ++ [again] }
          if resent.1 < 0 then (st3, false) else receiveLoop lib st3 resent.2
        else (st2, false)
      | none => (st2, false)
    else receiveLoop lib st2 sent.2

/-- The method `VideoEncoder::sendEOF()`. -/
def sendEOF {σ φ : Type} (lib : EncoderLib σ φ VideoFrame) (st : VideoEncodeLoop σ φ) :
    VideoEncodeLoop σ φ :=
  match st.codecContext with
  | none => { st with packetQueue := st.packetQueue ++ [eofPacket] }
  | some _ =>
    { (encodeFrame lib st none).1 with
      packetQueue := (encodeFrame lib st none).1.packetQueue ++ [eofPacket] }

/-- The method `VideoEncoder::flush()`. -/
def flush {σ φ : Type} (lib : EncoderLib σ φ VideoFrame) (st : VideoEncodeLoop σ φ) :
    VideoEncodeLoop σ φ :=
  match st.codecContext with
  | none => sendEOF lib st
  | some _ => sendEOF lib (encodeFrame lib st none).1

/-- The filter step of the loop body (lines 665-693): the state and `frameToEncode`. -/
def applyFilter {σ φ : Type} (lib : EncoderLib σ φ VideoFrame) (st : VideoEncodeLoop σ φ)
    (frame : VideoFrame) : VideoEncodeLoop σ φ × VideoFrame :=
  if st.useFilter then
    match st.videoFilter with
    | some flt =>
      match (lib.processFrame flt frame).1 with
      | some out =>
        ({ st with videoFilter := some (lib.processFrame flt frame).2, filterFailCount := 0 }, out)
      | none =>
        ({ st with videoFilter := some (lib.processFrame flt frame).2,
                   filterFailCount := wrapInt (st.filterFailCount + 1),
                   useFilter := decide (wrapInt (st.filterFailCount + 1) ≤ 10) }, frame)
    | none => (st, frame)
  else (st, frame)

/-- One evaluation of `while (isRunning && !receivedEOF)` and, if it holds, one
execution of the body.  The flag says that the loop is left. -/
def iteration {σ φ : Type} (lib : EncoderLib σ φ VideoFrame) (env : StageEnv)
    (st : VideoEncodeLoop σ φ) : VideoEncodeLoop σ φ × Bool :=
  if !(env.isRunning && !st.receivedEOF) then (st, true)
  else if env.isPaused then (st, false)
  else
    match st.frameQueue with
    | [] => (st, false)
    | none :: rest => ({ st with frameQueue := rest }, false)
    | some frame :: rest =>
      if isEofFrame frame then
        (flush lib { st with frameQueue := rest, receivedEOF := true }, false)
      else
        let filtered := applyFilter lib { st with frameQueue := rest } frame
        if filtered.2.data0.isSome then
          ((encodeFrame lib filtered.1 (some filtered.2)).1, false)
        else (filtered.1, false)

/-- The loop of `VideoEncoder::encodeThreadFunc` under a schedule of flag values. -/
def encodeThreadFunc {σ φ : Type} (lib : EncoderLib σ φ VideoFrame) :
    List StageEnv → VideoEncodeLoop σ φ → VideoEncodeLoop σ φ × Bool
  | [], st => (st, false)
  | env :: rest, st =>
    if (iteration lib env st).2 then ((iteration lib env st).1, true)
    else encodeThreadFunc lib rest (iteration lib env st).1

/-- A freshly initialised encoder with the given codec and input queue. -/
def start {σ φ : Type} (ctx : Option σ) (codecName : String)
    (frameQueue : List (Option VideoFrame)) : VideoEncodeLoop σ φ :=
  { codecContext := ctx, codecName := codecName, frameCount := 0, useFilter := false,
    videoFilter := none, filterFailCount := 0, frameQueue := frameQueue, packetQueue := [],
    receivedEOF := false, submitted := [] }

end VideoEncodeLoop

/-- The state of `AudioDecoder::decodeThreadFunc` after its prologue, with the static
locals of `processAudioSamples`: `buffered` is the number of samples in `leftChannel`
(and in `rightChannel`). -/
structure AudioDecodeLoop (σ : Type) where
  codecContext : σ
  packetQueue : List CodecPacket
  decodedFrameQueue : List AudioFrame
  receivedEOF : Bool
  buffered : Nat
  lastPts : Int
  framePts : Int

namespace AudioDecodeLoop

/-- The value of `AC3_FRAME_SIZE`. -/
def AC3_FRAME_SIZE : Nat := 1536

/-- The loop `while (leftChannel.size() >= AC3_FRAME_SIZE)` of `processAudioSamples`,
for the number of rounds it makes. -/
def pushFrames {σ : Type} : Nat → AudioDecodeLoop σ → AudioDecodeLoop σ
  | 0, st => st
  | n + 1, st =>
    pushFrames n { st with
      buffered := st.buffered - AC3_FRAME_SIZE,
      framePts := wrapInt64 (st.framePts + AC3_FRAME_SIZE),
      decodedFrameQueue := st.decodedFrameQueue ++
        [{ pts := st.framePts, nb_samples := AC3_FRAME_SIZE }] }

/-- The method `AudioDecoder::processAudioSamples(data, samplesCount, pts)`: the
samples are appended to the buffer, and one frame of 1536 samples is pushed for every
full 1536 samples buffered. -/
def processAudioSamples {σ : Type} (st : AudioDecodeLoop σ) (samplesCount : Nat) (pts : Int) :
    AudioDecodeLoop σ :=
  pushFrames ((st.buffered + samplesCount) / AC3_FRAME_SIZE)
    { st with lastPts := if 0 < pts then pts else st.lastPts,
              buffered := st.buffered + samplesCount }

/-- The receive loop of the thread: for every frame of the burst, given by the number
of samples the resampler produced for it and its pts, `processAudioSamples`. -/
def receiveLoop {σ : Type} (st : AudioDecodeLoop σ) (burst : List (Nat × Int)) :
    AudioDecodeLoop σ :=
  burst.foldl (fun acc frame => processAudioSamples acc frame.1 frame.2) st

/-- One evaluation of `while (isRunning)` and, if it holds, one execution of the
body.  The flag says that the loop is left. -/
def iteration {σ : Type} (lib : DecoderLib σ (Nat × Int)) (env : StageEnv)
    (st : AudioDecodeLoop σ) : AudioDecodeLoop σ × Bool :=
  if !env.isRunning then (st, true)
  else if env.isPaused then (st, false)
  else
    match st.packetQueue with
    | [] => (st, false)
    | pkt :: rest =>
      if pkt.isEof then
        let sent := lib.avcodec_send_packet st.codecContext none
        let burst := lib.receive_frames sent.2
        (receiveLoop { st with packetQueue := rest, receivedEOF := true,
                               codecContext := burst.2 } burst.1, true)
      else
        let sent := lib.avcodec_send_packet st.codecContext (some pkt)
        if sent.1 < 0 then ({ st with packetQueue := rest, codecContext := sent.2 }, false)
        else
          let burst := lib.receive_frames sent.2
          (receiveLoop { st with packetQueue := rest, codecContext := burst.2 } burst.1, false)

/-- The loop of `AudioDecoder::decodeThreadFunc` under a schedule of flag values. -/
def decodeThreadFunc {σ : Type} (lib : DecoderLib σ (Nat × Int)) :
    List StageEnv → AudioDecodeLoop σ → AudioDecodeLoop σ × Bool
  | [], st => (st, false)
  | env :: rest, st =>
    if (iteration lib env st).2 then ((iteration lib env st).1, true)
    else decodeThreadFunc lib rest (iteration lib env st).1

/-- The locals and queues when the loop is entered for the first time. -/
def start {σ : Type} (ctx : σ) (packetQueue : List CodecPacket) : AudioDecodeLoop σ :=
  { codecContext := ctx, packetQueue := packetQueue, decodedFrameQueue := [],
    receivedEOF := false, buffered := 0, lastPts := 0, framePts := 0 }

end AudioDecodeLoop

/-- Where the thread of `AudioEncoder::encodeThreadFunc` stands: before the test of
`while (isRunning)`, inside `frameQueue.pop()`, or after the function returned. -/
inductive EncodeAt where
  | loopTest
  | pop
  | finished
  deriving DecidableEq

/-- Where the caller of `AudioEncoder::stop()` stands: before the call, inside
`encodeThread.join()`, or after `stop()` returned. -/
inductive StopAt where
  | call
  | join
  | returned
  deriving DecidableEq

/-- The two threads of the model. -/
inductive Turn where
  | worker
  | caller
  deriving DecidableEq

/-- The state of an `AudioEncoder` whose thread was started: the members the thread
and `stop()` use, the input queue, what was pushed onto the encoded-packet queue, a
record of the frames handed to `avcodec_send_frame`, and where the two threads
stand.  `isAc3` is the test `codec_id == AV_CODEC_ID_AC3 && strcmp(codec->name, "ac3")
== 0`; `audioFilter` is present when `useFilter && audioFilter` holds. -/
structure AudioEncodeLoop (σ φ : Type) where
  codecContext : Option σ
  isAc3 : Bool
  audioFilter : Option φ
  nextPts : Int
  frameCount : Int
  isRunning : Bool
  isPaused : Bool
  frameQueue : List (Option AudioFrame)
  packetQueue : List EncodedPacket
  submitted : List (Option AudioFrame)
  worker : EncodeAt
  caller : StopAt

namespace AudioEncodeLoop

/-- The correction of a received packet before it is pushed:
`if (packet->dts == AV_NOPTS_VALUE || packet->dts < 0) packet->dts = packet->pts`. -/
def fixDts (p : EncodedPacket) : EncodedPacket :=
  if p.packet.dts = AV_NOPTS_VALUE ∨ p.packet.dts < 0 then
    { p with packet := { p.packet with dts := p.packet.pts } }
  else p

/-- The receive loop of `encodeFrame`: every packet of the burst is corrected, counted
and pushed; the result is false when the burst ended with an error other than
`EAGAIN` and `AVERROR_EOF`. -/
def receiveLoop {σ φ : Type} (lib : EncoderLib σ φ AudioFrame) (st : AudioEncodeLoop σ φ)
    (ctx : σ) : AudioEncodeLoop σ φ × Bool :=
  let burst := lib.receive_packets ctx
  ({ st with codecContext := some burst.2.2,
             frameCount := wrapInt (st.frameCount + burst.1.length),
             packetQueue := st.packetQueue ++ burst.1.map fixDts },
    decide (burst.2.1 = AVERROR_EAGAIN ∨ burst.2.1 = AVERROR_EOF))

/-- The frame after the timestamp correction of lines 278-282. -/
def fixPts (nextPts : Int) (frame : AudioFrame) : AudioFrame :=
  if frame.pts = AV_NOPTS_VALUE ∨ frame.pts < nextPts then { frame with pts := nextPts }
  else frame

/-- The method `AudioEncoder::encodeFrame(AVFrame *frame)`; `none` is the null frame
that flushes the codec. -/
def encodeFrame {σ φ : Type} (lib : EncoderLib σ φ AudioFrame) (st : AudioEncodeLoop σ φ)
    (frame : Option AudioFrame) : AudioEncodeLoop σ φ × Bool :=
  match st.codecContext with
  | none => (st, false)
  | some ctx =>
    let filtered : AudioEncodeLoop σ φ × Option AudioFrame :=
      match st.audioFilter, frame with
      | some flt, some f =>
        ({ st with audioFilter := some (lib.processFrame flt f).2 },
          some (((lib.processFrame flt f).1).getD f))
      | _, _ => (st, frame)
    match filtered.2 with
    | none =>
      let sent := lib.avcodec_send_frame ctx none
      let st1 := { filtered.1 with codecContext := some sent.2,
                                    submitted := filtered.1.submitted ++ [none] }
      if sent.1 < 0 then (st1, false) else receiveLoop lib st1 sent.2
    | some f =>
      let f1 := fixPts filtered.1.nextPts f
      let resize := filtered.1.isAc3 && f1.nb_samples != 1536
      let f2 := if resize then { f1 with nb_samples := 1536 } else f1
      let next := if resize then wrapInt64 (f1.pts + 1536)
        else wrapInt64 (f1.pts + f1.nb_samples)
      let sent := lib.avcodec_send_frame ctx (some f2)
      let st1 := { filtered.1 with nextPts := next, codecContext := some sent.2,
                                    submitted := filtered.1.submitted ++ [some f2] }
      if sent.1 < 0 then (st1, false) else receiveLoop lib st1 sent.2

/-- The method `AudioEncoder::sendEOF()`. -/
def sendEOF {σ φ : Type} (lib : EncoderLib σ φ AudioFrame) (st : AudioEncodeLoop σ φ) :
    AudioEncodeLoop σ φ :=
  match st.codecContext with
  | some _ => (encodeFrame lib st none).1
  | none => st

/-- One step of the thread of `AudioEncoder::encodeThreadFunc`.  Inside `pop()` with
the queue empty the thread waits on the condition variable, whose predicate
`!isEmptyUnsafe()` stays false: the step changes nothing. -/
def encodeThreadFunc {σ φ : Type} (lib : EncoderLib σ φ AudioFrame) (st : AudioEncodeLoop σ φ) :
    AudioEncodeLoop σ φ :=
  match st.worker with
  | EncodeAt.loopTest =>
    if st.isRunning then
      if st.isPaused then st else { st with worker := EncodeAt.pop }
    else { sendEOF lib st with worker := EncodeAt.finished }
  | EncodeAt.pop =>
    match st.frameQueue with
    | [] => st
    | none :: rest => { st with frameQueue := rest, worker := EncodeAt.loopTest }
    | some frame :: rest =>
      { (encodeFrame lib { st with frameQueue := rest } (some frame)).1 with
        worker := EncodeAt.loopTest }
  | EncodeAt.finished => st

/-- One step of the caller of `AudioEncoder::stop()`.  Inside `join()` the caller
waits until the thread function has returned. -/
def stop {σ φ : Type} (st : AudioEncodeLoop σ φ) : AudioEncodeLoop σ φ :=
  match st.caller with
  | StopAt.call =>
    if !st.isRunning then { st with caller := StopAt.returned }
    else { st with isRunning := false, caller := StopAt.join }
  | StopAt.join =>
    if st.worker = EncodeAt.finished then { st with caller := StopAt.returned } else st
  | StopAt.returned => st

/-- The two threads interleaved as the list says; nothing else pushes onto the frame
queue. -/
def schedule {σ φ : Type} (lib : EncoderLib σ φ AudioFrame) :
    List Turn → AudioEncodeLoop σ φ → AudioEncodeLoop σ φ
  | [], st => st
  | Turn.worker :: rest, st => schedule lib rest (encodeThreadFunc lib st)
  | Turn.caller :: rest, st => schedule lib rest (stop st)

/-- A started encoder with the given codec and input queue, its thread before the
first test of the loop condition. -/
def start {σ φ : Type} (ctx : Option σ) (frameQueue : List (Option AudioFrame)) :
    AudioEncodeLoop σ φ :=
  { codecContext := ctx, isAc3 := false, audioFilter := none, nextPts := 0, frameCount := 0,
    isRunning := true, isPaused := false, frameQueue := frameQueue, packetQueue := [],
    submitted := [], worker := EncodeAt.loopTest, caller := StopAt.call }

end AudioEncodeLoop

/-! ### Sample libraries and scenarios -/

/-- A decoder that never delivers a frame. -/
def silentDecoder (F : Type) : DecoderLib Unit F :=
  { avcodec_send_packet := fun _ _ => (0, ()),
    receive_frames := fun _ => ([], ()) }

/-- An encoder that never delivers a packet. -/
def silentEncoder (F : Type) : EncoderLib Unit Unit F :=
  { avcodec_send_frame := fun _ _ => (0, ()),
    receive_packets := fun _ => ([], AVERROR_EAGAIN, ()),
    processFrame := fun _ f => (some f, ()) }

/-- A schedule of flag values in which the stage keeps running unpaused. -/
def steady (n : Nat) : List StageEnv :=
  List.replicate n { isRunning := true, isPaused := false }

/-- An audio encoder whose thread waits in `pop()` on an empty frame queue while
`stop()` is about to be called. -/
def AudioEncodeLoop.blocked : AudioEncodeLoop Unit Unit :=
  { (AudioEncodeLoop.start (some ()) [] : AudioEncodeLoop Unit Unit) with
    worker := EncodeAt.pop }

namespace MuxLoop

/-- A data packet of an encoder, with pts 8. -/
def dataPacket : EncodedPacket :=
  { data := some 1, packet := { stream_index := 0, pts := 8, dts := 8, duration := 1 } }

/-- The loop after ten seconds of audio were processed and no video packet yet:
`lastVideoTimeSec` still has its initial value `0.0`. -/
def audioAhead : MuxLoop :=
  { start Muxer.initialised [] [] with lastAudioTimeSec := Double.fin 10 }

/-- The loop entered with one audio data packet queued and no video packet. -/
def audioOnly : MuxLoop := start Muxer.initialised [] [some dataPacket]

/-- The loop after the video stream ended at one second while the audio stands at ten
seconds, with one more audio data packet queued. -/
def audioLeft : MuxLoop :=
  { start Muxer.initialised [] [some dataPacket] with
    lastAudioTimeSec := Double.fin 10, lastVideoTimeSec := Double.fin 1,
    videoFinished := true, poppedVideo := [some eosPacket] }

/-- The loop of a muxer that has already emitted video timestamps around 1000. -/
def afterThousand : MuxLoop := start Muxer.advanced [] []

/-- A bound on the number of further rounds of a loop into which nothing is pushed:
one hundred for every queued element, plus the idle rounds still allowed. -/
def remaining (st : MuxLoop) : Nat :=
  100 * (st.videoQueue.length + st.audioQueue.length) + (MAX_EMPTY_COUNT - st.emptyQueueCount).toNat

end MuxLoop

/-! ### Packets used in the speed scenarios -/

namespace Muxer

/-- A packet with the negative pts and dts -1. -/
def negativePacket : AVPacket :=
  { stream_index := 0, pts := -1, dts := -1, duration := 1 }

/-- A packet with pts 10, dts 9 and duration 4. -/
def tenPacket : AVPacket :=
  { stream_index := 0, pts := 10, dts := 9, duration := 4 }

end Muxer

/-! ### Sequences of calls on one queue -/

namespace ThreadSafeQueue

variable {T : Type}

/-- One call of a public method that can change the queue. -/
inductive Call (T : Type) where
  | push (value : T) : Call T
  | pop : Call T
  | tryPop (value : T) : Call T
  | clear : Call T

/-- What a call that returned did. -/
inductive Event where
  /-- The method `push` returned. -/
  | pushed : Event
  /-- The method `pop` returned, or `tryPop` returned true. -/
  | popped : Event
  /-- The method `tryPop` returned false. -/
  | missed : Event
  /-- The method `clear` returned. -/
  | cleared : Event
  deriving DecidableEq

/-- Runs one call and reports what it did.  The loop of `clear` deletes one node per
iteration, and no more than `fresh` nodes were ever allocated, so it is given `fresh`
iterations. -/
def call (q : ThreadSafeQueue T) : Call T → Outcome (Event × ThreadSafeQueue T)
  | Call.push v =>
    match q.push v with
    | Outcome.ok q1 => Outcome.ok (Event.pushed, q1)
    | Outcome.blocked => Outcome.blocked
    | Outcome.fault => Outcome.fault
    | Outcome.unfinished => Outcome.unfinished
  | Call.pop =>
    match q.pop with
    | Outcome.ok (_, q1) => Outcome.ok (Event.popped, q1)
    | Outcome.blocked => Outcome.blocked
    | Outcome.fault => Outcome.fault
    | Outcome.unfinished => Outcome.unfinished
  | Call.tryPop value =>
    match q.tryPop value with
    | Outcome.ok (true, _, q1) => Outcome.ok (Event.popped, q1)
    | Outcome.ok (false, _, q1) => Outcome.ok (Event.missed, q1)
    | Outcome.blocked => Outcome.blocked
    | Outcome.fault => Outcome.fault
    | Outcome.unfinished => Outcome.unfinished
  | Call.clear =>
    match q.clear q.fresh with
    | Outcome.ok q1 => Outcome.ok (Event.cleared, q1)
    | Outcome.blocked => Outcome.blocked
    | Outcome.fault => Outcome.fault
    | Outcome.unfinished => Outcome.unfinished

/-- Runs the calls one after another, appending what each did to `log`; a call that
does not return ends the run with its outcome. -/
def calls : List (Call T) → ThreadSafeQueue T → List Event →
    Outcome (List Event × ThreadSafeQueue T)
  | [], q, log => Outcome.ok (log, q)
  | c :: rest, q, log =>
    match q.call c with
    | Outcome.ok (e, q1) => calls rest q1 (log ++ [e])
    | Outcome.blocked => Outcome.blocked
    | Outcome.fault => Outcome.fault
    | Outcome.unfinished => Outcome.unfinished

/-- The sequences of calls considered, for a queue that holds `n` elements: every
`pop` is made on a non-empty queue, and no `push` is made on a queue that already
holds `INT_MAX` elements (where `size++` would overflow the `int`). -/
def Call.allowed : List (Call T) → Nat → Bool
  | [], _ => true
  | Call.push _ :: rest, n => decide ((n : Int) < INT_MAX) && Call.allowed rest (n + 1)
  | Call.pop :: rest, n => decide (0 < n) && Call.allowed rest (n - 1)
  | Call.tryPop _ :: rest, n => Call.allowed rest (n - 1)
  | Call.clear :: rest, _ => Call.allowed rest 0

/-- The part of a log after its last `cleared`. -/
def sinceClear (log : List Event) : List Event :=
  (log.reverse.takeWhile (fun e => e != Event.cleared)).reverse

/-- The number of pushes minus the number of successful pops since the last clear,
as the specification counts them. -/
def netSinceClear (log : List Event) : Int :=
  ((sinceClear log).count Event.pushed : Int) - ((sinceClear log).count Event.popped : Int)

/-- A sequence of calls on queues of numbers. -/
def sampleCalls : List (Call Nat) :=
  [Call.push 1, Call.push 2, Call.pop, Call.tryPop 0, Call.tryPop 0, Call.clear, Call.push 3,
   Call.push 4, Call.clear, Call.push 5, Call.push 6, Call.tryPop 0]

end ThreadSafeQueue

/-! ### Sequences of calls on one ring buffer -/

namespace RingBuffer

variable {T : Type}

/-- One call of a public method of the buffer, with its arguments (`item` of `read`
and `peek` is the caller's variable). -/
inductive Op (T : Type) where
  | write (item : T) : Op T
  | writeMultiple (items : List T) : Op T
  | read (item : T) : Op T
  | readMultiple (count : Nat) : Op T
  | peek (item : T) : Op T
  | clear : Op T

/-- The buffer after one call on the generic class; `peek` is `const`. -/
def apply (b : RingBuffer T) : Op T → RingBuffer T
  | Op.write item => (b.write item).2
  | Op.writeMultiple items => (b.writeMultiple items).2
  | Op.read item => (b.read item).2.2
  | Op.readMultiple count => (b.readMultiple count).2.2
  | Op.peek _ => b
  | Op.clear => b.clear

/-- The buffer after a sequence of calls on the generic class. -/
def run (ops : List (Op T)) (b : RingBuffer T) : RingBuffer T := ops.foldl apply b

end RingBuffer

namespace ByteRingBuffer

/-- The buffer after one call on the byte specialisation, whose `write`, `read`,
`peek` and `clear` have the bodies of the generic class. -/
def apply (b : ByteRingBuffer) : RingBuffer.Op Nat → ByteRingBuffer
  | RingBuffer.Op.write item => (RingBuffer.write b item).2
  | RingBuffer.Op.writeMultiple items => (ByteRingBuffer.writeMultiple b items).2
  | RingBuffer.Op.read item => (RingBuffer.read b item).2.2
  | RingBuffer.Op.readMultiple count => (ByteRingBuffer.readMultiple b count).2.2
  | RingBuffer.Op.peek _ => b
  | RingBuffer.Op.clear => RingBuffer.clear b

/-- The buffer after a sequence of calls on the byte specialisation. -/
def run (ops : List (RingBuffer.Op Nat)) (b : ByteRingBuffer) : ByteRingBuffer :=
  ops.foldl apply b

/-- The parts of `buffer` that the copy at the end of the specialised `writeMultiple`
writes for `count` bytes, each as (first index, length): one `memcpy` to `tail`, or
one to `tail` up to the end of the array and one to index 0. -/
def copyRanges (b : ByteRingBuffer) (count : Nat) : List (Nat × Nat) :=
  if b.tail + count ≤ b.capacity then [(b.tail, count)]
  else [(b.tail, b.capacity - b.tail), (0, count - (b.capacity - b.tail))]

/-- The parts of `buffer` written by the `memcpy` calls of the specialised
`writeMultiple`, branch by branch. -/
def writeRanges (b : ByteRingBuffer) (items : List Nat) : List (Nat × Nat) :=
  let count := items.length
  if count = 0 then []
  else if b.isFull && !b.overwrite then []
  else
    let available := b.capacity - b.size
    if b.overwrite && decide (count > b.capacity) then copyRanges b.clear b.capacity
    else if decide (count > available) && b.overwrite then
      let overflow := count - available
      copyRanges { b with head := (b.head + overflow) % b.capacity,
                          size := b.size - overflow } count
    else if count > available then copyRanges b available
    else copyRanges b count

/-- The parts of `buffer` read by the `memcpy` calls of the specialised
`readMultiple`, each as (first index, length). -/
def readRanges (b : ByteRingBuffer) (count : Nat) : List (Nat × Nat) :=
  if b.isEmpty || count == 0 then []
  else
    let count := if count > b.size then b.size else count
    if b.head + count ≤ b.capacity then [(b.head, count)]
    else [(b.head, b.capacity - b.head), (0, count - (b.capacity - b.head))]

/-- A sequence of calls on a byte buffer. -/
def sampleOps : List (RingBuffer.Op Nat) :=
  [RingBuffer.Op.write 7, RingBuffer.Op.writeMultiple [1, 2, 3, 4, 5], RingBuffer.Op.read 0,
   RingBuffer.Op.peek 0, RingBuffer.Op.writeMultiple [8, 9], RingBuffer.Op.readMultiple 2,
   RingBuffer.Op.clear, RingBuffer.Op.writeMultiple [6]]

end ByteRingBuffer

/-! ### Successive calls of `VideoEncoder::encodeFrame` -/

namespace VideoEncodeLoop

/-- The method `VideoEncoder::getFrameCount`. -/
def getFrameCount {σ φ : Type} (st : VideoEncodeLoop σ φ) : Int := st.frameCount

/-- Successive calls of `encodeFrame`, one for each element of `frames` in order
(`none` is a null frame); the returned flags are dropped. -/
def encodeFrames {σ φ : Type} (lib : EncoderLib σ φ VideoFrame) :
    VideoEncodeLoop σ φ → List (Option VideoFrame) → VideoEncodeLoop σ φ
  | st, [] => st
  | st, frame :: rest => encodeFrames lib (encodeFrame lib st frame).1 rest

/-- An encoder whose `avcodec_send_frame` fails on every call. -/
def failingEncoder : EncoderLib Unit Unit VideoFrame :=
  { avcodec_send_frame := fun _ _ => (-22, ()),
    receive_packets := fun _ => ([], AVERROR_EAGAIN, ()),
    processFrame := fun _ f => (some f, ()) }

/-- A picture of 640 by 480 that carries the given pts. -/
def pictureAt (pts : Int) : VideoFrame :=
  { data0 := some 1, pts := pts, width := 640, height := 480, format := 0, pict_type := 0,
    key_frame := 0 }

end VideoEncodeLoop

/-! ### Successive calls of `AudioEncoder::encodeFrame` -/

namespace AudioEncodeLoop

/-- Successive calls of `encodeFrame`, one for each frame of `frames` in order; the
returned flags are dropped. -/
def encodeFrames {σ φ : Type} (lib : EncoderLib σ φ AudioFrame) :
    AudioEncodeLoop σ φ → List AudioFrame → AudioEncodeLoop σ φ
  | st, [] => st
  | st, frame :: rest => encodeFrames lib (encodeFrame lib st (some frame)).1 rest

/-- The non-null frames handed to `avcodec_send_frame` by these calls, in order. -/
def sentBy {σ φ : Type} (lib : EncoderLib σ φ AudioFrame) (st : AudioEncodeLoop σ φ)
    (frames : List AudioFrame) : List AudioFrame :=
  ((encodeFrames lib st frames).submitted.drop st.submitted.length).filterMap id

/-- Three frames as a decoder may deliver them: one without a pts, one whose pts lies
in the past, one whose pts lies ahead. -/
def sampleFrames : List AudioFrame :=
  [{ pts := AV_NOPTS_VALUE, nb_samples := 1024 }, { pts := 5, nb_samples := 1024 },
   { pts := 5000, nb_samples := 512 }]

/-- An initialised AC3 encoder with a filter that has encoded nothing yet. -/
def ac3Start : AudioEncodeLoop Unit Unit :=
  { (start (some ()) [] : AudioEncodeLoop Unit Unit) with isAc3 := true, audioFilter := some () }

end AudioEncodeLoop

/-! ## The arithmetic of `double` as a parameter

The operations `+`, `-`, `*`, `/` and the conversion from `int64_t` round their result
to the nearest `double`.  The definitions below repeat the parts of `Muxer.cpp` that
compute with `double` values, with these five operations taken from a parameter `A`;
comparisons, `fabs` and the conversion to `int64_t` do not round and are those of
`Double`. -/

namespace Double

/-- The finite values of a binary64 `double`: a significand of at most 53 bits times
a power of two with exponent from -1074 to 971. -/
def Representable (q : ℚ) : Prop :=
  ∃ m e : Int, |m| < 2 ^ 53 ∧ -1074 ≤ e ∧ e ≤ 971 ∧ q = (m : ℚ) * (2 : ℚ) ^ e

end Double

/-- The rounding operations of `double` arithmetic: `x + y`, `x - y`, `x * y`, `x / y`
and `static_cast<double>(t)` for an `int64_t`. -/
structure Arith where
  add : Double → Double → Double
  sub : Double → Double → Double
  mul : Double → Double → Double
  div : Double → Double → Double
  ofInt64 : Int → Double

namespace Arith

/-- Arithmetic that never rounds. -/
def exact : Arith :=
  { add := Double.add, sub := Double.sub, mul := Double.mul, div := Double.div,
    ofInt64 := Double.ofInt64 }

/-- Correct rounding as IEEE 754 requires it of the five operations: on `double`
operands, a result that is itself a `double` is returned exactly. -/
structure Correct (A : Arith) : Prop where
  ofInt64_exact : ∀ t : Int, Double.Representable (t : ℚ) → A.ofInt64 t = Double.fin (t : ℚ)
  add_exact : ∀ x y : ℚ, Double.Representable x → Double.Representable y →
    Double.Representable (x + y) → A.add (Double.fin x) (Double.fin y) = Double.fin (x + y)
  sub_exact : ∀ x y : ℚ, Double.Representable x → Double.Representable y →
    Double.Representable (x - y) → A.sub (Double.fin x) (Double.fin y) = Double.fin (x - y)
  mul_exact : ∀ x y : ℚ, Double.Representable x → Double.Representable y →
    Double.Representable (x * y) → A.mul (Double.fin x) (Double.fin y) = Double.fin (x * y)
  div_exact : ∀ x y : ℚ, Double.Representable x → Double.Representable y → y ≠ 0 →
    Double.Representable (x / y) → A.div (Double.fin x) (Double.fin y) = Double.fin (x / y)

/-- The speed adjustment of one timestamp (`Muxer.cpp`, lines 613-625, 638-650, 664-674
and 856-868): `static_cast<double>(t) / speed` above `1.0`,
`static_cast<double>(t) * (1.0 / speed)` otherwise, converted back to `int64_t`. -/
def speedAdjust (A : Arith) (speed : Double) (t : Int) : Int :=
  if Double.lt (Double.fin 1) speed then
    Double.toInt64 (A.div (A.ofInt64 t) speed)
  else
    Double.toInt64 (A.mul (A.ofInt64 t) (A.div (Double.fin 1) speed))

/-- The method `Muxer::rescaleTimestamp`. -/
def rescaleTimestamp (A : Arith) (m : Muxer) (timestamp : Int)
    (srcTimeBase dstTimeBase : AVRational) : Int :=
  let timestamp :=
    if Double.ne m.playbackSpeed (Double.fin 1) = true ∧ timestamp ≠ AV_NOPTS_VALUE then
      A.speedAdjust m.playbackSpeed timestamp
    else timestamp
  av_rescale_q timestamp srcTimeBase dstTimeBase

/-- Lines 600-680 of `writePacket`: the playback-speed block. -/
def applySpeed (A : Arith) (m : Muxer) (packet : AVPacket) : AVPacket :=
  if Double.ne m.playbackSpeed (Double.fin 1) = true then
    let p1 := if packet.pts ≠ AV_NOPTS_VALUE then
      { packet with pts := A.speedAdjust m.playbackSpeed packet.pts } else packet
    let p2 := if p1.dts ≠ AV_NOPTS_VALUE then
      { p1 with dts := A.speedAdjust m.playbackSpeed p1.dts } else p1
    if 0 < p2.duration then
      { p2 with duration := A.speedAdjust m.playbackSpeed p2.duration } else p2
  else packet

/-- Lines 682-713 of `writePacket`: time-base conversion of pts and dts, an unset
dts taking the pts. -/
def convertTimestamps (A : Arith) (m : Muxer) (src dst : AVRational) (packet : AVPacket) :
    AVPacket :=
  let p1 := if packet.pts ≠ AV_NOPTS_VALUE then
    { packet with pts := A.rescaleTimestamp m packet.pts src dst } else packet
  if p1.dts ≠ AV_NOPTS_VALUE then
    { p1 with dts := A.rescaleTimestamp m p1.dts src dst }
  else { p1 with dts := p1.pts }

/-- The packet as it reaches the monotonicity check (after lines 600-713). -/
def rescaled (A : Arith) (m : Muxer) (s : OutputStream) (packet : AVPacket) : AVPacket :=
  A.convertTimestamps m s.codecTimeBase s.time_base
    (A.applySpeed m { packet with stream_index := s.index })

/-- Lines 764-775 of `writePacket`: time-base conversion of the duration. -/
def convertDuration (A : Arith) (m : Muxer) (src dst : AVRational) (packet : AVPacket) :
    AVPacket :=
  if 0 < packet.duration then
    { packet with duration := A.rescaleTimestamp m packet.duration src dst } else packet

/-- The method `Muxer::writePacket`: the returned flag, the muxer afterwards, and the
packet as it is handed to `av_interleaved_write_frame`, whose return value is `ret`. -/
def writePacket (A : Arith) (m : Muxer) (packet : Option AVPacket) (isVideo : Bool)
    (ret : Int) : Bool × Muxer × Option AVPacket :=
  match m.formatContext, packet with
  | true, some pkt =>
    match m.stream isVideo with
    | none => (false, m, packet)
    | some s =>
      let p1 := A.rescaled m s pkt
      let p2 := Muxer.clampDts
        (Muxer.correctMonotonic (m.lastPts isVideo) (m.lastDts isVideo) p1)
      let m1 := m.setLast isVideo p2.pts p2.dts
      let p3 := A.convertDuration m s.codecTimeBase s.time_base p2
      (decide (0 ≤ ret), m1, some p3)
  | _, _ => (false, m, packet)

/-- The value of `adjustedSyncThreshold` in `muxThreadFunc` (lines 344-355); `sqrt` is
the library function. -/
def adjustedSyncThreshold (A : Arith) (sqrt : Double → Double) (speed : Double) : Double :=
  if Double.lt (Double.fin 1) speed then
    let t := A.mul MuxLoop.audioVideoSyncThreshold (sqrt speed)
    if Double.lt (Double.fin 4) speed then A.mul t (Double.fin (3 / 2)) else t
  else MuxLoop.audioVideoSyncThreshold

/-- Whether the sync test of lines 366-367 holds:
`lastVideoTimeSec > 0 && lastAudioTimeSec > 0 &&
fabs(lastAudioTimeSec - lastVideoTimeSec) > adjustedSyncThreshold`. -/
def outOfSync (A : Arith) (sqrt : Double → Double) (st : MuxLoop) : Bool :=
  Double.lt (Double.fin 0) st.lastVideoTimeSec && Double.lt (Double.fin 0) st.lastAudioTimeSec &&
    Double.lt (A.adjustedSyncThreshold sqrt st.muxer.playbackSpeed)
      (Double.fabs (A.sub st.lastAudioTimeSec st.lastVideoTimeSec))

/-- The value of `tryAudioFirst` when the queues are tested (lines 340-388);
`counter` is `packetCounter` after its increment. -/
def tryAudioFirst (A : Arith) (sqrt : Double → Double) (st : MuxLoop) (counter : Int) : Bool :=
  let initial := Double.ne st.muxer.playbackSpeed (Double.fin 1) || decide (counter % 2 = 0)
  let t := A.adjustedSyncThreshold sqrt st.muxer.playbackSpeed
  if A.outOfSync sqrt st then
    if Double.lt (A.add st.lastVideoTimeSec t) st.lastAudioTimeSec then false
    else if Double.lt (A.add st.lastAudioTimeSec t) st.lastVideoTimeSec then true
    else initial
  else initial

end Arith

/-! ### IEEE 754 binary64 as one such arithmetic -/

namespace Double

/-- Rounding of a rational to the nearest integer, a tie going to the even one. -/
def roundEven (x : ℚ) : Int :=
  if x - (⌊x⌋ : ℚ) < 1 / 2 then ⌊x⌋
  else if 1 / 2 < x - (⌊x⌋ : ℚ) then ⌊x⌋ + 1
  else if ⌊x⌋ % 2 = 0 then ⌊x⌋ else ⌊x⌋ + 1

/-- The exponent of the unit in the last place of binary64 at `q`: 52 below the binary
exponent of `q`, and -1074 for the subnormal numbers. -/
def ulpExp (q : ℚ) : Int := max (Int.log 2 |q| - 52) (-1074)

/-- Rounding of a rational to binary64, to nearest with ties to even; a rounded value
of magnitude `2^1024` or more is an infinity. -/
def roundNearest (q : ℚ) : Double :=
  let r : ℚ := (roundEven (q / (2 : ℚ) ^ ulpExp q) : ℚ) * (2 : ℚ) ^ ulpExp q
  if (2 : ℚ) ^ (1024 : Int) ≤ |r| then (if 0 < q then posInf else negInf) else fin r

/-- Rounding of an exactly computed result; NaN and the infinities stay. -/
def rounded : Double → Double
  | fin q => roundNearest q
  | x => x

/-- The `double` nearest to 0.1. -/
def tenth : ℚ := 3602879701896397 / 36028797018963968

end Double

namespace Arith

/-- The arithmetic of IEEE 754 binary64: each operation returns the exact result
rounded to nearest, ties to even. -/
def binary64 : Arith :=
  { add := fun x y => Double.rounded (Double.add x y)
    sub := fun x y => Double.rounded (Double.sub x y)
    mul := fun x y => Double.rounded (Double.mul x y)
    div := fun x y => Double.rounded (Double.div x y)
    ofInt64 := fun t => Double.roundNearest (t : ℚ) }

end Arith

namespace Muxer

/-- A packet whose pts `2^53 + 3` is not a `double`. -/
def largePacket : AVPacket :=
  { stream_index := 0, pts := 9007199254740995, dts := 9007199254740995, duration := 1 }

end Muxer

namespace MuxLoop

/-- The loop at speed 1.0 after a video packet with pts 57 at time base 1/50 and an
audio packet with pts 30720 at time base 1/48000: the two times are the `double`
values of `57 * (1 / 50.0)` and `30720 * (1 / 48000.0)`. -/
def nearThreshold : MuxLoop :=
  { start Muxer.initialised [] [] with
    lastVideoTimeSec := Double.fin (2567051787601183 / 2251799813685248)
    lastAudioTimeSec := Double.fin (5764607523034235 / 9007199254740992) }

end MuxLoop
/-! ## Properties of the timestamp layer -/

namespace Muxer

theorem convertDuration_pts (m : Muxer) (a b : AVRational) (p : AVPacket) :
    (convertDuration m a b p).pts = p.pts := by
  unfold convertDuration; split_ifs <;> rfl

theorem convertDuration_dts (m : Muxer) (a b : AVRational) (p : AVPacket) :
    (convertDuration m a b p).dts = p.dts := by
  unfold convertDuration; split_ifs <;> rfl

theorem clampDts_pts (p : AVPacket) : (clampDts p).pts = p.pts := by
  unfold clampDts; split_ifs <;> rfl

theorem clampDts_dts (p : AVPacket) : (clampDts p).dts = min p.dts p.pts := by
  unfold clampDts; split_ifs with h
  · simp only []; omega
  · omega

theorem clampDts_le (p : AVPacket) : (clampDts p).dts ≤ (clampDts p).pts := by
  rw [clampDts_pts, clampDts_dts]; omega

theorem correctMonotonic_pts (lp ld : Int) (p : AVPacket) :
    (correctMonotonic lp ld p).pts =
      if lp ≠ AV_NOPTS_VALUE ∧ p.pts ≤ lp then wrapInt64 (lp + 1) else p.pts := by
  unfold correctMonotonic
  by_cases h1 : lp ≠ AV_NOPTS_VALUE ∧ p.pts ≤ lp <;>
    by_cases h2 : ld ≠ AV_NOPTS_VALUE ∧ p.dts ≤ ld <;> simp [h1, h2]

theorem correctMonotonic_dts (lp ld : Int) (p : AVPacket) :
    (correctMonotonic lp ld p).dts =
      if ld ≠ AV_NOPTS_VALUE ∧ p.dts ≤ ld then wrapInt64 (ld + 1) else p.dts := by
  unfold correctMonotonic
  by_cases h1 : lp ≠ AV_NOPTS_VALUE ∧ p.pts ≤ lp <;>
    by_cases h2 : ld ≠ AV_NOPTS_VALUE ∧ p.dts ≤ ld <;> simp [h1, h2]

theorem lastPts_setLast (m : Muxer) (v : Bool) (a b : Int) : (m.setLast v a b).lastPts v = a := by
  cases v <;> rfl

theorem lastDts_setLast (m : Muxer) (v : Bool) (a b : Int) : (m.setLast v a b).lastDts v = b := by
  cases v <;> rfl

/-- What `writePacket` does once the two guards are passed. -/
theorem writePacket_eq (m : Muxer) (pkt : AVPacket) (isVideo : Bool) (ret : Int) (s : OutputStream)
    (hfc : m.formatContext = true) (hs : m.stream isVideo = some s) :
    m.writePacket (some pkt) isVideo ret =
      (decide (0 ≤ ret),
        m.setLast isVideo
          (clampDts (correctMonotonic (m.lastPts isVideo) (m.lastDts isVideo) (rescaled m s pkt))).pts
          (clampDts (correctMonotonic (m.lastPts isVideo) (m.lastDts isVideo) (rescaled m s pkt))).dts,
        some (convertDuration m s.codecTimeBase s.time_base
          (clampDts (correctMonotonic (m.lastPts isVideo) (m.lastDts isVideo) (rescaled m s pkt))))) := by
  unfold writePacket
  simp only [hfc, hs]

theorem setLast_formatContext (m : Muxer) (v : Bool) (a b : Int) :
    (m.setLast v a b).formatContext = m.formatContext := by
  cases v <;> rfl

theorem setLast_stream (m : Muxer) (v w : Bool) (a b : Int) :
    (m.setLast v a b).stream w = m.stream w := by
  cases v <;> cases w <;> rfl

theorem setLast_playbackSpeed (m : Muxer) (v : Bool) (a b : Int) :
    (m.setLast v a b).playbackSpeed = m.playbackSpeed := by
  cases v <;> rfl

/-- The packet reaching the monotonicity check depends on the muxer only through
the playback speed. -/
theorem rescaled_congr (m n : Muxer) (h : m.playbackSpeed = n.playbackSpeed) (s : OutputStream)
    (p : AVPacket) : rescaled m s p = rescaled n s p := by
  simp only [rescaled, convertTimestamps, applySpeed, rescaleTimestamp, h]

theorem wrapInt64_of_range (x : Int) (h1 : INT64_MIN ≤ x) (h2 : x ≤ INT64_MAX) : wrapInt64 x = x := by
  simp only [INT64_MIN, INT64_MAX] at h1 h2
  simp only [wrapInt64]; omega

theorem wrapInt64_ge (x : Int) : INT64_MIN ≤ wrapInt64 x := by
  simp only [wrapInt64, INT64_MIN]; omega

/-- Core of the monotonicity argument on the two corrections followed by the clamp. -/
theorem corrected_gt (lp ld : Int) (p : AVPacket) (hl : ld ≤ lp) (hld : INT64_MIN ≤ ld)
    (hlp : lp < INT64_MAX) (hp : AV_NOPTS_VALUE < p.pts) (hd : AV_NOPTS_VALUE < p.dts) :
    lp < (clampDts (correctMonotonic lp ld p)).pts ∧ ld < (clampDts (correctMonotonic lp ld p)).dts := by
  rw [clampDts_pts, clampDts_dts, correctMonotonic_pts, correctMonotonic_dts]
  have e1 : wrapInt64 (lp + 1) = lp + 1 :=
    wrapInt64_of_range _ (by simp only [INT64_MIN] at *; omega) (by simp only [INT64_MAX] at *; omega)
  have e2 : wrapInt64 (ld + 1) = ld + 1 :=
    wrapInt64_of_range _ (by simp only [INT64_MIN] at *; omega) (by simp only [INT64_MAX] at *; omega)
  rw [e1, e2]
  simp only [AV_NOPTS_VALUE, INT64_MIN, INT64_MAX] at *
  split_ifs <;> omega

/-- Values left by the corrections are `int64_t` values when the incoming ones are. -/
theorem corrected_ge (lp ld : Int) (p : AVPacket) (hp : AV_NOPTS_VALUE < p.pts)
    (hd : AV_NOPTS_VALUE < p.dts) :
    INT64_MIN ≤ (clampDts (correctMonotonic lp ld p)).dts := by
  rw [clampDts_dts, correctMonotonic_pts, correctMonotonic_dts]
  have := wrapInt64_ge (lp + 1)
  have := wrapInt64_ge (ld + 1)
  simp only [AV_NOPTS_VALUE, INT64_MIN] at *
  split_ifs <;> omega

theorem writePackets_cons (isVideo : Bool) (m : Muxer) (pkt : AVPacket) (ret : Int)
    (rest : List (AVPacket × Int)) :
    (writePackets isVideo m ((pkt, ret) :: rest)).2 =
      (m.writePacket (some pkt) isVideo ret).2.2.getD pkt ::
        (writePackets isVideo (m.writePacket (some pkt) isVideo ret).2.1 rest).2 := rfl

/-- Induction behind the monotonicity theorem: the run is increasing, and its first
packet lies above the stored previous values. -/
theorem writePackets_chain (isVideo : Bool) (s : OutputStream) :
    ∀ (pkts : List (AVPacket × Int)) (m : Muxer), m.formatContext = true →
      m.stream isVideo = some s →
      (∀ x ∈ pkts, AV_NOPTS_VALUE < (rescaled m s x.1).pts ∧ AV_NOPTS_VALUE < (rescaled m s x.1).dts) →
      (∀ y ∈ (writePackets isVideo m pkts).2, y.pts < INT64_MAX) →
      List.Chain' (fun a b : AVPacket => a.pts < b.pts ∧ a.dts < b.dts) (writePackets isVideo m pkts).2 ∧
      ∀ y ∈ (writePackets isVideo m pkts).2.head?,
        m.lastDts isVideo ≤ m.lastPts isVideo → INT64_MIN ≤ m.lastDts isVideo →
        m.lastPts isVideo < INT64_MAX → m.lastPts isVideo < y.pts ∧ m.lastDts isVideo < y.dts := by
  intro pkts
  induction pkts with
  | nil => intro m _ _ _ _; exact ⟨List.chain'_nil, by simp [writePackets]⟩
  | cons x rest ih =>
    obtain ⟨pkt, ret⟩ := x
    intro m hfc hs hset hno
    rw [writePackets_cons] at hno ⊢
    rw [writePacket_eq m pkt isVideo ret s hfc hs] at hno ⊢
    simp only [Option.getD_some] at hno ⊢
    obtain ⟨hp, hd⟩ := hset (pkt, ret) (List.mem_cons_self _ _)
    have hout := hno _ (List.mem_cons_self _ _)
    rw [convertDuration_pts] at hout
    have ih1 := ih (m.setLast isVideo _ _) (by rw [setLast_formatContext]; exact hfc)
      (by rw [setLast_stream]; exact hs)
      (fun x hx => by
        rw [rescaled_congr _ m (setLast_playbackSpeed _ _ _ _)]
        exact hset x (List.mem_cons_of_mem _ hx))
      (fun y hy => hno y (List.mem_cons_of_mem _ hy))
    refine ⟨?_, ?_⟩
    · rw [List.chain'_cons']
      refine ⟨?_, ih1.1⟩
      intro y hy
      have := ih1.2 y hy (by rw [lastPts_setLast, lastDts_setLast]; exact clampDts_le _)
        (by rw [lastDts_setLast]; exact corrected_ge _ _ _ hp hd)
        (by rw [lastPts_setLast]; exact hout)
      rw [lastPts_setLast, lastDts_setLast] at this
      rw [convertDuration_pts, convertDuration_dts]
      exact this
    · intro y hy h1 h2 h3
      simp only [List.head?_cons, Option.mem_def, Option.some.injEq] at hy
      subst hy
      rw [convertDuration_pts, convertDuration_dts]
      exact corrected_gt _ _ _ h1 h2 h3 hp hd

end Muxer

namespace Double
theorem truncRat_intCast (n : Int) : truncRat (n : ℚ) = n := by
  simp [truncRat]

theorem truncRat_of_nonneg (q : ℚ) (h : 0 ≤ q) : truncRat q = ⌊q⌋ := by
  unfold truncRat
  have hn : 0 ≤ q.num := Rat.num_nonneg.mpr h
  have e : ⌊q⌋ = q.num / (q.den : Int) := Rat.floor_def' q
  rw [e]
  exact Int.tdiv_eq_ediv hn (Int.natCast_nonneg _)

theorem truncRat_div_two (t : Int) (h : 0 ≤ t) : truncRat ((t : ℚ) / 2) = t / 2 := by
  rw [truncRat_of_nonneg _ (by positivity)]
  have := Rat.floor_intCast_div_natCast t 2
  simpa using this
end Double

namespace Muxer
theorem speedAdjust_two (t : Int) (h0 : 0 ≤ t) (h1 : t ≤ INT64_MAX) :
    speedAdjust (Double.fin 2) t = t / 2 := by
  have hlt : Double.lt (Double.fin 1) (Double.fin 2) = true := by decide
  simp only [speedAdjust, hlt, if_true, Double.ofInt64, Double.div]
  have h2 : (2 : ℚ) ≠ 0 := by norm_num
  simp only [h2, if_false, Double.toInt64, Double.truncRat_div_two t h0]
  simp only [INT64_MIN, INT64_MAX] at *
  rw [if_pos (by omega)]

theorem speedAdjust_half_example :
    speedAdjust (Double.fin (1 / 2)) (-4611686018427387904) = AV_NOPTS_VALUE := by
  have hlt : Double.lt (Double.fin 1) (Double.fin (1 / 2)) = false := by
    simp only [Double.lt, decide_eq_false_iff_not]; norm_num
  have e : ((-4611686018427387904 : Int) : ℚ) * (1 / (1 / 2)) = ((-9223372036854775808 : Int) : ℚ) := by
    norm_num
  have h2 : ((1 : ℚ) / 2) ≠ 0 := by norm_num
  simp only [speedAdjust, hlt, Double.ofInt64, Double.div, Double.mul, h2, if_false, Double.toInt64, e,
    Double.truncRat_intCast]
  decide

theorem av_rescale_q_ge (a : Int) (b c : AVRational) : INT64_MIN ≤ av_rescale_q a b c := by
  unfold av_rescale_q
  simp only []
  by_cases h1 : c.num * b.den ≤ 0 ∨ b.num * c.den < 0
  · rw [if_pos h1]
  · rw [if_neg h1]
    split_ifs with h2 h3 h3
    · exact h3.1
    · exact le_refl _
    · exact h3.1
    · exact le_refl _

theorem av_rescale_q_same (a : Int) (h1 : -INT64_MAX ≤ a) (h2 : a ≤ INT64_MAX) :
    av_rescale_q a { num := 1, den := 30 } { num := 1, den := 30 } = a := by
  simp only [INT64_MAX] at h1 h2
  simp only [av_rescale_q, INT64_MIN, INT64_MAX]
  have e1 : ¬ ((1 : Int) * 30 ≤ 0 ∨ (1 : Int) * 30 < 0) := by omega
  rw [if_neg e1]
  by_cases h : 0 ≤ a
  · rw [if_pos h]
    have e : (a * (1 * 30) + 1 * 30 / 2) / (1 * 30) = a := by omega
    rw [e, if_pos (by omega)]
  · rw [if_neg h]
    have e : -((-(max a (-9223372036854775807)) * (1 * 30) + 1 * 30 / 2) / (1 * 30)) = a := by
      have : max a (-9223372036854775807) = a := max_eq_left (by omega)
      rw [this]; omega
    rw [e, if_pos (by omega)]

theorem convertTimestamps_pts (m : Muxer) (a b : AVRational) (p : AVPacket) :
    (convertTimestamps m a b p).pts =
      if p.pts ≠ AV_NOPTS_VALUE then rescaleTimestamp m p.pts a b else p.pts := by
  unfold convertTimestamps
  by_cases h1 : p.pts ≠ AV_NOPTS_VALUE <;> by_cases h2 : p.dts ≠ AV_NOPTS_VALUE <;> simp [h1, h2]

theorem convertTimestamps_dts (m : Muxer) (a b : AVRational) (p : AVPacket) :
    (convertTimestamps m a b p).dts =
      if p.dts ≠ AV_NOPTS_VALUE then rescaleTimestamp m p.dts a b
      else (convertTimestamps m a b p).pts := by
  rw [convertTimestamps_pts]
  unfold convertTimestamps
  by_cases h1 : p.pts ≠ AV_NOPTS_VALUE <;> by_cases h2 : p.dts ≠ AV_NOPTS_VALUE <;> simp [h1, h2]

theorem applySpeed_pts (m : Muxer) (p : AVPacket) :
    (applySpeed m p).pts =
      if Double.ne m.playbackSpeed (Double.fin 1) = true ∧ p.pts ≠ AV_NOPTS_VALUE then
        speedAdjust m.playbackSpeed p.pts else p.pts := by
  unfold applySpeed
  by_cases h0 : Double.ne m.playbackSpeed (Double.fin 1) = true <;>
    by_cases h1 : p.pts ≠ AV_NOPTS_VALUE <;> by_cases h2 : p.dts ≠ AV_NOPTS_VALUE <;>
    by_cases h3 : 0 < p.duration <;> simp [h0, h1, h2, h3]

theorem applySpeed_dts (m : Muxer) (p : AVPacket) :
    (applySpeed m p).dts =
      if Double.ne m.playbackSpeed (Double.fin 1) = true ∧ p.dts ≠ AV_NOPTS_VALUE then
        speedAdjust m.playbackSpeed p.dts else p.dts := by
  unfold applySpeed
  by_cases h0 : Double.ne m.playbackSpeed (Double.fin 1) = true <;>
    by_cases h1 : p.pts ≠ AV_NOPTS_VALUE <;> by_cases h2 : p.dts ≠ AV_NOPTS_VALUE <;>
    by_cases h3 : 0 < p.duration <;> simp [h0, h1, h2, h3]

/-- The pts reaching the monotonicity check is an `int64_t` value or the sentinel:
never below `INT64_MIN`. -/
theorem rescaled_pts_ge (m : Muxer) (s : OutputStream) (p : AVPacket) :
    INT64_MIN ≤ (rescaled m s p).pts := by
  unfold rescaled
  rw [convertTimestamps_pts]
  split_ifs with h
  · exact av_rescale_q_ge _ _ _
  · rw [not_not.mp h]; exact le_refl _

theorem rescaled_dts_ge (m : Muxer) (s : OutputStream) (p : AVPacket) :
    INT64_MIN ≤ (rescaled m s p).dts := by
  have h := rescaled_pts_ge m s p
  unfold rescaled at h ⊢
  rw [convertTimestamps_dts]
  split_ifs with h1
  · exact av_rescale_q_ge _ _ _
  · exact h

/-- C1 (amended): for every sequence of packets passed to `writePacket` for one stream
kind of an initialised muxer, with no `setPlaybackSpeed` call in between, whose pts and
dts are still set (not `AV_NOPTS_VALUE`) when they reach the monotonicity check, and
with no `int64_t` overflow (no packet is left with pts `INT64_MAX`), the pts left in
each packet is strictly greater than the pts left in the packet before it, and so is
the dts, whatever the incoming values were. -/
theorem writePackets_strictly_increasing (m : Muxer) (isVideo : Bool) (s : OutputStream)
    (pkts : List (AVPacket × Int)) (hfc : m.formatContext = true)
    (hs : m.stream isVideo = some s)
    (hset : ∀ x ∈ pkts, (rescaled m s x.1).pts ≠ AV_NOPTS_VALUE ∧
      (rescaled m s x.1).dts ≠ AV_NOPTS_VALUE)
    (hno : ∀ y ∈ (writePackets isVideo m pkts).2, y.pts < INT64_MAX) :
    List.Chain' (fun a b : AVPacket => a.pts < b.pts ∧ a.dts < b.dts)
      (writePackets isVideo m pkts).2 := by
  refine (writePackets_chain isVideo s pkts m hfc hs ?_ hno).1
  intro x hx
  obtain ⟨h1, h2⟩ := hset x hx
  have g1 := rescaled_pts_ge m s x.1
  have g2 := rescaled_dts_ge m s x.1
  simp only [AV_NOPTS_VALUE] at h1 h2 ⊢
  exact ⟨lt_of_le_of_ne g1 (Ne.symm h1), lt_of_le_of_ne g2 (Ne.symm h2)⟩

theorem writePackets_strictly_increasing_witness :
    initialised.formatContext = true ∧
    initialised.stream true = some { index := 0, codecTimeBase := { num := 1, den := 30 }, time_base := { num := 1, den := 30 } } ∧
    (∀ x ∈ unorderedPackets,
      (rescaled initialised { index := 0, codecTimeBase := { num := 1, den := 30 }, time_base := { num := 1, den := 30 } } x.1).pts ≠ AV_NOPTS_VALUE ∧
      (rescaled initialised { index := 0, codecTimeBase := { num := 1, den := 30 }, time_base := { num := 1, den := 30 } } x.1).dts ≠ AV_NOPTS_VALUE) ∧
    (∀ y ∈ (writePackets true initialised unorderedPackets).2, y.pts < INT64_MAX) ∧
    List.Chain' (fun a b : AVPacket => a.pts < b.pts ∧ a.dts < b.dts)
      (writePackets true initialised unorderedPackets).2 :=
  ⟨rfl, rfl, by decide, by decide,
    writePackets_strictly_increasing initialised true
      { index := 0, codecTimeBase := { num := 1, den := 30 }, time_base := { num := 1, den := 30 } }
      unorderedPackets rfl rfl (by decide) (by decide)⟩

theorem halfSpeed_eq : halfSpeed =
    { initialised with playbackSpeed := Double.fin (1 / 2) } := by
  have h : Double.le (Double.fin (1 / 2)) (Double.fin 0) = false := by
    simp only [Double.le, decide_eq_false_iff_not]; norm_num
  simp only [halfSpeed, setPlaybackSpeed, h]
  rfl

theorem rescaled_sentinelPacket (s : OutputStream) :
    rescaled halfSpeed s sentinelPacket =
      { stream_index := s.index, pts := AV_NOPTS_VALUE, dts := AV_NOPTS_VALUE, duration := 0 } := by
  have hne : Double.ne (Double.fin (1 / 2)) (Double.fin 1) = true := by
    simp only [Double.ne, decide_eq_true_eq, ne_eq, Double.fin.injEq]; norm_num
  have hp : (-4611686018427387904 : Int) ≠ AV_NOPTS_VALUE := by decide
  simp only [rescaled, applySpeed, convertTimestamps, halfSpeed_eq, sentinelPacket, hne, hp,
    speedAdjust_half_example, ne_eq, not_true_eq_false, not_false_eq_true, if_true, if_false,
    lt_irrefl]

/-- C1, counterexample: at speed 0.5 two packets with the set pts `-2^62` (and no dts)
are both left with pts and dts `INT64_MIN`; nothing overflows, and the second pts is
not greater than the first. -/
theorem writePackets_not_increasing :
    sentinelPacket.pts ≠ AV_NOPTS_VALUE ∧
    (writePackets true halfSpeed [(sentinelPacket, 0), (sentinelPacket, 0)]).2 =
      [{ stream_index := 0, pts := INT64_MIN, dts := INT64_MIN, duration := 0 },
       { stream_index := 0, pts := INT64_MIN, dts := INT64_MIN, duration := 0 }] ∧
    ¬ List.Chain' (fun a b : AVPacket => a.pts < b.pts ∧ a.dts < b.dts)
      (writePackets true halfSpeed [(sentinelPacket, 0), (sentinelPacket, 0)]).2 := by
  have hfc : halfSpeed.formatContext = true := by rw [halfSpeed_eq]; rfl
  have hs : halfSpeed.stream true = some { index := 0, codecTimeBase := { num := 1, den := 30 }, time_base := { num := 1, den := 30 } } := by
    rw [halfSpeed_eq]; rfl
  have hl : halfSpeed.lastPts true = AV_NOPTS_VALUE ∧ halfSpeed.lastDts true = AV_NOPTS_VALUE := by
    rw [halfSpeed_eq]; exact ⟨rfl, rfl⟩
  have e : (writePackets true halfSpeed [(sentinelPacket, 0), (sentinelPacket, 0)]).2 =
      [{ stream_index := 0, pts := INT64_MIN, dts := INT64_MIN, duration := 0 },
       { stream_index := 0, pts := INT64_MIN, dts := INT64_MIN, duration := 0 }] := by
    rw [writePackets_cons, writePacket_eq _ _ _ _ _ hfc hs, rescaled_sentinelPacket, hl.1, hl.2]
    have c1 : clampDts (correctMonotonic AV_NOPTS_VALUE AV_NOPTS_VALUE
        { stream_index := 0, pts := AV_NOPTS_VALUE, dts := AV_NOPTS_VALUE, duration := 0 }) =
        { stream_index := 0, pts := AV_NOPTS_VALUE, dts := AV_NOPTS_VALUE, duration := 0 } := by
      decide
    simp only [c1]
    rw [writePackets_cons, writePacket_eq _ _ _ _ _ (by rw [setLast_formatContext]; exact hfc)
      (by rw [setLast_stream]; exact hs), lastPts_setLast, lastDts_setLast,
      rescaled_congr _ halfSpeed (setLast_playbackSpeed _ _ _ _), rescaled_sentinelPacket]
    simp only [c1]
    simp only [convertDuration, lt_irrefl, if_false, Option.getD_some, writePackets, AV_NOPTS_VALUE]
  refine ⟨by decide, e, ?_⟩
  rw [e, List.chain'_pair]
  exact fun h => lt_irrefl _ h.1

/-- C2: for every packet and every state of an initialised muxer that has the stream,
the packet leaves the timestamp processing of `writePacket` with dts at most pts, and
the previous values stored for the stream satisfy `lastDts ≤ lastPts` (they are the
packet's final dts and pts). -/
theorem writePacket_dts_le_pts (m : Muxer) (pkt : AVPacket) (isVideo : Bool) (ret : Int)
    (s : OutputStream) (hfc : m.formatContext = true) (hs : m.stream isVideo = some s) :
    ∃ out : AVPacket, (m.writePacket (some pkt) isVideo ret).2.2 = some out ∧
      out.dts ≤ out.pts ∧
      (m.writePacket (some pkt) isVideo ret).2.1.lastDts isVideo ≤
        (m.writePacket (some pkt) isVideo ret).2.1.lastPts isVideo ∧
      (m.writePacket (some pkt) isVideo ret).2.1.lastPts isVideo = out.pts ∧
      (m.writePacket (some pkt) isVideo ret).2.1.lastDts isVideo = out.dts := by
  rw [writePacket_eq m pkt isVideo ret s hfc hs]
  refine ⟨_, rfl, ?_, ?_, ?_, ?_⟩
  · rw [convertDuration_pts, convertDuration_dts]; exact clampDts_le _
  · simp only [lastPts_setLast, lastDts_setLast]; exact clampDts_le _
  · simp only [lastPts_setLast, convertDuration_pts]
  · simp only [lastDts_setLast, convertDuration_dts]

theorem writePacket_dts_le_pts_witness :
    skewed.formatContext = true ∧
    skewed.stream false = some { index := 1, codecTimeBase := { num := 1, den := 48000 }, time_base := { num := 1, den := 48000 } } ∧
    ∃ out : AVPacket,
      (skewed.writePacket (some { stream_index := 0, pts := 3, dts := 900, duration := 1024 }) false 0).2.2 = some out ∧
      out.dts ≤ out.pts ∧
      (skewed.writePacket (some { stream_index := 0, pts := 3, dts := 900, duration := 1024 }) false 0).2.1.lastDts false ≤
        (skewed.writePacket (some { stream_index := 0, pts := 3, dts := 900, duration := 1024 }) false 0).2.1.lastPts false ∧
      (skewed.writePacket (some { stream_index := 0, pts := 3, dts := 900, duration := 1024 }) false 0).2.1.lastPts false = out.pts ∧
      (skewed.writePacket (some { stream_index := 0, pts := 3, dts := 900, duration := 1024 }) false 0).2.1.lastDts false = out.dts :=
  ⟨rfl, rfl, writePacket_dts_le_pts skewed _ false 0 _ rfl rfl⟩

theorem ne_two_one : Double.ne (Double.fin 2) (Double.fin 1) = true := by decide

/-- At speed 2 with both time bases 1/30 the factor is applied by `writePacket` and
again by `rescaleTimestamp`: a non-negative pts reaches the monotonicity check
divided by two twice. -/
theorem rescaled_pts_speed_two (m : Muxer) (s : OutputStream) (p : AVPacket)
    (hm : m.playbackSpeed = Double.fin 2) (hsrc : s.codecTimeBase = { num := 1, den := 30 })
    (hdst : s.time_base = { num := 1, den := 30 }) (h0 : 0 ≤ p.pts) (h1 : p.pts ≤ INT64_MAX) :
    (rescaled m s p).pts = p.pts / 2 / 2 := by
  have hn : p.pts ≠ AV_NOPTS_VALUE := by
    simp only [AV_NOPTS_VALUE, INT64_MIN]; omega
  have hn2 : p.pts / 2 ≠ AV_NOPTS_VALUE := by
    simp only [AV_NOPTS_VALUE, INT64_MIN]; omega
  have b1 : p.pts / 2 ≤ INT64_MAX := by simp only [INT64_MAX] at *; omega
  have b2 : p.pts / 2 / 2 ≤ INT64_MAX := by simp only [INT64_MAX] at *; omega
  have b3 : -INT64_MAX ≤ p.pts / 2 / 2 := by simp only [INT64_MAX] at *; omega
  unfold rescaled
  rw [convertTimestamps_pts, applySpeed_pts, hm, hsrc, hdst]
  simp only [ne_two_one, hn, ne_eq, not_false_eq_true, and_self, if_true,
    speedAdjust_two p.pts h0 h1, hn2, rescaleTimestamp, hm,
    speedAdjust_two (p.pts / 2) (by omega) b1]
  exact av_rescale_q_same _ b3 b2

theorem setPlaybackSpeed_two (m : Muxer) :
    m.setPlaybackSpeed (Double.fin 2) =
      { m with
        playbackSpeed := Double.fin 2
        lastVideoPts := AV_NOPTS_VALUE
        lastVideoDts := AV_NOPTS_VALUE
        lastAudioPts := AV_NOPTS_VALUE
        lastAudioDts := AV_NOPTS_VALUE } := by
  have h : Double.le (Double.fin 2) (Double.fin 0) = false := by decide
  simp only [setPlaybackSpeed, h]
  rfl

/-- C3, the code at the scenario of the claim: at speed 2.0 with both time bases 1/30
the packet with source pts `n` reaches the monotonicity check with pts `n / 4`, for
`n = 0, ..., 999`; the sequence is 0,0,0,0,1,1,1,1,... and not 0,0,1,1,2,2,....  In
particular source pts 2 arrives as 0, while `2 / 2.0` truncated is 1. -/
theorem precorrection_pts_speed_two :
    (List.range 1000).map (fun n : Nat =>
      (rescaled doubleSpeed videoStream30
        { stream_index := 0, pts := (n : Int), dts := (n : Int), duration := 1 }).pts) =
      (List.range 1000).map (fun n : Nat => (n : Int) / 4) ∧
    (rescaled doubleSpeed videoStream30 { stream_index := 0, pts := 2, dts := 2, duration := 1 }).pts = 0 ∧
    speedAdjust (Double.fin 2) 2 = 1 := by
  have key : ∀ n : Nat, n < 1000 →
      (rescaled doubleSpeed videoStream30
        { stream_index := 0, pts := (n : Int), dts := (n : Int), duration := 1 }).pts = (n : Int) / 4 := by
    intro n hn
    rw [rescaled_pts_speed_two doubleSpeed videoStream30 _ (by rw [doubleSpeed, setPlaybackSpeed_two]) rfl rfl
      (by simp) (by simp only [INT64_MAX]; omega)]
    simp only []
    omega
  refine ⟨?_, ?_, ?_⟩
  · apply List.map_congr_left
    intro n hn
    exact key n (List.mem_range.mp hn)
  · exact key 2 (by omega)
  · rw [speedAdjust_two 2 (by omega) (by decide)]; rfl

/-- Induction behind the speed scenario: if the previous video pts is `k - 1` (unset
for `k = 0`) and the packets carry pts `k, k + 1, ...`, they are left with exactly these
pts. -/
theorem writePackets_speed_two (s : OutputStream) (hsrc : s.codecTimeBase = { num := 1, den := 30 })
    (hdst : s.time_base = { num := 1, den := 30 }) :
    ∀ (pkts : List (AVPacket × Int)) (k : Nat) (m : Muxer), m.formatContext = true →
      m.videoStream = some s → m.playbackSpeed = Double.fin 2 →
      m.lastVideoPts = (if k = 0 then AV_NOPTS_VALUE else (k : Int) - 1) →
      pkts.map (fun x => x.1.pts) = (List.range' k pkts.length).map Int.ofNat →
      k + pkts.length ≤ 4611686018427387904 →
      ((writePackets true m pkts).2).map AVPacket.pts = (List.range' k pkts.length).map Int.ofNat := by
  intro pkts
  induction pkts with
  | nil => intro k m _ _ _ _ _ _; rfl
  | cons x rest ih =>
    obtain ⟨pkt, ret⟩ := x
    intro k m hfc hs hm hl hp hk
    simp only [List.length_cons, List.range'_succ, List.map_cons, List.cons.injEq] at hp hk ⊢
    obtain ⟨hpk, hrest⟩ := hp
    have hpk2 : pkt.pts = (k : Int) := hpk
    have hst : m.stream true = some s := hs
    rw [writePackets_cons, writePacket_eq m pkt true ret s hfc hst]
    simp only [Option.getD_some, List.map_cons, List.cons.injEq, convertDuration_pts, clampDts_pts]
    have hr : (rescaled m s pkt).pts = (k : Int) / 2 / 2 := by
      rw [rescaled_pts_speed_two m s pkt hm hsrc hdst (by omega) (by simp only [INT64_MAX]; omega), hpk2]
    have hout : (correctMonotonic (m.lastPts true) (m.lastDts true) (rescaled m s pkt)).pts = (k : Int) := by
      rw [correctMonotonic_pts, hr]
      have hlp : m.lastPts true = (if k = 0 then AV_NOPTS_VALUE else (k : Int) - 1) := hl
      rw [hlp]
      by_cases h0 : k = 0
      · subst h0; simp
      · have hw : wrapInt64 ((k : Int) - 1 + 1) = (k : Int) :=
          (wrapInt64_of_range _ (by simp only [INT64_MIN]; omega) (by simp only [INT64_MAX]; omega)).trans
            (by omega)
        have hc : ((k : Int) - 1 ≠ AV_NOPTS_VALUE ∧ (k : Int) / 2 / 2 ≤ (k : Int) - 1) := by
          simp only [AV_NOPTS_VALUE, INT64_MIN]; omega
        rw [if_neg h0, if_pos hc]
        exact hw
    rw [hout]
    refine ⟨rfl, ?_⟩
    generalize (clampDts (correctMonotonic (m.lastPts true) (m.lastDts true) (rescaled m s pkt))).dts = d
    exact ih (k + 1) (m.setLast true (k : Int) d) (by rw [setLast_formatContext]; exact hfc)
      (by have := setLast_stream m true true (k : Int) d
          rw [hst] at this; exact this)
      (by rw [setLast_playbackSpeed]; exact hm)
      (by have e := lastPts_setLast m true (k : Int) d
          simp only [Nat.succ_ne_zero, if_false, Nat.cast_add, Nat.cast_one, add_sub_cancel_right]
          exact e)
      hrest (by omega)

/-- C4: after `setPlaybackSpeed(2.0)` on an initialised muxer whose video source and
destination time bases are both 1/30, passing 1000 video packets with
pts 0,1,...,999 to `writePacket` in order leaves pts 0,1,...,999 in them: the n-th
packet is written with pts n (whatever its dts, duration and write result). -/
theorem scenario_speed_two (m0 : Muxer) (s : OutputStream) (pkts : List (AVPacket × Int))
    (hfc : m0.formatContext = true) (hs : m0.videoStream = some s)
    (hsrc : s.codecTimeBase = { num := 1, den := 30 }) (hdst : s.time_base = { num := 1, den := 30 })
    (hp : pkts.map (fun x => x.1.pts) = (List.range 1000).map Int.ofNat) :
    ((writePackets true (m0.setPlaybackSpeed (Double.fin 2)) pkts).2).map AVPacket.pts =
      (List.range 1000).map Int.ofNat := by
  have hlen : pkts.length = 1000 := by
    have := congrArg List.length hp
    simpa using this
  have h := writePackets_speed_two s hsrc hdst pkts 0 (m0.setPlaybackSpeed (Double.fin 2))
    (by rw [setPlaybackSpeed_two]; exact hfc) (by rw [setPlaybackSpeed_two]; exact hs)
    (by rw [setPlaybackSpeed_two]) (by rw [setPlaybackSpeed_two]; rfl)
    (by rw [hlen, ← List.range_eq_range']; exact hp) (by rw [hlen]; omega)
  rw [hlen, ← List.range_eq_range'] at h
  exact h

theorem scenario_speed_two_witness :
    initialised.formatContext = true ∧ initialised.videoStream = some videoStream30 ∧
    videoStream30.codecTimeBase = { num := 1, den := 30 } ∧
    videoStream30.time_base = { num := 1, den := 30 } ∧
    scenarioPackets.map (fun x => x.1.pts) = (List.range 1000).map Int.ofNat ∧
    ((writePackets true (initialised.setPlaybackSpeed (Double.fin 2)) scenarioPackets).2).map AVPacket.pts =
      (List.range 1000).map Int.ofNat :=
  ⟨rfl, rfl, rfl, rfl, by simp [scenarioPackets, Function.comp_def],
    scenario_speed_two initialised videoStream30 scenarioPackets rfl rfl rfl rfl
      (by simp [scenarioPackets, Function.comp_def])⟩

theorem le_zero_of_pos (speed : Double) (hpos : Double.lt (Double.fin 0) speed = true) :
    Double.le speed (Double.fin 0) = false := by
  cases speed with
  | nan => rfl
  | negInf => simp [Double.lt] at hpos
  | posInf => rfl
  | fin q =>
    simp only [Double.lt, decide_eq_true_eq] at hpos
    simp only [Double.le, decide_eq_false_iff_not, not_le]
    exact hpos

theorem correctMonotonic_unset (p : AVPacket) :
    correctMonotonic AV_NOPTS_VALUE AV_NOPTS_VALUE p = p := by
  simp [correctMonotonic]

/-- C5: for every muxer state and every speed > 0, `setPlaybackSpeed` stores the speed
and sets `lastVideoPts`, `lastVideoDts`, `lastAudioPts` and `lastAudioDts` to
`AV_NOPTS_VALUE`; consequently, for the next packet of either stream passed to
`writePacket`, the monotonicity corrections change nothing, whatever was emitted
before: the packet is left with its rescaled pts, and with its rescaled dts (capped
at that pts by the dts ≤ pts clamp). -/
theorem setPlaybackSpeed_resets (m : Muxer) (speed : Double)
    (hpos : Double.lt (Double.fin 0) speed = true) :
    (m.setPlaybackSpeed speed).playbackSpeed = speed ∧
    (m.setPlaybackSpeed speed).lastVideoPts = AV_NOPTS_VALUE ∧
    (m.setPlaybackSpeed speed).lastVideoDts = AV_NOPTS_VALUE ∧
    (m.setPlaybackSpeed speed).lastAudioPts = AV_NOPTS_VALUE ∧
    (m.setPlaybackSpeed speed).lastAudioDts = AV_NOPTS_VALUE ∧
    ∀ (isVideo : Bool) (s : OutputStream) (pkt : AVPacket) (ret : Int),
      m.formatContext = true → m.stream isVideo = some s →
      correctMonotonic ((m.setPlaybackSpeed speed).lastPts isVideo)
        ((m.setPlaybackSpeed speed).lastDts isVideo) (rescaled (m.setPlaybackSpeed speed) s pkt) =
        rescaled (m.setPlaybackSpeed speed) s pkt ∧
      ∃ out : AVPacket,
        ((m.setPlaybackSpeed speed).writePacket (some pkt) isVideo ret).2.2 = some out ∧
        out.pts = (rescaled (m.setPlaybackSpeed speed) s pkt).pts ∧
        out.dts = min (rescaled (m.setPlaybackSpeed speed) s pkt).dts
          (rescaled (m.setPlaybackSpeed speed) s pkt).pts := by
  have e : m.setPlaybackSpeed speed =
      { m with
        playbackSpeed := speed
        lastVideoPts := AV_NOPTS_VALUE
        lastVideoDts := AV_NOPTS_VALUE
        lastAudioPts := AV_NOPTS_VALUE
        lastAudioDts := AV_NOPTS_VALUE } := by
    simp only [setPlaybackSpeed, le_zero_of_pos speed hpos]
    rfl
  refine ⟨by rw [e], by rw [e], by rw [e], by rw [e], by rw [e], ?_⟩
  intro isVideo s pkt ret hfc hs
  have hl1 : (m.setPlaybackSpeed speed).lastPts isVideo = AV_NOPTS_VALUE := by
    rw [e]; cases isVideo <;> rfl
  have hl2 : (m.setPlaybackSpeed speed).lastDts isVideo = AV_NOPTS_VALUE := by
    rw [e]; cases isVideo <;> rfl
  have hfc2 : (m.setPlaybackSpeed speed).formatContext = true := by rw [e]; exact hfc
  have hs2 : (m.setPlaybackSpeed speed).stream isVideo = some s := by
    rw [e]; cases isVideo <;> exact hs
  rw [writePacket_eq _ pkt isVideo ret s hfc2 hs2, hl1, hl2, correctMonotonic_unset]
  refine ⟨rfl, _, rfl, ?_, ?_⟩
  · rw [convertDuration_pts, clampDts_pts]
  · rw [convertDuration_dts, clampDts_dts]

theorem setPlaybackSpeed_resets_witness :
    Double.lt (Double.fin 0) (Double.fin 2) = true ∧
    (advanced.setPlaybackSpeed (Double.fin 2)).lastVideoPts = AV_NOPTS_VALUE ∧
    ∃ out : AVPacket,
      ((advanced.setPlaybackSpeed (Double.fin 2)).writePacket
        (some { stream_index := 0, pts := 3, dts := 3, duration := 1 }) true 0).2.2 = some out ∧
      out.pts = (rescaled (advanced.setPlaybackSpeed (Double.fin 2)) videoStream30
        { stream_index := 0, pts := 3, dts := 3, duration := 1 }).pts :=
  ⟨by decide,
    (setPlaybackSpeed_resets advanced (Double.fin 2) (by decide)).2.1,
    (((setPlaybackSpeed_resets advanced (Double.fin 2) (by decide)).2.2.2.2.2 true videoStream30
      { stream_index := 0, pts := 3, dts := 3, duration := 1 } 0 rfl rfl).2).imp
      (fun _ h => ⟨h.1, h.2.1⟩)⟩

/-- C6, counterexample: NaN passes the guard `speed <= 0`, so one call
`setPlaybackSpeed(NaN)` on a fresh muxer stores NaN, and `getPlaybackSpeed() > 0` is
false in the state reached. -/
theorem getPlaybackSpeed_nan :
    (Muxer.new.setPlaybackSpeed Double.nan).getPlaybackSpeed = Double.nan ∧
    Double.lt (Double.fin 0) ([Double.nan].foldl setPlaybackSpeed Muxer.new).getPlaybackSpeed = false := by
  decide

theorem setPlaybackSpeed_pos (m : Muxer) (speed : Double) (hn : speed ≠ Double.nan)
    (hm : Double.lt (Double.fin 0) m.playbackSpeed = true) :
    Double.lt (Double.fin 0) (m.setPlaybackSpeed speed).playbackSpeed = true := by
  unfold setPlaybackSpeed
  by_cases h : Double.le speed (Double.fin 0) = true
  · rw [if_pos h]; exact hm
  · rw [if_neg h]
    cases speed with
    | nan => exact absurd rfl hn
    | negInf => exact absurd rfl h
    | posInf => rfl
    | fin q =>
      simp only [Double.le, decide_eq_true_eq, not_le] at h
      simp only [Double.lt, decide_eq_true_eq]
      exact h

theorem foldl_setPlaybackSpeed_pos :
    ∀ (speeds : List Double) (m : Muxer), Double.nan ∉ speeds →
      Double.lt (Double.fin 0) m.playbackSpeed = true →
      Double.lt (Double.fin 0) (speeds.foldl setPlaybackSpeed m).playbackSpeed = true := by
  intro speeds
  induction speeds with
  | nil => intro m _ hm; exact hm
  | cons x rest ih =>
    intro m hn hm
    rw [List.foldl_cons]
    refine ih _ (fun h => hn (List.mem_cons_of_mem _ h)) (setPlaybackSpeed_pos m x ?_ hm)
    intro hx
    exact hn (hx ▸ List.mem_cons_self _ _)

/-- C6 (amended): for every speed <= 0, `setPlaybackSpeed` leaves the muxer, and so
`playbackSpeed` and the four last-pts/dts fields, unchanged; hence in every state
reached from construction by a sequence of `setPlaybackSpeed` calls none of whose
arguments is NaN, `getPlaybackSpeed() > 0`. -/
theorem playbackSpeed_stays_positive (m : Muxer) (speed : Double) (speeds : List Double)
    (hle : Double.le speed (Double.fin 0) = true) (hnan : Double.nan ∉ speeds) :
    m.setPlaybackSpeed speed = m ∧
    Double.lt (Double.fin 0) (speeds.foldl setPlaybackSpeed Muxer.new).getPlaybackSpeed = true := by
  refine ⟨by simp only [setPlaybackSpeed, hle, if_true], ?_⟩
  exact foldl_setPlaybackSpeed_pos speeds Muxer.new hnan (by decide)

theorem playbackSpeed_stays_positive_witness :
    Double.le (Double.fin (-1)) (Double.fin 0) = true ∧
    Double.nan ∉ [Double.fin 2, Double.fin 0, Double.negInf, Double.posInf, Double.fin (-3)] ∧
    advanced.setPlaybackSpeed (Double.fin (-1)) = advanced ∧
    Double.lt (Double.fin 0)
      ([Double.fin 2, Double.fin 0, Double.negInf, Double.posInf, Double.fin (-3)].foldl
        setPlaybackSpeed Muxer.new).getPlaybackSpeed = true :=
  ⟨by decide, by decide,
    playbackSpeed_stays_positive advanced (Double.fin (-1))
      [Double.fin 2, Double.fin 0, Double.negInf, Double.posInf, Double.fin (-3)]
      (by decide) (by decide)⟩

end Muxer

/-! ## Properties of the thread-safe queue -/

namespace ThreadSafeQueue

variable {T : Type}

theorem IsChain.update_of_not_mem {mem : Nat → Option (QueueNode T)} (a : Nat)
    (x : Option (QueueNode T)) :
    ∀ (cells : List (Nat × T)) (p : Option Nat), a ∉ cells.map Prod.fst →
      IsChain mem p cells → IsChain (Function.update mem a x) p cells := by
  intro cells
  induction cells with
  | nil => intro p _ h; exact h
  | cons c rest ih =>
    intro p ha h
    simp only [List.map_cons, List.mem_cons, not_or] at ha
    obtain ⟨hp, nx, hm, hr⟩ := h
    refine ⟨hp, nx, ?_, ih nx ha.2 hr⟩
    rw [Function.update_noteq (Ne.symm ha.1)]
    exact hm

/-- Linking a new last node behind a non-empty chain. -/
theorem IsChain.snoc {mem : Nat → Option (QueueNode T)} (n : Nat) (v : T) :
    ∀ (cells : List (Nat × T)) (p : Option Nat) (t : Nat), IsChain mem p cells →
      (cells.map Prod.fst).Nodup → n ∉ cells.map Prod.fst →
      (cells.map Prod.fst).getLast? = some t →
      ∃ d, mem t = some { data := d, next := none } ∧
        IsChain (Function.update (Function.update mem n (some { data := v, next := none })) t
          (some { data := d, next := some n })) p (cells ++ [(n, v)]) := by
  intro cells
  induction cells with
  | nil => intro p t _ _ _ ht; simp at ht
  | cons c rest ih =>
    intro p t h hnd hn ht
    obtain ⟨hp, nx, hm, hr⟩ := h
    simp only [List.map_cons, List.nodup_cons] at hnd
    simp only [List.map_cons, List.mem_cons, not_or] at hn
    cases rest with
    | nil =>
      simp only [List.map_cons, List.map_nil, List.getLast?_singleton, Option.some.injEq] at ht
      have hnx : nx = none := hr
      subst hnx
      subst ht
      refine ⟨c.2, hm, hp, some n, ?_, rfl, none, ?_, rfl⟩
      · rw [Function.update_same]
      · rw [Function.update_noteq hn.1, Function.update_same]
    | cons c2 rest2 =>
      have ht2 : ((c2 :: rest2).map Prod.fst).getLast? = some t := by
        simpa [List.getLast?_cons_cons] using ht
      obtain ⟨d, hd, hch⟩ := ih nx t hr hnd.2 hn.2 ht2
      have htmem : t ∈ (c2 :: rest2).map Prod.fst := List.mem_of_getLast?_eq_some ht2
      have hct : c.1 ≠ t := fun e => hnd.1 (e ▸ htmem)
      refine ⟨d, hd, hp, nx, ?_, hch⟩
      rw [Function.update_noteq hct, Function.update_noteq (Ne.symm hn.1)]
      exact hm

theorem Repr.new : Repr (ThreadSafeQueue.new : ThreadSafeQueue T) [] :=
  ⟨rfl, List.nodup_nil, rfl, fun _ h => absurd h (List.not_mem_nil _)⟩

theorem Repr.head_nil {q : ThreadSafeQueue T} (h : Repr q []) : q.head = none := h.chain

theorem Repr.head_cons {q : ThreadSafeQueue T} {c : Nat × T} {rest : List (Nat × T)}
    (h : Repr q (c :: rest)) : q.head = some c.1 := h.chain.1

/-- `push` on a well-formed queue returns and appends the value in a fresh cell. -/
theorem Repr.push {q : ThreadSafeQueue T} {cells : List (Nat × T)} (h : Repr q cells) (v : T) :
    ∃ q1, q.push v = Outcome.ok q1 ∧ Repr q1 (cells ++ [(q.fresh, v)]) ∧
      q1.size = wrapInt (q.size + 1) := by
  have hfresh : q.fresh ∉ cells.map Prod.fst := by
    intro hm
    obtain ⟨c, hc, hce⟩ := List.mem_map.mp hm
    have := h.below c hc
    omega
  cases cells with
  | nil =>
    have hh : q.head = none := h.head_nil
    have e : q.push v = Outcome.ok
        { memory := Function.update q.memory q.fresh (some { data := v, next := none }),
          fresh := q.fresh + 1, head := some q.fresh, tail := some q.fresh,
          size := wrapInt (q.size + 1) } := by
      simp only [ThreadSafeQueue.push, isEmptyUnsafe, hh, Option.isNone_none, if_true]
    refine ⟨_, e, ?_, rfl⟩
    refine ⟨⟨rfl, none, ?_, rfl⟩, by simp, rfl, ?_⟩
    · simp only [Function.update_same]
    · intro c hc
      simp only [List.nil_append, List.mem_singleton] at hc
      subst hc
      exact Nat.lt_succ_self _
  | cons c rest =>
    have hh : q.head = some c.1 := h.head_cons
    obtain ⟨t, ht⟩ : ∃ t, ((c :: rest).map Prod.fst).getLast? = some t := by
      cases hl : ((c :: rest).map Prod.fst).getLast? with
      | none => simp at hl
      | some t => exact ⟨t, rfl⟩
    have htail : q.tail = some t := h.tail_eq.trans ht
    obtain ⟨d, hd, hch⟩ := IsChain.snoc q.fresh v (c :: rest) q.head t h.chain h.nodup hfresh ht
    have htmem : t ∈ (c :: rest).map Prod.fst := List.mem_of_getLast?_eq_some ht
    have htne : t ≠ q.fresh := fun e => hfresh (e ▸ htmem)
    have hm1 : Function.update q.memory q.fresh (some { data := v, next := none }) t =
        some { data := d, next := none } := by
      rw [Function.update_noteq htne]; exact hd
    have e : q.push v = Outcome.ok
        { memory := Function.update (Function.update q.memory q.fresh (some { data := v, next := none })) t
            (some { data := d, next := some q.fresh }),
          fresh := q.fresh + 1, head := q.head, tail := some q.fresh,
          size := wrapInt (q.size + 1) } := by
      simp only [ThreadSafeQueue.push, isEmptyUnsafe, hh, Option.isNone_some, htail, hm1]
      rfl
    refine ⟨_, e, ?_, rfl⟩
    refine ⟨hch, ?_, ?_, ?_⟩
    · rw [List.map_append, List.nodup_append]
      refine ⟨h.nodup, by simp, ?_⟩
      intro a ha hb
      simp only [List.map_cons, List.map_nil, List.mem_singleton] at hb
      exact hfresh (hb ▸ ha)
    · show some q.fresh = (((c :: rest) ++ [(q.fresh, v)]).map Prod.fst).getLast?
      rw [List.map_append]
      exact (List.getLast?_concat _).symm
    · intro c2 hc2
      rcases List.mem_append.mp hc2 with h1 | h1
      · exact Nat.lt_succ_of_lt (h.below c2 h1)
      · simp only [List.mem_singleton] at h1
        subst h1
        exact Nat.lt_succ_self _

/-- Removing the head of a well-formed non-empty queue returns its value and leaves
the remaining cells in order. -/
theorem Repr.removeHead {q : ThreadSafeQueue T} {c : Nat × T} {rest : List (Nat × T)}
    (h : Repr q (c :: rest)) :
    ∃ q1, q.removeHead c.1 = Outcome.ok (c.2, q1) ∧ Repr q1 rest ∧
      q1.size = wrapInt (q.size - 1) ∧ q1.fresh = q.fresh := by
  obtain ⟨_, nx, hm, hr⟩ := h.chain
  have hnd := h.nodup
  simp only [List.map_cons, List.nodup_cons] at hnd
  have e : q.removeHead c.1 = Outcome.ok (c.2,
      { memory := Function.update q.memory c.1 none, fresh := q.fresh, head := nx,
        tail := if nx = none then none else q.tail, size := wrapInt (q.size - 1) }) := by
    simp only [ThreadSafeQueue.removeHead, hm]
  refine ⟨_, e, ?_, rfl, rfl⟩
  refine ⟨IsChain.update_of_not_mem c.1 none rest nx hnd.1 hr, hnd.2, ?_, ?_⟩
  · cases rest with
    | nil =>
      have hnx : nx = none := hr
      simp [hnx]
    | cons c2 rest2 =>
      have hnx : nx = some c2.1 := hr.1
      have := h.tail_eq
      simp only [hnx, List.map_cons, List.getLast?_cons_cons] at this ⊢
      simpa using this
  · intro c2 hc2
    exact h.below c2 (List.mem_cons_of_mem _ hc2)

theorem Repr.pop_nil {q : ThreadSafeQueue T} (h : Repr q []) : q.pop = Outcome.blocked := by
  simp only [ThreadSafeQueue.pop, h.head_nil]

theorem Repr.pop_cons {q : ThreadSafeQueue T} {c : Nat × T} {rest : List (Nat × T)}
    (h : Repr q (c :: rest)) :
    ∃ q1, q.pop = Outcome.ok (c.2, q1) ∧ Repr q1 rest ∧ q1.size = wrapInt (q.size - 1) := by
  obtain ⟨q1, e, hr, hs, _⟩ := h.removeHead
  exact ⟨q1, by simp only [ThreadSafeQueue.pop, h.head_cons, e], hr, hs⟩

theorem Repr.tryPop_nil {q : ThreadSafeQueue T} (h : Repr q []) (value : T) :
    q.tryPop value = Outcome.ok (false, value, q) := by
  simp only [ThreadSafeQueue.tryPop, h.head_nil]

theorem Repr.tryPop_cons {q : ThreadSafeQueue T} {c : Nat × T} {rest : List (Nat × T)}
    (h : Repr q (c :: rest)) (value : T) :
    ∃ q1, q.tryPop value = Outcome.ok (true, c.2, q1) ∧ q.pop = Outcome.ok (c.2, q1) ∧
      Repr q1 rest ∧ q1.size = wrapInt (q.size - 1) := by
  obtain ⟨q1, e, hr, hs, _⟩ := h.removeHead
  exact ⟨q1, by simp only [ThreadSafeQueue.tryPop, h.head_cons, e],
    by simp only [ThreadSafeQueue.pop, h.head_cons, e], hr, hs⟩

theorem runInv_exec {r : Run T} (h : RunInv r) (op : Op T) : RunInv (exec r op) := by
  obtain ⟨hst, cells, hrep, hpp⟩ := h
  unfold ThreadSafeQueue.exec
  cases hs : r.status with
  | blocked => exact ⟨by rw [hs]; decide, cells, hrep, hpp⟩
  | faulted => exact absurd hs hst
  | running =>
    cases op with
    | push v =>
      obtain ⟨q1, e, hr1, _⟩ := hrep.push v
      simp only [e]
      exact ⟨by simp only [hs]; decide, _, hr1, by simp [hpp]⟩
    | pop =>
      cases cells with
      | nil =>
        simp only [hrep.pop_nil]
        exact ⟨by simp, [], hrep, hpp⟩
      | cons c rest =>
        obtain ⟨q1, e, hr1, _⟩ := hrep.pop_cons
        simp only [e]
        exact ⟨by simp only [hs]; decide, rest, hr1, by simp [hpp]⟩
    | tryPop value =>
      cases cells with
      | nil =>
        simp only [hrep.tryPop_nil value]
        exact ⟨by simp only [hs]; decide, [], hrep, hpp⟩
      | cons c rest =>
        obtain ⟨q1, e, _, hr1, _⟩ := hrep.tryPop_cons value
        simp only [e]
        exact ⟨by simp only [hs]; decide, rest, hr1, by simp [hpp]⟩

theorem runInv_foldl (ops : List (Op T)) : ∀ r : Run T, RunInv r → RunInv (ops.foldl exec r) := by
  induction ops with
  | nil => intro r h; exact h
  | cons op rest ih => intro r h; exact ih _ (runInv_exec h op)

/-- C7: for every sequence of `push`, `pop` and `tryPop` operations executed one after
another on an initially empty queue, no operation faults and the values returned by
the successful pops, in order, are a prefix of the values pushed, in order; pushing
`u1, u2, u3` and then popping three times returns `u1, u2, u3`. -/
theorem fifo_preservation (ops : List (Op T)) (u1 u2 u3 : T) :
    (runOps ops).popped <+: (runOps ops).pushed ∧
    (runOps ops).status ≠ Status.faulted ∧
    (runOps [Op.push u1, Op.push u2, Op.push u3, Op.pop, Op.pop, Op.pop]).popped = [u1, u2, u3] ∧
    (runOps [Op.push u1, Op.push u2, Op.push u3, Op.pop, Op.pop, Op.pop]).status = Status.running := by
  have h : RunInv (runOps ops) :=
    runInv_foldl ops _ ⟨by simp, [], Repr.new, rfl⟩
  obtain ⟨hst, cells, _, hpp⟩ := h
  exact ⟨⟨_, hpp.symm⟩, hst, rfl, rfl⟩

theorem Repr.fiveUnits : Repr fiveUnits fiveCells :=
  ⟨⟨rfl, _, rfl, rfl, _, rfl, rfl, _, rfl, rfl, _, rfl, rfl, _, rfl, rfl⟩, by decide, rfl, by decide⟩

/-- The release loop on a chain: it finishes within as many iterations as there are
cells, and calls the release function once for each non-null unit, in order. -/
theorem releaseNodes_chain (free : Nat → Release) :
    ∀ (cells : List (Nat × VoidPtr)) (mem : Nat → Option (QueueNode VoidPtr)) (p : Option Nat)
      (calls : List Release) (fuel : Nat), IsChain mem p cells → (cells.map Prod.fst).Nodup →
      cells.length ≤ fuel →
      ∃ mem1, releaseNodes free fuel mem p calls =
        Outcome.ok (mem1, calls ++ (cells.map Prod.snd).filterMap (Option.map free)) := by
  intro cells
  induction cells with
  | nil =>
    intro mem p calls fuel h _ _
    have hp : p = none := h
    subst hp
    refine ⟨mem, ?_⟩
    cases fuel <;> simp [releaseNodes]
  | cons c rest ih =>
    intro mem p calls fuel h hnd hf
    obtain ⟨hp, nx, hm, hr⟩ := h
    subst hp
    simp only [List.map_cons, List.nodup_cons] at hnd
    cases fuel with
    | zero => simp at hf
    | succ f =>
      have hf2 : rest.length ≤ f := by simpa using hf
      have hr2 := IsChain.update_of_not_mem c.1 none rest nx hnd.1 hr
      cases hd : c.2 with
      | none =>
        obtain ⟨mem1, e⟩ := ih _ nx calls f hr2 hnd.2 hf2
        refine ⟨mem1, ?_⟩
        simp only [releaseNodes, hm, hd, e, List.map_cons, List.filterMap_cons, Option.map_none']
      | some u =>
        obtain ⟨mem1, e⟩ := ih _ nx (calls ++ [free u]) f hr2 hnd.2 hf2
        refine ⟨mem1, ?_⟩
        simp only [releaseNodes, hm, hd, e, List.map_cons, List.filterMap_cons, Option.map_some',
          List.append_assoc, List.singleton_append]

theorem releasingClear_repr (free : Nat → Release) (q : ThreadSafeQueue VoidPtr)
    (cells : List (Nat × VoidPtr)) (fuel : Nat) (h : Repr q cells) (hf : cells.length ≤ fuel) :
    ∃ q1, releasingClear free fuel q =
        Outcome.ok ((cells.map Prod.snd).filterMap (Option.map free), q1) ∧
      q1.isEmpty = true ∧ q1.getSize = 0 ∧ Repr q1 [] := by
  obtain ⟨mem1, e⟩ := releaseNodes_chain free cells q.memory q.head [] fuel h.chain h.nodup hf
  refine ⟨{ memory := mem1, fresh := q.fresh, head := none, tail := none, size := 0 }, ?_, rfl, rfl,
    ⟨rfl, List.nodup_nil, rfl, fun _ hc => absurd hc (List.not_mem_nil _)⟩⟩
  simp only [releasingClear, e, List.nil_append]

end ThreadSafeQueue

/-- C8: for each typed queue holding the units `cells` (a well-formed list), `clear()`
returns, its release calls are exactly one `av_packet_free` (packet queues) or
`av_frame_free` (frame queues) per non-null unit held, in queue order, and nothing
else, and afterwards `isEmpty()` is true and `getSize()` is 0. -/
theorem clear_releases_each_unit_once (q : ThreadSafeQueue VoidPtr) (cells : List (Nat × VoidPtr))
    (fuel : Nat) (h : ThreadSafeQueue.Repr q cells) (hf : cells.length ≤ fuel) :
    (∃ q1, VideoPacketQueue.clear fuel q =
        Outcome.ok ((cells.map Prod.snd).filterMap (Option.map Release.av_packet_free), q1) ∧
      q1.isEmpty = true ∧ q1.getSize = 0) ∧
    (∃ q1, AudioPacketQueue.clear fuel q =
        Outcome.ok ((cells.map Prod.snd).filterMap (Option.map Release.av_packet_free), q1) ∧
      q1.isEmpty = true ∧ q1.getSize = 0) ∧
    (∃ q1, VideoFrameQueue.clear fuel q =
        Outcome.ok ((cells.map Prod.snd).filterMap (Option.map Release.av_frame_free), q1) ∧
      q1.isEmpty = true ∧ q1.getSize = 0) ∧
    (∃ q1, AudioFrameQueue.clear fuel q =
        Outcome.ok ((cells.map Prod.snd).filterMap (Option.map Release.av_frame_free), q1) ∧
      q1.isEmpty = true ∧ q1.getSize = 0) := by
  obtain ⟨p1, hp1, hp2, hp3, _⟩ :=
    ThreadSafeQueue.releasingClear_repr Release.av_packet_free q cells fuel h hf
  obtain ⟨f1, hf1, hf2, hf3, _⟩ :=
    ThreadSafeQueue.releasingClear_repr Release.av_frame_free q cells fuel h hf
  exact ⟨⟨p1, hp1, hp2, hp3⟩, ⟨p1, hp1, hp2, hp3⟩, ⟨f1, hf1, hf2, hf3⟩, ⟨f1, hf1, hf2, hf3⟩⟩

theorem clear_releases_each_unit_once_witness :
    ThreadSafeQueue.Repr fiveUnits fiveCells ∧ fiveCells.length ≤ 5 ∧
    (∃ q1, VideoPacketQueue.clear 5 fiveUnits =
        Outcome.ok ([Release.av_packet_free 100, Release.av_packet_free 101,
          Release.av_packet_free 102, Release.av_packet_free 103, Release.av_packet_free 104], q1) ∧
      q1.isEmpty = true ∧ q1.getSize = 0) ∧
    (∃ q1, VideoFrameQueue.clear 5 fiveUnits =
        Outcome.ok ([Release.av_frame_free 100, Release.av_frame_free 101,
          Release.av_frame_free 102, Release.av_frame_free 103, Release.av_frame_free 104], q1) ∧
      q1.isEmpty = true ∧ q1.getSize = 0) :=
  ⟨ThreadSafeQueue.Repr.fiveUnits, by decide,
    (clear_releases_each_unit_once fiveUnits fiveCells 5 ThreadSafeQueue.Repr.fiveUnits (by decide)).1,
    (clear_releases_each_unit_once fiveUnits fiveCells 5 ThreadSafeQueue.Repr.fiveUnits (by decide)).2.2.1⟩

theorem wrapInt_of_range (x : Int) (h1 : INT_MIN ≤ x) (h2 : x ≤ INT_MAX) : wrapInt x = x := by
  simp only [INT_MIN, INT_MAX] at h1 h2
  simp only [wrapInt]; omega

/-- C9: on a well-formed queue whose `size` field counts its cells, `tryPop` on an
empty queue returns false and leaves the queue and the caller's variable unchanged;
on a non-empty queue it returns true, stores the head value in the variable, and
leaves the queue that `pop()` leaves: the remaining cells in their order, with the
size decremented by one. -/
theorem tryPop_contract {T : Type} (q : ThreadSafeQueue T) (cells : List (Nat × T)) (value : T)
    (h : ThreadSafeQueue.Repr q cells) (hsize : q.size = (cells.length : Int))
    (hmax : (cells.length : Int) ≤ INT_MAX) :
    match cells with
    | [] => q.tryPop value = Outcome.ok (false, value, q)
    | c :: rest =>
      ∃ q1, q.tryPop value = Outcome.ok (true, c.2, q1) ∧ q.pop = Outcome.ok (c.2, q1) ∧
        ThreadSafeQueue.Repr q1 rest ∧ q1.getSize = q.getSize - 1 ∧
        q1.getSize = (rest.length : Int) := by
  cases cells with
  | nil => exact h.tryPop_nil value
  | cons c rest =>
    obtain ⟨q1, e1, e2, hr, hs⟩ := h.tryPop_cons value
    have hw : wrapInt (q.size - 1) = q.size - 1 := by
      apply wrapInt_of_range
      · rw [hsize]; simp only [INT_MIN, List.length_cons]; push_cast; omega
      · rw [hsize]; simp only [INT_MAX] at hmax ⊢; omega
    have hq1 : q1.size = q.size - 1 := hs.trans hw
    refine ⟨q1, e1, e2, hr, hq1, ?_⟩
    show q1.size = (rest.length : Int)
    rw [hq1, hsize, List.length_cons]
    push_cast
    omega

theorem tryPop_contract_witness :
    ThreadSafeQueue.Repr fiveUnits fiveCells ∧ fiveUnits.size = (fiveCells.length : Int) ∧
    (fiveCells.length : Int) ≤ INT_MAX ∧
    (∃ q1, fiveUnits.tryPop none = Outcome.ok (true, some 100, q1) ∧
      fiveUnits.pop = Outcome.ok (some 100, q1) ∧
      ThreadSafeQueue.Repr q1 [(1, some 101), (2, some 102), (3, some 103), (4, some 104)] ∧
      q1.getSize = fiveUnits.getSize - 1 ∧ q1.getSize = 4) ∧
    (ThreadSafeQueue.new : ThreadSafeQueue VoidPtr).tryPop (some 7) =
      Outcome.ok (false, some 7, ThreadSafeQueue.new) :=
  ⟨ThreadSafeQueue.Repr.fiveUnits, by decide, by decide,
    tryPop_contract fiveUnits fiveCells none ThreadSafeQueue.Repr.fiveUnits (by decide) (by decide),
    tryPop_contract ThreadSafeQueue.new [] (some 7) ThreadSafeQueue.Repr.new (by decide) (by decide)⟩

/-- C10, the code at a queue that still holds five non-null packets: destroying the
`VideoPacketQueue` (and likewise each other typed queue) deletes the nodes but makes
no release call, whereas `clear()` on the same queue releases the five packets. -/
theorem destructor_releases_nothing :
    (∃ q1, VideoPacketQueue.destructor 5 fiveUnits = Outcome.ok ([], q1) ∧ q1.isEmpty = true) ∧
    (∃ q1, AudioPacketQueue.destructor 5 fiveUnits = Outcome.ok ([], q1) ∧ q1.isEmpty = true) ∧
    (∃ q1, VideoFrameQueue.destructor 5 fiveUnits = Outcome.ok ([], q1) ∧ q1.isEmpty = true) ∧
    (∃ q1, AudioFrameQueue.destructor 5 fiveUnits = Outcome.ok ([], q1) ∧ q1.isEmpty = true) ∧
    (∃ q1, VideoPacketQueue.clear 5 fiveUnits =
      Outcome.ok ([Release.av_packet_free 100, Release.av_packet_free 101,
        Release.av_packet_free 102, Release.av_packet_free 103, Release.av_packet_free 104], q1)) :=
  ⟨⟨_, rfl, rfl⟩, ⟨_, rfl, rfl⟩, ⟨_, rfl, rfl⟩, ⟨_, rfl, rfl⟩, ⟨_, rfl⟩⟩

/-! ## The monotonicity rule of `writePacket` in closed form -/

namespace Muxer

/-- C19: let `p`, `d` be the packet's pts and dts after speed adjustment and time-base
conversion and `prevP`, `prevD` the values stored for the stream (both `int64_t`
values below `INT64_MAX`, so that `+ 1` does not overflow).  `writePacket` leaves
pts' = `p` if `prevP` is unset or `p > prevP`, and `prevP + 1` otherwise; it leaves
dts' = min(pts', d*) with d* = `d` if `prevD` is unset or `d > prevD`, and `prevD + 1`
otherwise; and it stores (pts', dts') as the new previous values.  In particular a
pts strictly greater than the previous one is written unchanged. -/
theorem writePacket_monotonic_rule (m : Muxer) (pkt : AVPacket) (isVideo : Bool) (ret : Int)
    (s : OutputStream) (hfc : m.formatContext = true) (hs : m.stream isVideo = some s)
    (hP0 : INT64_MIN ≤ m.lastPts isVideo) (hP1 : m.lastPts isVideo < INT64_MAX)
    (hD0 : INT64_MIN ≤ m.lastDts isVideo) (hD1 : m.lastDts isVideo < INT64_MAX) :
    ∃ out : AVPacket, (m.writePacket (some pkt) isVideo ret).2.2 = some out ∧
      out.pts = (if m.lastPts isVideo = AV_NOPTS_VALUE ∨ m.lastPts isVideo < (rescaled m s pkt).pts
        then (rescaled m s pkt).pts else m.lastPts isVideo + 1) ∧
      out.dts = min out.pts
        (if m.lastDts isVideo = AV_NOPTS_VALUE ∨ m.lastDts isVideo < (rescaled m s pkt).dts
          then (rescaled m s pkt).dts else m.lastDts isVideo + 1) ∧
      (m.writePacket (some pkt) isVideo ret).2.1.lastPts isVideo = out.pts ∧
      (m.writePacket (some pkt) isVideo ret).2.1.lastDts isVideo = out.dts ∧
      (m.lastPts isVideo < (rescaled m s pkt).pts → out.pts = (rescaled m s pkt).pts) := by
  rw [writePacket_eq m pkt isVideo ret s hfc hs]
  have e1 : wrapInt64 (m.lastPts isVideo + 1) = m.lastPts isVideo + 1 :=
    wrapInt64_of_range _ (by simp only [INT64_MIN] at *; omega) (by simp only [INT64_MAX] at *; omega)
  have e2 : wrapInt64 (m.lastDts isVideo + 1) = m.lastDts isVideo + 1 :=
    wrapInt64_of_range _ (by simp only [INT64_MIN] at *; omega) (by simp only [INT64_MAX] at *; omega)
  have hp : (convertDuration m s.codecTimeBase s.time_base
      (clampDts (correctMonotonic (m.lastPts isVideo) (m.lastDts isVideo) (rescaled m s pkt)))).pts =
      (if m.lastPts isVideo = AV_NOPTS_VALUE ∨ m.lastPts isVideo < (rescaled m s pkt).pts
        then (rescaled m s pkt).pts else m.lastPts isVideo + 1) := by
    rw [convertDuration_pts, clampDts_pts, correctMonotonic_pts, e1]
    split_ifs with h1 h2 h2
    · omega
    · rfl
    · rfl
    · omega
  refine ⟨_, rfl, hp, ?_, ?_, ?_, ?_⟩
  · rw [hp, convertDuration_dts, clampDts_dts, correctMonotonic_pts, correctMonotonic_dts, e1, e2]
    split_ifs <;> omega
  · rw [lastPts_setLast, convertDuration_pts]
  · rw [lastDts_setLast, convertDuration_dts]
  · intro h
    rw [hp, if_pos (Or.inr h)]

theorem writePacket_monotonic_rule_witness :
    reordered.formatContext = true ∧ reordered.stream true = some videoStream30 ∧
    INT64_MIN ≤ reordered.lastPts true ∧ reordered.lastPts true < INT64_MAX ∧
    INT64_MIN ≤ reordered.lastDts true ∧ reordered.lastDts true < INT64_MAX ∧
    ∃ out : AVPacket, (reordered.writePacket (some noDtsPacket) true 0).2.2 = some out ∧
      out.pts = (if reordered.lastPts true = AV_NOPTS_VALUE ∨
          reordered.lastPts true < (rescaled reordered videoStream30 noDtsPacket).pts
        then (rescaled reordered videoStream30 noDtsPacket).pts else reordered.lastPts true + 1) ∧
      out.dts = min out.pts
        (if reordered.lastDts true = AV_NOPTS_VALUE ∨
            reordered.lastDts true < (rescaled reordered videoStream30 noDtsPacket).dts
          then (rescaled reordered videoStream30 noDtsPacket).dts else reordered.lastDts true + 1) ∧
      (reordered.writePacket (some noDtsPacket) true 0).2.1.lastPts true = out.pts ∧
      (reordered.writePacket (some noDtsPacket) true 0).2.1.lastDts true = out.dts ∧
      (reordered.lastPts true < (rescaled reordered videoStream30 noDtsPacket).pts →
        out.pts = (rescaled reordered videoStream30 noDtsPacket).pts) :=
  ⟨rfl, rfl, by decide, by decide, by decide, by decide,
    writePacket_monotonic_rule reordered noDtsPacket true 0 videoStream30 rfl rfl
      (by decide) (by decide) (by decide) (by decide)⟩

/-- C20, counterexample: after a packet written with pts 10 and dts 5, a packet with
pts 8 and unset dts (speed 1.0, equal time bases) is written with pts 11 and dts 8:
its dts took the pts before the monotonicity correction, not the pts written. -/
theorem writePacket_unset_dts_differs :
    noDtsPacket.dts = AV_NOPTS_VALUE ∧ noDtsPacket.pts ≠ AV_NOPTS_VALUE ∧
    (reordered.writePacket (some noDtsPacket) true 0).2.2 =
      some { stream_index := 0, pts := 11, dts := 8, duration := 1 } := by
  decide

theorem rescaled_dts_of_unset (m : Muxer) (s : OutputStream) (pkt : AVPacket)
    (hd : pkt.dts = AV_NOPTS_VALUE) : (rescaled m s pkt).dts = (rescaled m s pkt).pts := by
  unfold rescaled
  rw [convertTimestamps_dts, applySpeed_dts]
  simp only [hd, ne_eq, not_true_eq_false, and_false, if_false]

/-- C20 (amended): for every muxer state and every packet whose dts is unset, the dts
takes the rescaled pts before the monotonicity check; and whenever the pts is not
raised by the monotonicity correction (the previous pts is unset or below the
rescaled pts) and `lastDts + 1` does not overflow, the dts written equals the pts
written. -/
theorem writePacket_unset_dts (m : Muxer) (pkt : AVPacket) (isVideo : Bool) (ret : Int)
    (s : OutputStream) (hfc : m.formatContext = true) (hs : m.stream isVideo = some s)
    (hd : pkt.dts = AV_NOPTS_VALUE)
    (hnb : m.lastPts isVideo = AV_NOPTS_VALUE ∨ m.lastPts isVideo < (rescaled m s pkt).pts)
    (hD0 : INT64_MIN ≤ m.lastDts isVideo) (hD1 : m.lastDts isVideo < INT64_MAX) :
    (rescaled m s pkt).dts = (rescaled m s pkt).pts ∧
    ∃ out : AVPacket, (m.writePacket (some pkt) isVideo ret).2.2 = some out ∧
      out.pts = (rescaled m s pkt).pts ∧ out.dts = out.pts := by
  have hr := rescaled_dts_of_unset m s pkt hd
  rw [writePacket_eq m pkt isVideo ret s hfc hs]
  have e2 : wrapInt64 (m.lastDts isVideo + 1) = m.lastDts isVideo + 1 :=
    wrapInt64_of_range _ (by simp only [INT64_MIN] at *; omega) (by simp only [INT64_MAX] at *; omega)
  have hp : (clampDts (correctMonotonic (m.lastPts isVideo) (m.lastDts isVideo) (rescaled m s pkt))).pts =
      (rescaled m s pkt).pts := by
    rw [clampDts_pts, correctMonotonic_pts]
    split_ifs with h
    · rcases hnb with h1 | h1
      · exact absurd h1 h.1
      · omega
    · rfl
  refine ⟨hr, _, rfl, ?_, ?_⟩
  · rw [convertDuration_pts, hp]
  · rw [convertDuration_pts, convertDuration_dts, hp, clampDts_dts, correctMonotonic_pts,
      correctMonotonic_dts, e2, hr]
    split_ifs <;> omega

theorem writePacket_unset_dts_witness :
    initialised.formatContext = true ∧ initialised.stream true = some videoStream30 ∧
    noDtsPacket.dts = AV_NOPTS_VALUE ∧
    (initialised.lastPts true = AV_NOPTS_VALUE ∨
      initialised.lastPts true < (rescaled initialised videoStream30 noDtsPacket).pts) ∧
    INT64_MIN ≤ initialised.lastDts true ∧ initialised.lastDts true < INT64_MAX ∧
    (rescaled initialised videoStream30 noDtsPacket).dts =
      (rescaled initialised videoStream30 noDtsPacket).pts ∧
    ∃ out : AVPacket, (initialised.writePacket (some noDtsPacket) true 0).2.2 = some out ∧
      out.pts = (rescaled initialised videoStream30 noDtsPacket).pts ∧ out.dts = out.pts :=
  ⟨rfl, rfl, rfl, Or.inl rfl, by decide, by decide,
    writePacket_unset_dts initialised noDtsPacket true 0 videoStream30 rfl rfl rfl (Or.inl rfl)
      (by decide) (by decide)⟩

end Muxer

/-! ## Stage lifecycle and command line -/

/-- Each `start()` is a no-op on a running stage, and the three stages that test
their context are a no-op without it. -/
theorem start_noop (w : Worker) :
    (w.isRunning = true →
      Demux.start w = w ∧ VideoDecoder.start w = w ∧ AudioDecoder.start w = w ∧
      VideoEncoder.start w = w ∧ AudioEncoder.start w = w ∧ Muxer.start w = w) ∧
    (w.context = false →
      VideoDecoder.start w = w ∧ AudioDecoder.start w = w ∧ VideoEncoder.start w = w) := by
  constructor
  · intro h
    simp [Demux.start, VideoDecoder.start, AudioDecoder.start, VideoEncoder.start,
      AudioEncoder.start, Muxer.start, h]
  · intro h
    simp [VideoDecoder.start, AudioDecoder.start, VideoEncoder.start, h]

/-- C14, the code on a stage whose context was never initialised and that is not
running: `AudioEncoder::start`, `Muxer::start` and `Demux::start` set `isRunning` and
create the worker thread all the same, while `VideoDecoder::start`,
`AudioDecoder::start` and `VideoEncoder::start` leave the stage unchanged. -/
theorem start_without_context :
    AudioEncoder.start Worker.uninitialised =
      { isRunning := true, isPaused := false, context := false, threads := 1 } ∧
    Muxer.start Worker.uninitialised =
      { isRunning := true, isPaused := false, context := false, threads := 1 } ∧
    Demux.start Worker.uninitialised =
      { isRunning := true, isPaused := false, context := false, threads := 1 } ∧
    VideoDecoder.start Worker.uninitialised = Worker.uninitialised ∧
    AudioDecoder.start Worker.uninitialised = Worker.uninitialised ∧
    VideoEncoder.start Worker.uninitialised = Worker.uninitialised := by
  decide

namespace Transcode

end Transcode

/-! ## Properties of the ring buffer -/

namespace RingBuffer

variable {T : Type}

theorem mod_ne_of_lt {c h i j : Nat} (hij : i < j) (hjc : j < i + c) :
    (h + i) % c ≠ (h + j) % c := by
  intro e
  have h1 : (h + j - (h + i)) % c = 0 := Nat.sub_mod_eq_zero_of_mod_eq e.symm
  have h2 : h + j - (h + i) = j - i := by omega
  rw [h2, Nat.mod_eq_of_lt (by omega)] at h1
  omega

theorem shift_index (c h i : Nat) : ((h + 1) % c + i) % c = (h + (i + 1)) % c := by
  rw [Nat.mod_add_mod]
  congr 1
  omega

theorem contents_length (b : RingBuffer T) : b.contents.length = b.size := by
  simp [contents]

/-- Dropping the oldest element: the buffer with `head` advanced holds the tail of
the contents. -/
theorem contents_advance (b : RingBuffer T) (hs : 0 < b.size) (hh : b.head < b.capacity) :
    b.contents = b.buffer b.head ::
      ({ b with head := (b.head + 1) % b.capacity, size := b.size - 1 } : RingBuffer T).contents := by
  obtain ⟨s, hs1⟩ : ∃ s, b.size = s + 1 := ⟨b.size - 1, by omega⟩
  simp only [contents, hs1, Nat.add_sub_cancel, List.range_succ_eq_map, List.map_cons,
    List.map_map, Nat.add_zero, Nat.mod_eq_of_lt hh]
  congr 1
  apply List.map_congr_left
  intro i _
  simp only [Function.comp, Nat.succ_eq_add_one, shift_index]

theorem inv_advance (b : RingBuffer T) (h : Inv b) (hs : 0 < b.size) :
    Inv ({ b with head := (b.head + 1) % b.capacity, size := b.size - 1 } : RingBuffer T) := by
  refine ⟨h.pos, ?_, Nat.mod_lt _ h.pos, ?_⟩
  · have := h.size_le
    show b.size - 1 ≤ b.capacity
    omega
  · show b.tail = ((b.head + 1) % b.capacity + (b.size - 1)) % b.capacity
    rw [h.tail_eq, Nat.mod_add_mod]
    congr 1
    omega

/-- Storing into a buffer that is not full appends the item. -/
theorem store_spec (b : RingBuffer T) (h : Inv b) (hlt : b.size < b.capacity) (x : T) :
    Inv (b.store x) ∧ (b.store x).contents = b.contents ++ [x] ∧
    (b.store x).size = b.size + 1 ∧ (b.store x).capacity = b.capacity ∧
    (b.store x).overwrite = b.overwrite := by
  refine ⟨⟨h.pos, hlt, h.head_lt, ?_⟩, ?_, rfl, rfl, rfl⟩
  · show (b.tail + 1) % b.capacity = (b.head + (b.size + 1)) % b.capacity
    rw [h.tail_eq, Nat.mod_add_mod]
    congr 1
  · simp only [contents, store, List.range_succ, List.map_append, List.map_cons, List.map_nil]
    congr 1
    · apply List.map_congr_left
      intro i hi
      have hi2 : i < b.size := List.mem_range.mp hi
      rw [Function.update_noteq]
      rw [h.tail_eq]
      exact mod_ne_of_lt hi2 (by omega)
    · rw [h.tail_eq, Function.update_same]

/-- What `write` does on a well-formed buffer, case by case. -/
theorem write_spec (b : RingBuffer T) (h : Inv b) (x : T) :
    Inv (b.write x).2 ∧ (b.write x).2.capacity = b.capacity ∧
    (b.write x).2.overwrite = b.overwrite ∧
    (b.size < b.capacity →
      (b.write x).1 = true ∧ (b.write x).2.contents = b.contents ++ [x] ∧
      (b.write x).2.size = b.size + 1) ∧
    (b.size = b.capacity → b.overwrite = true →
      (b.write x).1 = true ∧ (b.write x).2.contents = b.contents.tail ++ [x] ∧
      (b.write x).2.size = b.size) ∧
    (b.size = b.capacity → b.overwrite = false → b.write x = (false, b)) := by
  by_cases hf : b.size = b.capacity
  · have hfull : b.isFull = true := by simp [isFull, hf]
    cases ho : b.overwrite with
    | false =>
      have e : b.write x = (false, b) := by simp [write, hfull, ho]
      rw [e]
      exact ⟨h, rfl, ho, fun hl => absurd hf (by omega), fun _ hc => Bool.noConfusion hc, fun _ _ => rfl⟩
    | true =>
      have hs : 0 < b.size := by have := h.pos; omega
      have e : b.write x =
          (true, store { b with head := (b.head + 1) % b.capacity, size := b.size - 1 } x) := by
        simp [write, hfull, ho]
      have hi := inv_advance b h hs
      obtain ⟨h1, h2, h3, h4, h5⟩ := store_spec _ hi
        (show b.size - 1 < b.capacity by have := h.size_le; omega) x
      rw [e]
      refine ⟨h1, h4, h5.trans ho, fun hl => absurd hf (by omega), fun _ _ => ⟨rfl, ?_, ?_⟩,
        fun _ hc => Bool.noConfusion hc⟩
      · rw [h2, contents_advance b hs h.head_lt]
        rfl
      · show (store _ x).size = b.size
        rw [h3]
        show b.size - 1 + 1 = b.size
        omega
  · have hnf : b.isFull = false := by simp [isFull, hf]
    have e : b.write x = (true, b.store x) := by simp [write, hnf]
    have hlt : b.size < b.capacity := lt_of_le_of_ne h.size_le hf
    obtain ⟨h1, h2, h3, h4, h5⟩ := store_spec b h hlt x
    rw [e]
    exact ⟨h1, h4, h5, fun _ => ⟨rfl, h2, h3⟩, fun hc => absurd hc hf, fun hc => absurd hc hf⟩

/-- Writing a sequence into an overwriting buffer keeps the newest elements. -/
theorem writeAll_overwrite :
    ∀ (xs : List T) (b : RingBuffer T), Inv b → b.overwrite = true →
      (writeAll xs b).1 = List.replicate xs.length true ∧ Inv (writeAll xs b).2 ∧
      (writeAll xs b).2.contents = (b.contents ++ xs).drop (b.size + xs.length - b.capacity) := by
  intro xs
  induction xs with
  | nil =>
    intro b h _
    refine ⟨rfl, h, ?_⟩
    have := h.size_le
    simp only [writeAll, List.append_nil, List.length_nil, Nat.add_zero]
    rw [Nat.sub_eq_zero_of_le this, List.drop_zero]
  | cons x rest ih =>
    intro b h ho
    obtain ⟨h1, hcap, hov, hlt, hfull, _⟩ := write_spec b h x
    obtain ⟨i1, i2, i3⟩ := ih (b.write x).2 h1 (hov.trans ho)
    by_cases hf : b.size = b.capacity
    · obtain ⟨w1, w2, w3⟩ := hfull hf ho
      refine ⟨by simp only [writeAll, w1, i1, List.length_cons, List.replicate_succ], i2, ?_⟩
      simp only [writeAll]
      rw [i3, w2, w3, hcap, hf]
      have hne : b.contents ≠ [] := by
        intro e
        have := contents_length b
        rw [e] at this
        have := h.pos
        simp only [List.length_nil] at *
        omega
      obtain ⟨hd, tl, htl⟩ := List.exists_cons_of_ne_nil hne
      rw [htl]
      simp only [List.tail_cons, List.length_cons, List.append_assoc, List.singleton_append,
        List.cons_append]
      have e1 : b.capacity + rest.length - b.capacity = rest.length := by omega
      have e2 : b.capacity + (rest.length + 1) - b.capacity = rest.length + 1 := by omega
      rw [e1, e2, List.drop_succ_cons, List.nil_append]
    · have hl : b.size < b.capacity := lt_of_le_of_ne h.size_le hf
      obtain ⟨w1, w2, w3⟩ := hlt hl
      refine ⟨by simp only [writeAll, w1, i1, List.length_cons, List.replicate_succ], i2, ?_⟩
      simp only [writeAll]
      rw [i3, w2, w3, hcap]
      simp only [List.length_cons, List.append_assoc, List.singleton_append]
      congr 1
      omega

/-- Writing a sequence into a buffer that does not overwrite keeps the oldest
elements: the writes succeed while there is room and fail afterwards. -/
theorem writeAll_keep :
    ∀ (xs : List T) (b : RingBuffer T), Inv b → b.overwrite = false →
      (writeAll xs b).1 = List.replicate (min xs.length (b.capacity - b.size)) true ++
        List.replicate (xs.length - (b.capacity - b.size)) false ∧
      Inv (writeAll xs b).2 ∧
      (writeAll xs b).2.contents = b.contents ++ xs.take (b.capacity - b.size) := by
  intro xs
  induction xs with
  | nil =>
    intro b h _
    exact ⟨by simp [writeAll], h, by simp [writeAll]⟩
  | cons x rest ih =>
    intro b h ho
    obtain ⟨h1, hcap, hov, hlt, _, hkeep⟩ := write_spec b h x
    obtain ⟨i1, i2, i3⟩ := ih (b.write x).2 h1 (hov.trans ho)
    by_cases hf : b.size = b.capacity
    · have e := hkeep hf ho
      rw [e] at i1 i2 i3
      refine ⟨?_, by simp only [writeAll, e]; exact i2, ?_⟩
      · simp only [writeAll, e, i1, hf, Nat.sub_self, Nat.min_zero, List.replicate_zero,
          List.nil_append, Nat.sub_zero, List.length_cons, List.replicate_succ]
      · simp only [writeAll, e, i3, hf, Nat.sub_self, List.take_zero]
    · have hl : b.size < b.capacity := lt_of_le_of_ne h.size_le hf
      obtain ⟨w1, w2, w3⟩ := hlt hl
      obtain ⟨k, hk⟩ : ∃ k, b.capacity - b.size = k + 1 := ⟨b.capacity - b.size - 1, by omega⟩
      have hk2 : (b.write x).2.capacity - (b.write x).2.size = k := by rw [hcap, w3]; omega
      rw [hk2] at i1 i3
      refine ⟨?_, by simp only [writeAll]; exact i2, ?_⟩
      · simp only [writeAll, w1, i1, hk, List.length_cons, Nat.add_min_add_right,
          List.replicate_succ, List.cons_append, Nat.add_sub_add_right]
      · simp only [writeAll, i3, w2, hk, List.take_succ_cons, List.append_assoc,
          List.singleton_append]

/-- Reading `n` elements from a buffer that holds at least `n`: every `read` succeeds
and the values are the first `n` of the contents. -/
theorem readAll_spec (d : T) :
    ∀ (n : Nat) (b : RingBuffer T), Inv b → n ≤ b.size →
      (readAll n d b).1 = (b.contents.take n).map (fun x => (true, x)) ∧
      (readAll n d b).2.size = b.size - n := by
  intro n
  induction n with
  | zero => intro b _ _; exact ⟨by simp [readAll], by simp [readAll]⟩
  | succ n ih =>
    intro b h hn
    have hs : 0 < b.size := by omega
    have hne : b.isEmpty = false := by simp [isEmpty]; omega
    have e : b.read d = (true, b.buffer b.head,
        { b with head := (b.head + 1) % b.capacity, size := b.size - 1 }) := by
      simp [read, hne]
    obtain ⟨i1, i2⟩ := ih _ (inv_advance b h hs) (show n ≤ b.size - 1 by omega)
    refine ⟨?_, ?_⟩
    · simp only [readAll, e, i1]
      rw [contents_advance b hs h.head_lt]
      simp only [List.take_succ_cons, List.map_cons]
    · simp only [readAll, e, i2]
      show b.size - 1 - n = b.size - (n + 1)
      omega

end RingBuffer

namespace RingBuffer

variable {T : Type}

theorem inv_new (c : Nat) (o : Bool) (init : Nat → T) (hc : 1 ≤ c) : Inv (new c o init) :=
  ⟨hc, Nat.zero_le _, hc, by simp [new, Nat.mod_eq_of_lt hc]⟩

/-- C17: for every capacity `c >= 1` and every sequence `xs` of `n` items written one at
a time with `write()` into an initially empty buffer.  With `allowOverwrite = true`
every write returns true, `getSize()` is `min(n, c)`, and that many successive
`read()` calls succeed and return exactly the last `min(n, c)` items written, oldest
first, leaving the buffer empty.  With `allowOverwrite = false` the first `min(n, c)`
writes return true and the others false, the buffer keeps the first `min(n, c)`
items, and a write on a full buffer returns false without changing the buffer. -/
theorem ring_keeps_newest (c : Nat) (init : Nat → T) (xs : List T) (d : T) (hc : 1 ≤ c) :
    (writeAll xs (new c true init)).1 = List.replicate xs.length true ∧
    (writeAll xs (new c true init)).2.getSize = min xs.length c ∧
    (readAll (min xs.length c) d (writeAll xs (new c true init)).2).1 =
      (xs.drop (xs.length - c)).map (fun x => (true, x)) ∧
    (readAll (min xs.length c) d (writeAll xs (new c true init)).2).2.isEmpty = true ∧
    (writeAll xs (new c false init)).1 =
      List.replicate (min xs.length c) true ++ List.replicate (xs.length - c) false ∧
    (writeAll xs (new c false init)).2.getSize = min xs.length c ∧
    (readAll (min xs.length c) d (writeAll xs (new c false init)).2).1 =
      (xs.take c).map (fun x => (true, x)) ∧
    ∀ (b : RingBuffer T) (x : T), b.isFull = true → b.overwrite = false →
      b.write x = (false, b) := by
  obtain ⟨a1, a2, a3⟩ := writeAll_overwrite xs (new c true init) (inv_new c true init hc) rfl
  obtain ⟨k1, k2, k3⟩ := writeAll_keep xs (new c false init) (inv_new c false init hc) rfl
  have hcn : (new c true init : RingBuffer T).contents = [] := rfl
  have hck : (new c false init : RingBuffer T).contents = [] := rfl
  have ea : (writeAll xs (new c true init)).2.contents = xs.drop (xs.length - c) := by
    rw [a3, hcn]
    simp [new]
  have ek : (writeAll xs (new c false init)).2.contents = xs.take c := by
    rw [k3, hck]
    simp [new]
  have sa : (writeAll xs (new c true init)).2.size = min xs.length c := by
    rw [← contents_length, ea, List.length_drop]
    omega
  have sk : (writeAll xs (new c false init)).2.size = min xs.length c := by
    rw [← contents_length, ek, List.length_take]
    omega
  obtain ⟨r1, r2⟩ := readAll_spec d (min xs.length c) _ a2 (le_of_eq sa.symm)
  obtain ⟨q1, _⟩ := readAll_spec d (min xs.length c) _ k2 (le_of_eq sk.symm)
  refine ⟨a1, sa, ?_, ?_, ?_, sk, ?_, ?_⟩
  · rw [r1, ea, List.take_of_length_le]
    rw [List.length_drop]
    omega
  · simp only [isEmpty, r2, sa, Nat.sub_self, beq_self_eq_true]
  · rw [k1]
    simp [new]
  · rw [q1, ek, List.take_of_length_le]
    rw [List.length_take]
    omega
  · intro b x hf ho
    simp [write, hf, ho]

end RingBuffer

theorem ring_keeps_newest_witness :
    1 ≤ 3 ∧
    (RingBuffer.writeAll [10, 20, 30, 40, 50] (RingBuffer.new 3 true (fun _ => 0))).1 =
      [true, true, true, true, true] ∧
    (RingBuffer.writeAll [10, 20, 30, 40, 50] (RingBuffer.new 3 true (fun _ => 0))).2.getSize = 3 ∧
    (RingBuffer.readAll 3 0
      (RingBuffer.writeAll [10, 20, 30, 40, 50] (RingBuffer.new 3 true (fun _ => 0))).2).1 =
      [(true, 30), (true, 40), (true, 50)] ∧
    (RingBuffer.writeAll [10, 20, 30, 40, 50] (RingBuffer.new 3 false (fun _ => 0))).1 =
      [true, true, true, false, false] ∧
    (RingBuffer.readAll 3 0
      (RingBuffer.writeAll [10, 20, 30, 40, 50] (RingBuffer.new 3 false (fun _ => 0))).2).1 =
      [(true, 10), (true, 20), (true, 30)] :=
  ⟨by decide,
    (RingBuffer.ring_keeps_newest 3 (fun _ => 0) [10, 20, 30, 40, 50] 0 (by decide)).1,
    (RingBuffer.ring_keeps_newest 3 (fun _ => 0) [10, 20, 30, 40, 50] 0 (by decide)).2.1,
    (RingBuffer.ring_keeps_newest 3 (fun _ => 0) [10, 20, 30, 40, 50] 0 (by decide)).2.2.1,
    (RingBuffer.ring_keeps_newest 3 (fun _ => 0) [10, 20, 30, 40, 50] 0 (by decide)).2.2.2.2.1,
    (RingBuffer.ring_keeps_newest 3 (fun _ => 0) [10, 20, 30, 40, 50] 0 (by decide)).2.2.2.2.2.2.1⟩

/-- C18, the two versions on the same input: writing the five bytes 1,...,5 into an
empty overwriting buffer of capacity 3, the generic `writeMultiple` returns 5 and the
byte specialisation returns 3; both leave the contents 3,4,5, and the two
`readMultiple` agree on them. -/
theorem byte_writeMultiple_count_differs :
    (RingBuffer.writeMultiple ring3 [1, 2, 3, 4, 5]).1 = 5 ∧
    (ByteRingBuffer.writeMultiple ring3 [1, 2, 3, 4, 5]).1 = 3 ∧
    (RingBuffer.writeMultiple ring3 [1, 2, 3, 4, 5]).2.contents = [3, 4, 5] ∧
    (ByteRingBuffer.writeMultiple ring3 [1, 2, 3, 4, 5]).2.contents = [3, 4, 5] ∧
    (RingBuffer.readMultiple (ByteRingBuffer.writeMultiple ring3 [1, 2, 3, 4, 5]).2 5).1 = 3 ∧
    (ByteRingBuffer.readMultiple (ByteRingBuffer.writeMultiple ring3 [1, 2, 3, 4, 5]).2 5).1 = 3 ∧
    (RingBuffer.readMultiple (ByteRingBuffer.writeMultiple ring3 [1, 2, 3, 4, 5]).2 5).2.1 = [3, 4, 5] ∧
    (ByteRingBuffer.readMultiple (ByteRingBuffer.writeMultiple ring3 [1, 2, 3, 4, 5]).2 5).2.1 = [3, 4, 5] := by
  decide

/-! ## When the scheduling loop of the muxer finalizes -/

namespace MuxLoop

theorem processAudio_fields (ret : Int) (st : MuxLoop) (ptr : Option EncodedPacket)
    (rest : List (Option EncodedPacket)) :
    (processAudio ret st ptr rest).1.videoFinished = st.videoFinished ∧
    (processAudio ret st ptr rest).1.poppedVideo = st.poppedVideo ∧
    (processAudio ret st ptr rest).1.poppedAudio = st.poppedAudio ++ [ptr] ∧
    (processAudio ret st ptr rest).1.audioFinished = (st.audioFinished || isEos ptr) ∧
    (processAudio ret st ptr rest).1.emptyQueueCount = st.emptyQueueCount := by
  unfold processAudio
  cases ptr with
  | none => simp [isEos]
  | some p =>
    cases hd : p.data with
    | none => simp [isEos, hd]
    | some d =>
      simp only [isEos, hd, Option.isNone_some, Bool.or_false]
      cases st.muxer.audioStream <;> simp only [] <;> split_ifs <;> simp

theorem processVideo_fields (ret : Int) (st : MuxLoop) (ptr : Option EncodedPacket)
    (rest : List (Option EncodedPacket)) :
    (processVideo ret st ptr rest).1.audioFinished = st.audioFinished ∧
    (processVideo ret st ptr rest).1.poppedAudio = st.poppedAudio ∧
    (processVideo ret st ptr rest).1.poppedVideo = st.poppedVideo ++ [ptr] ∧
    (processVideo ret st ptr rest).1.videoFinished = (st.videoFinished || isEos ptr) ∧
    (processVideo ret st ptr rest).1.emptyQueueCount = st.emptyQueueCount := by
  unfold processVideo
  cases ptr with
  | none => simp [isEos]
  | some p =>
    cases hd : p.data with
    | none => simp [isEos, hd]
    | some d =>
      simp only [isEos, hd, Option.isNone_some, Bool.or_false]
      by_cases hA : (!st.audioFinished && st.muxer.audioStream.isSome) = true
      · simp only [hA, if_true]
        cases st.muxer.videoStream <;> simp only [] <;> split_ifs <;> simp
      · simp only [hA, if_false, Bool.false_eq_true]
        cases st.muxer.videoStream <;> simp only [] <;> split_ifs <;> simp

end MuxLoop

/-! ## End of stream through the decoder and encoder threads -/

namespace VideoDecodeLoop

end VideoDecodeLoop

namespace VideoEncodeLoop

/-- What `encodeFrame` does to the queues: it appends packets that the codec
delivered, pops nothing, keeps `receivedEOF` and keeps a codec context. -/
theorem encodeFrame_appends {σ φ : Type} (lib : EncoderLib σ φ VideoFrame)
    (st : VideoEncodeLoop σ φ) (frame : Option VideoFrame) :
    (∃ pkts, (encodeFrame lib st frame).1.packetQueue = st.packetQueue ++ pkts ∧
      ∀ p ∈ pkts, ∃ c, p ∈ (lib.receive_packets c).1) ∧
    (encodeFrame lib st frame).1.frameQueue = st.frameQueue ∧
    (encodeFrame lib st frame).1.receivedEOF = st.receivedEOF ∧
    (encodeFrame lib st frame).1.codecContext.isSome = st.codecContext.isSome := by
  unfold encodeFrame
  cases hc : st.codecContext with
  | none => exact ⟨⟨[], by simp, by simp⟩, rfl, rfl, by simp [hc]⟩
  | some ctx =>
    cases frame with
    | none =>
      simp only [Option.map_none', Option.isSome_none, Bool.false_eq_true, if_false]
      split_ifs
      · exact ⟨⟨[], by simp, by simp⟩, rfl, rfl, rfl⟩
      · exact ⟨⟨_, rfl, fun p hp => ⟨_, hp⟩⟩, rfl, rfl, rfl⟩
    | some f =>
      simp only [Option.map_some', Option.isSome_some, if_true]
      split_ifs
      · exact ⟨⟨[], by simp, by simp⟩, rfl, rfl, rfl⟩
      · exact ⟨⟨_, rfl, fun p hp => ⟨_, hp⟩⟩, rfl, rfl, rfl⟩
      · exact ⟨⟨[], by simp, by simp⟩, rfl, rfl, rfl⟩
      · exact ⟨⟨_, rfl, fun p hp => ⟨_, hp⟩⟩, rfl, rfl, rfl⟩

/-- What `flush` does to the queues: it appends packets that the codec delivered and
then `eofPacket`, pops nothing and keeps `receivedEOF`. -/
theorem flush_appends {σ φ : Type} (lib : EncoderLib σ φ VideoFrame)
    (st : VideoEncodeLoop σ φ) :
    (∃ flushed, (flush lib st).packetQueue = st.packetQueue ++ flushed ++ [eofPacket] ∧
      ∀ p ∈ flushed, ∃ c, p ∈ (lib.receive_packets c).1) ∧
    (flush lib st).frameQueue = st.frameQueue ∧
    (flush lib st).receivedEOF = st.receivedEOF := by
  cases hc : st.codecContext with
  | none =>
    simp only [flush, sendEOF, hc]
    exact ⟨⟨[], by simp, by simp⟩, trivial, trivial⟩
  | some ctx =>
    obtain ⟨⟨a, a1, a2⟩, a3, a4, a5⟩ := encodeFrame_appends lib st none
    obtain ⟨⟨b, b1, b2⟩, b3, b4, _⟩ := encodeFrame_appends lib (encodeFrame lib st none).1 none
    rw [hc, Option.isSome_some] at a5
    obtain ⟨c1, hc1⟩ := Option.isSome_iff_exists.mp a5
    simp only [flush, sendEOF, hc, hc1]
    refine ⟨⟨a ++ b, ?_, ?_⟩, ?_, ?_⟩
    · rw [b1, a1]; simp only [List.append_assoc]
    · intro p hp
      rcases List.mem_append.mp hp with h | h
      · exact a2 p h
      · exact b2 p h
    · rw [b3, a3]
    · rw [b4, a4]

end VideoEncodeLoop

namespace AudioEncodeLoop

/-- While the thread waits in `pop()` on an empty frame queue and nothing is pushed,
no interleaving of the two threads lets `stop()` return: the thread stays in `pop()`
and the caller stays before the call or inside `join()`. -/
theorem schedule_blocked {σ φ : Type} (lib : EncoderLib σ φ AudioFrame) (turns : List Turn) :
    ∀ st : AudioEncodeLoop σ φ, st.worker = EncodeAt.pop → st.frameQueue = [] →
      ((st.caller = StopAt.call ∧ st.isRunning = true) ∨ st.caller = StopAt.join) →
      (schedule lib turns st).worker = EncodeAt.pop ∧
      (schedule lib turns st).caller ≠ StopAt.returned := by
  induction turns with
  | nil =>
    intro st hw _ hc
    refine ⟨hw, ?_⟩
    rcases hc with ⟨h, _⟩ | h <;> simp [schedule, h]
  | cons t rest ih =>
    intro st hw hq hc
    cases t with
    | worker =>
      have hstep : encodeThreadFunc lib st = st := by
        simp [encodeThreadFunc, hw, hq]
      simp only [schedule, hstep]
      exact ih st hw hq hc
    | caller =>
      simp only [schedule]
      rcases hc with ⟨h, hr⟩ | h
      · exact ih _ (by simp [stop, h, hr, hw]) (by simp [stop, h, hr, hq])
          (Or.inr (by simp [stop, h, hr]))
      · have hstep : stop st = st := by
          simp [stop, h, hw]
        rw [hstep]
        exact ih st hw hq (Or.inr h)

/-- With an encoder library that delivers no packet and an empty frame queue, no step
of either thread pushes a packet. -/
theorem schedule_silent (turns : List Turn) :
    ∀ st : AudioEncodeLoop Unit Unit, st.frameQueue = [] → st.packetQueue = [] →
      (schedule (silentEncoder AudioFrame) turns st).packetQueue = [] := by
  induction turns with
  | nil => intro st _ hp; exact hp
  | cons t rest ih =>
    intro st hq hp
    cases t with
    | worker =>
      simp only [schedule]
      have hstep : (encodeThreadFunc (silentEncoder AudioFrame) st).frameQueue = [] ∧
          (encodeThreadFunc (silentEncoder AudioFrame) st).packetQueue = [] := by
        unfold encodeThreadFunc
        cases hw : st.worker with
        | loopTest =>
          simp only []
          split_ifs
          · exact ⟨hq, hp⟩
          · exact ⟨hq, hp⟩
          · cases hc : st.codecContext with
            | none => simp [sendEOF, hc, hq, hp]
            | some c =>
              cases hf : st.audioFilter <;>
                simp [sendEOF, encodeFrame, receiveLoop, silentEncoder, hc, hf, hq, hp]
        | pop => simp [hq, hp]
        | finished => exact ⟨hq, hp⟩
      exact ih _ hstep.1 hstep.2
    | caller =>
      simp only [schedule]
      have hstep : (stop st).frameQueue = [] ∧ (stop st).packetQueue = [] := by
        unfold stop
        cases st.caller <;> simp only [] <;> (try split_ifs) <;> exact ⟨hq, hp⟩
      exact ih _ hstep.1 hstep.2

end AudioEncodeLoop

/-- C12 (evaluation): the audio path forwards no end-of-stream unit.  On a packet
queue that holds just the end-of-stream packet of the demultiplexer, with a codec that
delivers nothing, the `AudioDecoder` loop leaves the loop having pushed nothing at all,
where the `VideoDecoder` loop pushes its end-of-stream frame; and the `AudioEncoder`
thread on the frame queue so left pushes no packet in any interleaving with `stop()`,
so that no end-of-stream packet reaches the encoded audio queue. -/
theorem audio_eos_not_forwarded (turns : List Turn) :
    (AudioDecodeLoop.decodeThreadFunc (silentDecoder (Nat × Int)) (steady 2)
      (AudioDecodeLoop.start () [Demux.eofPkt])).2 = true ∧
    (AudioDecodeLoop.decodeThreadFunc (silentDecoder (Nat × Int)) (steady 2)
      (AudioDecodeLoop.start () [Demux.eofPkt])).1.decodedFrameQueue = [] ∧
    (VideoDecodeLoop.decodeThreadFunc (silentDecoder VideoFrame) (steady 2)
      (VideoDecodeLoop.start () [Demux.eofPkt])).1.decodedFrameQueue =
        [VideoDecodeLoop.eofFrame] ∧
    (AudioEncodeLoop.schedule (silentEncoder AudioFrame) turns
      (AudioEncodeLoop.start (some ()) [])).packetQueue = [] :=
  ⟨by decide, by decide, by decide, AudioEncodeLoop.schedule_silent turns _ rfl rfl⟩

/-- C15 (evaluation): `AudioEncoder::stop()` called while the thread waits in `pop()`
on an empty frame queue, with nothing pushed afterwards.  The call clears `isRunning`
and enters `join()`; in every interleaving of the two threads the thread stays in
`pop()` and `stop()` has not returned. -/
theorem stop_never_returns (turns : List Turn) :
    (AudioEncodeLoop.schedule (silentEncoder AudioFrame) [Turn.caller]
      AudioEncodeLoop.blocked).caller = StopAt.join ∧
    (AudioEncodeLoop.schedule (silentEncoder AudioFrame) [Turn.caller]
      AudioEncodeLoop.blocked).isRunning = false ∧
    (AudioEncodeLoop.schedule (silentEncoder AudioFrame) turns
      AudioEncodeLoop.blocked).worker = EncodeAt.pop ∧
    (AudioEncodeLoop.schedule (silentEncoder AudioFrame) turns
      AudioEncodeLoop.blocked).caller ≠ StopAt.returned :=
  ⟨by decide, by decide,
    (AudioEncodeLoop.schedule_blocked (silentEncoder AudioFrame) turns
      AudioEncodeLoop.blocked rfl rfl (Or.inl ⟨rfl, rfl⟩)).1,
    (AudioEncodeLoop.schedule_blocked (silentEncoder AudioFrame) turns
      AudioEncodeLoop.blocked rfl rfl (Or.inl ⟨rfl, rfl⟩)).2⟩

/-! ## The scheduling decisions of the muxer loop -/

namespace MuxLoop

theorem tryAudioFirst_congr (sqrt : Double → Double) (st st1 : MuxLoop) (counter : Int)
    (h1 : st1.muxer.playbackSpeed = st.muxer.playbackSpeed)
    (h2 : st1.lastAudioTimeSec = st.lastAudioTimeSec)
    (h3 : st1.lastVideoTimeSec = st.lastVideoTimeSec) :
    tryAudioFirst sqrt st1 counter = tryAudioFirst sqrt st counter := by
  unfold tryAudioFirst outOfSync
  rw [h1, h2, h3]

/-- The loop body when nothing is pushed and the muxer is not paused. -/
theorem iteration_noPush (sqrt : Double → Double) (env : MuxEnv) (st : MuxLoop)
    (hp : env.isPaused = false) (hpv : env.pushVideo = []) (hpa : env.pushAudio = []) :
    iteration sqrt env st =
      if !(env.isRunning && (!st.videoFinished || !st.audioFinished)) then (st, true)
      else if (dispatch env.ret (tryAudioFirst sqrt st (wrapInt (st.packetCounter + 1)))
          { st with packetCounter := wrapInt (st.packetCounter + 1),
                    needSync := st.needSync || outOfSync sqrt st }).2 then
        ((dispatch env.ret (tryAudioFirst sqrt st (wrapInt (st.packetCounter + 1)))
          { st with packetCounter := wrapInt (st.packetCounter + 1),
                    needSync := st.needSync || outOfSync sqrt st }).1.1, true)
      else if (dispatch env.ret (tryAudioFirst sqrt st (wrapInt (st.packetCounter + 1)))
          { st with packetCounter := wrapInt (st.packetCounter + 1),
                    needSync := st.needSync || outOfSync sqrt st }).1.2 then
        ({ (dispatch env.ret (tryAudioFirst sqrt st (wrapInt (st.packetCounter + 1)))
          { st with packetCounter := wrapInt (st.packetCounter + 1),
                    needSync := st.needSync || outOfSync sqrt st }).1.1 with
            emptyQueueCount := 0 }, false)
      else
        ((dispatch env.ret (tryAudioFirst sqrt st (wrapInt (st.packetCounter + 1)))
          { st with packetCounter := wrapInt (st.packetCounter + 1),
                    needSync := st.needSync || outOfSync sqrt st }).1.1, false) := by
  cases env
  cases st
  simp only at hp hpv hpa
  subst hp hpv hpa
  unfold iteration
  simp only [List.append_nil, Bool.false_eq_true, if_false]

theorem dispatch_idle (ret : Int) (audioFirst : Bool) (st : MuxLoop)
    (ha : audioFirst = false ∨ st.audioFinished = true ∨ st.audioQueue = [])
    (hv : st.videoFinished = true ∨ st.videoQueue = []) :
    dispatch ret audioFirst st =
      (({ st with emptyQueueCount := wrapInt (st.emptyQueueCount + 1) }, false),
        decide (MAX_EMPTY_COUNT ≤ wrapInt (st.emptyQueueCount + 1))) := by
  unfold dispatch
  split
  · rename_i ptr rest h1 h2
    rcases ha with h | h | h
    · simp [h] at h1
    · simp [h] at h1
    · simp [h] at h2
  · split
    · rename_i ptr rest h1 h2
      rcases hv with h | h
      · simp [h] at h1
      · simp [h] at h2
    · rfl

theorem dispatch_audio (ret : Int) (st : MuxLoop) (ptr : Option EncodedPacket)
    (rest : List (Option EncodedPacket)) (ha : st.audioFinished = false)
    (hq : st.audioQueue = ptr :: rest) :
    dispatch ret true st = (processAudio ret st ptr rest, false) := by
  unfold dispatch
  simp [ha, hq]

theorem dispatch_video (ret : Int) (audioFirst : Bool) (st : MuxLoop)
    (ptr : Option EncodedPacket) (rest : List (Option EncodedPacket))
    (ha : audioFirst = false ∨ st.audioFinished = true ∨ st.audioQueue = [])
    (hv : st.videoFinished = false) (hq : st.videoQueue = ptr :: rest) :
    dispatch ret audioFirst st = (processVideo ret st ptr rest, false) := by
  unfold dispatch
  split
  · rename_i p r h1 h2
    rcases ha with h | h | h
    · simp [h] at h1
    · simp [h] at h1
    · simp [h] at h2
  · simp [hv, hq]

/-- An idle round: when nothing can be taken on the audio side as tried and nothing
on the video side, the round counts `emptyQueueCount` up and leaves the loop when the
count reaches `MAX_EMPTY_COUNT`. -/
theorem iteration_idle (sqrt : Double → Double) (env : MuxEnv) (st : MuxLoop)
    (hr : env.isRunning = true) (hp : env.isPaused = false) (hpv : env.pushVideo = [])
    (hpa : env.pushAudio = [])
    (hnf : (!st.videoFinished || !st.audioFinished) = true)
    (ha : tryAudioFirst sqrt st (wrapInt (st.packetCounter + 1)) = false ∨
      st.audioFinished = true ∨ st.audioQueue = [])
    (hv : st.videoFinished = true ∨ st.videoQueue = []) :
    iteration sqrt env st =
      ({ st with packetCounter := wrapInt (st.packetCounter + 1),
                 needSync := st.needSync || outOfSync sqrt st,
                 emptyQueueCount := wrapInt (st.emptyQueueCount + 1) },
        decide (MAX_EMPTY_COUNT ≤ wrapInt (st.emptyQueueCount + 1))) := by
  rw [iteration_noPush sqrt env st hp hpv hpa,
    dispatch_idle env.ret (tryAudioFirst sqrt st (wrapInt (st.packetCounter + 1)))
      { st with packetCounter := wrapInt (st.packetCounter + 1),
                needSync := st.needSync || outOfSync sqrt st } ha hv]
  simp only [hr, hnf, Bool.and_self, Bool.not_true, Bool.false_eq_true, if_false]
  by_cases hd : MAX_EMPTY_COUNT ≤ wrapInt (st.emptyQueueCount + 1)
  · simp only [hd, decide_True, if_true]
  · simp only [hd, decide_False, Bool.false_eq_true, if_false]

/-- Idle rounds: while the video side has nothing to take and audio is not tried
first, every round only counts `emptyQueueCount` up, and the round that reaches
`MAX_EMPTY_COUNT` leaves the loop; the audio queue is not touched. -/
theorem run_idle (sqrt : Double → Double) :
    ∀ (n : Nat) (st : MuxLoop),
      st.audioFinished = false →
      (st.videoFinished = true ∨ st.videoQueue = []) →
      (∀ c, tryAudioFirst sqrt st c = false) →
      0 ≤ st.emptyQueueCount → st.emptyQueueCount + (n + 1) = MAX_EMPTY_COUNT →
      (run sqrt (List.replicate (n + 1) quiet) st).2 = true ∧
      (run sqrt (List.replicate (n + 1) quiet) st).1.audioQueue = st.audioQueue ∧
      (run sqrt (List.replicate (n + 1) quiet) st).1.poppedAudio = st.poppedAudio ∧
      (run sqrt (List.replicate (n + 1) quiet) st).1.written = st.written ∧
      (run sqrt (List.replicate (n + 1) quiet) st).1.emptyQueueCount = MAX_EMPTY_COUNT := by
  intro n
  induction n with
  | zero =>
    intro st haf hv hta h0 hc
    have hw : wrapInt (st.emptyQueueCount + 1) = st.emptyQueueCount + 1 :=
      wrapInt_of_range _ (by simp only [MAX_EMPTY_COUNT, INT_MIN] at *; omega)
        (by simp only [MAX_EMPTY_COUNT, INT_MAX] at *; omega)
    have hit := iteration_idle sqrt quiet st rfl rfl rfl rfl (by simp [haf])
      (Or.inl (hta _)) hv
    have hd : decide (MAX_EMPTY_COUNT ≤ st.emptyQueueCount + 1) = true := by
      simp only [decide_eq_true_eq]; simp only [MAX_EMPTY_COUNT] at *; omega
    rw [hw, hd] at hit
    simp only [List.replicate, run, hit, if_true]
    refine ⟨trivial, trivial, trivial, trivial, ?_⟩
    simp only [MAX_EMPTY_COUNT] at *; omega
  | succ n ih =>
    intro st haf hv hta h0 hc
    have hw : wrapInt (st.emptyQueueCount + 1) = st.emptyQueueCount + 1 :=
      wrapInt_of_range _ (by simp only [MAX_EMPTY_COUNT, INT_MIN] at *; omega)
        (by simp only [MAX_EMPTY_COUNT, INT_MAX] at *; omega)
    have hit := iteration_idle sqrt quiet st rfl rfl rfl rfl (by simp [haf])
      (Or.inl (hta _)) hv
    have hd : decide (MAX_EMPTY_COUNT ≤ st.emptyQueueCount + 1) = false := by
      simp only [decide_eq_false_iff_not]; simp only [MAX_EMPTY_COUNT] at *; push_cast at hc; omega
    rw [hw, hd] at hit
    have hrep : List.replicate (n + 1 + 1) quiet = quiet :: List.replicate (n + 1) quiet := rfl
    rw [hrep]
    simp only [run, hit, Bool.false_eq_true, if_false]
    exact ih _ haf hv
      (fun c => by rw [← hta c]; exact tryAudioFirst_congr sqrt st _ c rfl rfl rfl)
      (by show 0 ≤ st.emptyQueueCount + 1; omega)
      (by show st.emptyQueueCount + 1 + ((n : Int) + 1) = MAX_EMPTY_COUNT
          push_cast at hc; omega)

theorem tryAudioFirst_audioLeft (c : Int) : tryAudioFirst sampleSqrt audioLeft c = false := by
  have ho : outOfSync sampleSqrt audioLeft = true := by
    simp [outOfSync, adjustedSyncThreshold, audioVideoSyncThreshold, audioLeft, start,
      Muxer.initialised, Double.lt, Double.sub, Double.add, Double.neg, Double.fabs]
    norm_num
  have hl : Double.lt
      (Double.add audioLeft.lastVideoTimeSec
        (adjustedSyncThreshold sampleSqrt audioLeft.muxer.playbackSpeed))
      audioLeft.lastAudioTimeSec = true := by
    simp [adjustedSyncThreshold, audioVideoSyncThreshold, audioLeft, start,
      Muxer.initialised, Double.lt, Double.add]
    norm_num
  simp only [tryAudioFirst, ho, hl, if_true]

/-- C22, the code with a unit queued on the side that is not tried: with only an audio
data packet queued, the round with an odd counter (video tried first at speed 1.0)
takes nothing and counts `emptyQueueCount` up; and once the video has ended while the
audio time is ahead by more than the threshold, video stays the side tried first, so
one hundred rounds count up and leave the loop with the audio packet still queued,
never popped and never written. -/
theorem idle_with_audio_queued :
    (iteration sampleSqrt quiet audioOnly).2 = false ∧
    (iteration sampleSqrt quiet audioOnly).1.emptyQueueCount = 1 ∧
    (iteration sampleSqrt quiet audioOnly).1.audioQueue = [some dataPacket] ∧
    (iteration sampleSqrt quiet audioOnly).1.poppedAudio = [] ∧
    audioLeft.audioFinished = false ∧
    (run sampleSqrt (List.replicate 100 quiet) audioLeft).2 = true ∧
    (run sampleSqrt (List.replicate 100 quiet) audioLeft).1.audioQueue = [some dataPacket] ∧
    (run sampleSqrt (List.replicate 100 quiet) audioLeft).1.poppedAudio = [] ∧
    (run sampleSqrt (List.replicate 100 quiet) audioLeft).1.written = [] := by
  obtain ⟨r1, r2, r3, r4, _⟩ := run_idle sampleSqrt 99 audioLeft rfl (Or.inl rfl)
    tryAudioFirst_audioLeft (by decide) (by decide)
  exact ⟨by decide, by decide, by decide, by decide, rfl, r1, r2, r3, r4⟩

theorem processVideo_times (ret : Int) (st : MuxLoop) (p : EncodedPacket)
    (rest : List (Option EncodedPacket)) (d : Nat) (hd : p.data = some d) :
    (processVideo ret st (some p) rest).1.lastVideoTimeSec =
      (match st.muxer.videoStream with
        | some s =>
          if p.packet.pts ≠ AV_NOPTS_VALUE then
            Double.mul (Double.ofInt64 p.packet.pts) (av_q2d s.codecTimeBase)
          else st.lastVideoTimeSec
        | none => st.lastVideoTimeSec) ∧
    (processVideo ret st (some p) rest).1.lastAudioTimeSec = st.lastAudioTimeSec := by
  constructor
  · unfold processVideo
    simp only [hd]
    by_cases hA : (!st.audioFinished && st.muxer.audioStream.isSome) = true
    · simp only [hA, if_true]
      cases st.muxer.videoStream <;> simp only [] <;> split_ifs <;> simp
    · simp only [hA, if_false, Bool.false_eq_true]
      cases st.muxer.videoStream <;> simp only [] <;> split_ifs <;> simp
  · unfold processVideo
    simp only [hd]
    by_cases hA : (!st.audioFinished && st.muxer.audioStream.isSome) = true
    · simp only [hA, if_true]
      cases st.muxer.videoStream <;> simp only [] <;> split_ifs <;> simp
    · simp only [hA, if_false, Bool.false_eq_true]
      cases st.muxer.videoStream <;> simp only [] <;> split_ifs <;> simp

theorem processAudio_times (ret : Int) (st : MuxLoop) (p : EncodedPacket)
    (rest : List (Option EncodedPacket)) (d : Nat) (hd : p.data = some d) :
    (processAudio ret st (some p) rest).1.lastAudioTimeSec =
      (match st.muxer.audioStream with
        | some s =>
          if p.packet.pts ≠ AV_NOPTS_VALUE then
            Double.mul (Double.ofInt64 p.packet.pts) (av_q2d s.codecTimeBase)
          else st.lastAudioTimeSec
        | none => st.lastAudioTimeSec) ∧
    (processAudio ret st (some p) rest).1.lastVideoTimeSec = st.lastVideoTimeSec := by
  constructor
  · unfold processAudio
    simp only [hd]
    cases st.muxer.audioStream <;> simp only [] <;> split_ifs <;> simp
  · unfold processAudio
    simp only [hd]
    cases st.muxer.audioStream <;> simp only [] <;> split_ifs <;> simp

/-- C23 (counterexample): a video packet with pts 8 reaches a muxer that has already
written pts 1000, and `av_interleaved_write_frame` fails.  `writePacket` returns
false and leaves pts 1001 in the packet, yet `lastVideoTimeSec` has been set, to
8 * 1/30: it comes from the incoming pts and is assigned before `writePacket` is
called. -/
theorem lastVideoTimeSec_set_before_write :
    (afterThousand.muxer.writePacket (some dataPacket.packet) true (-1)).1 = false ∧
    (afterThousand.muxer.writePacket (some dataPacket.packet) true (-1)).2.2 =
      some { stream_index := 0, pts := 1001, dts := 999, duration := 1 } ∧
    afterThousand.lastVideoTimeSec = Double.fin 0 ∧
    (processVideo (-1) afterThousand (some dataPacket) []).1.lastVideoTimeSec =
      Double.fin (4 / 15) := by
  refine ⟨by decide, by decide, rfl, ?_⟩
  rw [(processVideo_times (-1) afterThousand dataPacket [] 1 rfl).1]
  simp [dataPacket, afterThousand, start, Muxer.advanced, Muxer.initialised,
    av_q2d, Double.div, Double.mul, Double.ofInt64, AV_NOPTS_VALUE, INT64_MIN]
  norm_num

/-- C23 (amended): for every data packet popped by the mux loop, whatever
`writePacket` returns for it, `lastVideoTimeSec` (resp. `lastAudioTimeSec`) is set
before `writePacket` is called, to the incoming pts of the packet (before speed
adjustment, time-base conversion and monotonicity correction) multiplied by the time
base of the encoder context, provided the stream exists and the pts is set; otherwise
it keeps its value.  The time of the other stream is not changed. -/
theorem lastTimeSec_from_incoming_pts (ret : Int) (st : MuxLoop) (p : EncodedPacket)
    (rest : List (Option EncodedPacket)) (d : Nat) (hd : p.data = some d) :
    (processVideo ret st (some p) rest).1.lastVideoTimeSec =
      (match st.muxer.videoStream with
        | some s =>
          if p.packet.pts ≠ AV_NOPTS_VALUE then
            Double.mul (Double.ofInt64 p.packet.pts) (av_q2d s.codecTimeBase)
          else st.lastVideoTimeSec
        | none => st.lastVideoTimeSec) ∧
    (processVideo ret st (some p) rest).1.lastAudioTimeSec = st.lastAudioTimeSec ∧
    (processAudio ret st (some p) rest).1.lastAudioTimeSec =
      (match st.muxer.audioStream with
        | some s =>
          if p.packet.pts ≠ AV_NOPTS_VALUE then
            Double.mul (Double.ofInt64 p.packet.pts) (av_q2d s.codecTimeBase)
          else st.lastAudioTimeSec
        | none => st.lastAudioTimeSec) ∧
    (processAudio ret st (some p) rest).1.lastVideoTimeSec = st.lastVideoTimeSec :=
  ⟨(processVideo_times ret st p rest d hd).1, (processVideo_times ret st p rest d hd).2,
    (processAudio_times ret st p rest d hd).1, (processAudio_times ret st p rest d hd).2⟩

theorem lastTimeSec_from_incoming_pts_witness :
    dataPacket.data = some 1 ∧
    (processVideo (-1) afterThousand (some dataPacket) []).1.lastVideoTimeSec =
      (match afterThousand.muxer.videoStream with
        | some s =>
          if dataPacket.packet.pts ≠ AV_NOPTS_VALUE then
            Double.mul (Double.ofInt64 dataPacket.packet.pts) (av_q2d s.codecTimeBase)
          else afterThousand.lastVideoTimeSec
        | none => afterThousand.lastVideoTimeSec) ∧
    (processVideo (-1) afterThousand (some dataPacket) []).1.lastAudioTimeSec =
      afterThousand.lastAudioTimeSec ∧
    (processAudio (-1) afterThousand (some dataPacket) []).1.lastAudioTimeSec =
      (match afterThousand.muxer.audioStream with
        | some s =>
          if dataPacket.packet.pts ≠ AV_NOPTS_VALUE then
            Double.mul (Double.ofInt64 dataPacket.packet.pts) (av_q2d s.codecTimeBase)
          else afterThousand.lastAudioTimeSec
        | none => afterThousand.lastAudioTimeSec) ∧
    (processAudio (-1) afterThousand (some dataPacket) []).1.lastVideoTimeSec =
      afterThousand.lastVideoTimeSec :=
  ⟨rfl, lastTimeSec_from_incoming_pts (-1) afterThousand dataPacket [] 1 rfl⟩

theorem processAudio_queues (ret : Int) (st : MuxLoop) (ptr : Option EncodedPacket)
    (rest : List (Option EncodedPacket)) :
    (processAudio ret st ptr rest).1.audioQueue = rest ∧
    (processAudio ret st ptr rest).1.videoQueue = st.videoQueue := by
  unfold processAudio
  cases ptr with
  | none => simp
  | some p =>
    cases hd : p.data with
    | none => simp [hd]
    | some d =>
      simp only [hd]
      cases st.muxer.audioStream <;> simp only [] <;> split_ifs <;> simp

theorem processVideo_queues (ret : Int) (st : MuxLoop) (ptr : Option EncodedPacket)
    (rest : List (Option EncodedPacket)) :
    (processVideo ret st ptr rest).1.videoQueue = rest ∧
    (processVideo ret st ptr rest).1.audioQueue = st.audioQueue := by
  unfold processVideo
  cases ptr with
  | none => simp
  | some p =>
    cases hd : p.data with
    | none => simp [hd]
    | some d =>
      simp only [hd]
      by_cases hA : (!st.audioFinished && st.muxer.audioStream.isSome) = true
      · simp only [hA, if_true]
        cases st.muxer.videoStream <;> simp only [] <;> split_ifs <;> simp
      · simp only [hA, if_false, Bool.false_eq_true]
        cases st.muxer.videoStream <;> simp only [] <;> split_ifs <;> simp

/-- The three branches of the loop body. -/
theorem dispatch_cases (ret : Int) (audioFirst : Bool) (st : MuxLoop) :
    (∃ ptr rest, st.audioQueue = ptr :: rest ∧
      dispatch ret audioFirst st = (processAudio ret st ptr rest, false)) ∨
    (∃ ptr rest, st.videoQueue = ptr :: rest ∧
      dispatch ret audioFirst st = (processVideo ret st ptr rest, false)) ∨
    dispatch ret audioFirst st =
      (({ st with emptyQueueCount := wrapInt (st.emptyQueueCount + 1) }, false),
        decide (MAX_EMPTY_COUNT ≤ wrapInt (st.emptyQueueCount + 1))) := by
  unfold dispatch
  split
  · rename_i ptr rest _ h
    exact Or.inl ⟨ptr, rest, h, rfl⟩
  · split
    · rename_i ptr rest _ h
      exact Or.inr (Or.inl ⟨ptr, rest, h, rfl⟩)
    · exact Or.inr (Or.inr rfl)

theorem processAudio_measure (ret : Int) (st : MuxLoop) (ptr : Option EncodedPacket)
    (rest : List (Option EncodedPacket)) (hq : st.audioQueue = ptr :: rest) :
    (processAudio ret st ptr rest).1.videoQueue.length +
        (processAudio ret st ptr rest).1.audioQueue.length + 1 =
      st.videoQueue.length + st.audioQueue.length ∧
    (processAudio ret st ptr rest).1.emptyQueueCount = st.emptyQueueCount := by
  obtain ⟨_, _, _, _, e5⟩ := processAudio_fields ret st ptr rest
  obtain ⟨q1, q2⟩ := processAudio_queues ret st ptr rest
  rw [q1, q2, hq]
  exact ⟨by simp only [List.length_cons]; omega, e5⟩

theorem processVideo_measure (ret : Int) (st : MuxLoop) (ptr : Option EncodedPacket)
    (rest : List (Option EncodedPacket)) (hq : st.videoQueue = ptr :: rest) :
    (processVideo ret st ptr rest).1.videoQueue.length +
        (processVideo ret st ptr rest).1.audioQueue.length + 1 =
      st.videoQueue.length + st.audioQueue.length ∧
    (processVideo ret st ptr rest).1.emptyQueueCount = st.emptyQueueCount := by
  obtain ⟨_, _, _, _, e5⟩ := processVideo_fields ret st ptr rest
  obtain ⟨q1, q2⟩ := processVideo_queues ret st ptr rest
  rw [q1, q2, hq]
  exact ⟨by simp only [List.length_cons]; omega, e5⟩

/-- A round into which nothing is pushed either leaves the loop, with
`emptyQueueCount` at most `MAX_EMPTY_COUNT`, or lowers the bound `remaining`. -/
theorem iteration_progress (sqrt : Double → Double) (env : MuxEnv) (st : MuxLoop)
    (hp : env.isPaused = false) (hpv : env.pushVideo = []) (hpa : env.pushAudio = [])
    (h0 : 0 ≤ st.emptyQueueCount) (h1 : st.emptyQueueCount < MAX_EMPTY_COUNT) :
    ((iteration sqrt env st).2 = true ∧
      (iteration sqrt env st).1.emptyQueueCount ≤ MAX_EMPTY_COUNT) ∨
    ((iteration sqrt env st).2 = false ∧
      0 ≤ (iteration sqrt env st).1.emptyQueueCount ∧
      (iteration sqrt env st).1.emptyQueueCount < MAX_EMPTY_COUNT ∧
      remaining (iteration sqrt env st).1 < remaining st) := by
  rw [iteration_noPush sqrt env st hp hpv hpa]
  by_cases hc : (!(env.isRunning && (!st.videoFinished || !st.audioFinished))) = true
  · simp only [hc, if_true]
    exact Or.inl ⟨trivial, le_of_lt h1⟩
  · simp only [hc, Bool.false_eq_true, if_false]
    rcases dispatch_cases env.ret (tryAudioFirst sqrt st (wrapInt (st.packetCounter + 1)))
      { st with packetCounter := wrapInt (st.packetCounter + 1),
                needSync := st.needSync || outOfSync sqrt st } with
      ⟨ptr, rest, hq, hd⟩ | ⟨ptr, rest, hq, hd⟩ | hd
    · rw [hd]
      obtain ⟨m1, m2⟩ := processAudio_measure env.ret
        { st with packetCounter := wrapInt (st.packetCounter + 1),
                  needSync := st.needSync || outOfSync sqrt st } ptr rest hq
      generalize processAudio env.ret
        { st with packetCounter := wrapInt (st.packetCounter + 1),
                  needSync := st.needSync || outOfSync sqrt st } ptr rest = R at m1 m2 ⊢
      simp only at m1 m2
      right
      simp only [Bool.false_eq_true, if_false]
      split_ifs
      · refine ⟨rfl, show (0 : Int) ≤ 0 from le_refl _,
          show (0 : Int) < MAX_EMPTY_COUNT from by decide, ?_⟩
        simp only [remaining, MAX_EMPTY_COUNT] at *
        omega
      · refine ⟨rfl, by rw [m2]; exact h0, by rw [m2]; exact h1, ?_⟩
        simp only [remaining, MAX_EMPTY_COUNT, m2] at *
        omega
    · rw [hd]
      obtain ⟨m1, m2⟩ := processVideo_measure env.ret
        { st with packetCounter := wrapInt (st.packetCounter + 1),
                  needSync := st.needSync || outOfSync sqrt st } ptr rest hq
      generalize processVideo env.ret
        { st with packetCounter := wrapInt (st.packetCounter + 1),
                  needSync := st.needSync || outOfSync sqrt st } ptr rest = R at m1 m2 ⊢
      simp only at m1 m2
      right
      simp only [Bool.false_eq_true, if_false]
      split_ifs
      · refine ⟨rfl, show (0 : Int) ≤ 0 from le_refl _,
          show (0 : Int) < MAX_EMPTY_COUNT from by decide, ?_⟩
        simp only [remaining, MAX_EMPTY_COUNT] at *
        omega
      · refine ⟨rfl, by rw [m2]; exact h0, by rw [m2]; exact h1, ?_⟩
        simp only [remaining, MAX_EMPTY_COUNT, m2] at *
        omega
    · rw [hd]
      have hw : wrapInt (st.emptyQueueCount + 1) = st.emptyQueueCount + 1 :=
        wrapInt_of_range _ (by simp only [MAX_EMPTY_COUNT, INT_MIN] at *; omega)
          (by simp only [MAX_EMPTY_COUNT, INT_MAX] at *; omega)
      simp only [hw]
      by_cases hb : MAX_EMPTY_COUNT ≤ st.emptyQueueCount + 1
      · left
        simp only [hb, decide_True, if_true]
        refine ⟨trivial, ?_⟩
        show st.emptyQueueCount + 1 ≤ MAX_EMPTY_COUNT
        omega
      · right
        simp only [hb, decide_False, Bool.false_eq_true, if_false]
        refine ⟨trivial, ?_, ?_, ?_⟩
        · show 0 ≤ st.emptyQueueCount + 1
          omega
        · show st.emptyQueueCount + 1 < MAX_EMPTY_COUNT
          omega
        · show 100 * (st.videoQueue.length + st.audioQueue.length) +
              (MAX_EMPTY_COUNT - (st.emptyQueueCount + 1)).toNat <
            100 * (st.videoQueue.length + st.audioQueue.length) +
              (MAX_EMPTY_COUNT - st.emptyQueueCount).toNat
          simp only [MAX_EMPTY_COUNT] at *
          omega

/-- A loop into which nothing is pushed and that is never paused leaves the loop
within `remaining` rounds. -/
theorem run_within (sqrt : Double → Double) :
    ∀ (n : Nat) (envs : List MuxEnv) (st : MuxLoop),
      0 ≤ st.emptyQueueCount → st.emptyQueueCount < MAX_EMPTY_COUNT →
      remaining st ≤ n → n ≤ envs.length →
      (∀ e ∈ envs, e.isPaused = false ∧ e.pushVideo = [] ∧ e.pushAudio = []) →
      (run sqrt envs st).2 = true ∧ (run sqrt envs st).1.emptyQueueCount ≤ MAX_EMPTY_COUNT := by
  intro n
  induction n with
  | zero =>
    intro envs st h0 h1 hr _ _
    simp only [remaining, MAX_EMPTY_COUNT] at *
    omega
  | succ n ih =>
    intro envs st h0 h1 hr hlen henv
    cases envs with
    | nil => simp at hlen
    | cons e rest =>
      obtain ⟨hp, hpv, hpa⟩ := henv e (List.mem_cons_self _ _)
      rcases iteration_progress sqrt e st hp hpv hpa h0 h1 with ⟨x1, x2⟩ | ⟨x1, x2, x3, x4⟩
      · simp only [run, x1, if_true]
        exact ⟨trivial, x2⟩
      · simp only [run, x1, Bool.false_eq_true, if_false]
        exact ih rest _ x2 x3 (by omega) (by simp only [List.length_cons] at hlen; omega)
          (fun e1 he => henv e1 (List.mem_cons_of_mem _ he))

/-- C24: the mux loop terminates by idling out.  From every state of the loop (every
speed, every sync state, every finite content of the two queues, `emptyQueueCount`
within its range), if nothing is pushed afterwards and the muxer is never paused,
the loop is left, and `finalizeFile()` reached, within one hundred rounds per queued
element plus one hundred; `emptyQueueCount`, the number of idle rounds since the last
data packet was processed, is then at most 100. -/
theorem mux_loop_finalizes (sqrt : Double → Double) (st : MuxLoop) (envs : List MuxEnv)
    (h0 : 0 ≤ st.emptyQueueCount) (h1 : st.emptyQueueCount < MAX_EMPTY_COUNT)
    (hlen : 100 * (st.videoQueue.length + st.audioQueue.length) + 100 ≤ envs.length)
    (henv : ∀ e ∈ envs, e.isPaused = false ∧ e.pushVideo = [] ∧ e.pushAudio = []) :
    (run sqrt envs st).2 = true ∧ (run sqrt envs st).1.emptyQueueCount ≤ MAX_EMPTY_COUNT := by
  refine run_within sqrt (100 * (st.videoQueue.length + st.audioQueue.length) + 100) envs st
    h0 h1 ?_ hlen henv
  simp only [remaining, MAX_EMPTY_COUNT] at *
  omega

theorem mux_loop_finalizes_witness :
    0 ≤ audioOnly.emptyQueueCount ∧ audioOnly.emptyQueueCount < MAX_EMPTY_COUNT ∧
    100 * (audioOnly.videoQueue.length + audioOnly.audioQueue.length) + 100 ≤
      (List.replicate 200 quiet).length ∧
    (∀ e ∈ List.replicate 200 quiet, e.isPaused = false ∧ e.pushVideo = [] ∧ e.pushAudio = []) ∧
    (run sampleSqrt (List.replicate 200 quiet) audioOnly).2 = true ∧
    (run sampleSqrt (List.replicate 200 quiet) audioOnly).1.emptyQueueCount ≤ MAX_EMPTY_COUNT :=
  ⟨by decide, by decide, by rw [List.length_replicate]; decide,
    fun e he => by rw [List.eq_of_mem_replicate he]; exact ⟨rfl, rfl, rfl⟩,
    mux_loop_finalizes sampleSqrt audioOnly (List.replicate 200 quiet) (by decide) (by decide)
      (by rw [List.length_replicate]; decide)
      (fun e he => by rw [List.eq_of_mem_replicate he]; exact ⟨rfl, rfl, rfl⟩)⟩

end MuxLoop

/-! ## The speed factor on the way of one timestamp -/

namespace Muxer

theorem speedAdjust_two_neg_one : speedAdjust (Double.fin 2) (-1) = 0 := by
  have hlt : Double.lt (Double.fin 1) (Double.fin 2) = true := by decide
  simp only [speedAdjust, hlt, if_true, Double.ofInt64, Double.div]
  have h2 : (2 : ℚ) ≠ 0 := by norm_num
  simp only [h2, if_false, Double.toInt64, Double.truncRat]
  have e1 : (((-1 : Int) : ℚ) / 2).num = -1 := by
    norm_num
  have e2 : (((-1 : Int) : ℚ) / 2).den = 2 := by
    norm_num
  rw [e1, e2]
  decide

theorem applySpeed_duration (m : Muxer) (p : AVPacket) :
    (applySpeed m p).duration =
      if Double.ne m.playbackSpeed (Double.fin 1) = true ∧ 0 < p.duration then
        speedAdjust m.playbackSpeed p.duration else p.duration := by
  unfold applySpeed
  by_cases h0 : Double.ne m.playbackSpeed (Double.fin 1) = true <;>
    by_cases h1 : p.pts ≠ AV_NOPTS_VALUE <;> by_cases h2 : p.dts ≠ AV_NOPTS_VALUE <;>
    by_cases h3 : 0 < p.duration <;> simp [h0, h1, h2, h3]

theorem convertTimestamps_duration (m : Muxer) (a b : AVRational) (p : AVPacket) :
    (convertTimestamps m a b p).duration = p.duration := by
  unfold convertTimestamps
  by_cases h1 : p.pts ≠ AV_NOPTS_VALUE <;> by_cases h2 : p.dts ≠ AV_NOPTS_VALUE <;> simp [h1, h2]

theorem correctMonotonic_duration (a b : Int) (p : AVPacket) :
    (correctMonotonic a b p).duration = p.duration := by
  unfold correctMonotonic
  simp only []
  split_ifs <;> rfl

theorem clampDts_duration (p : AVPacket) : (clampDts p).duration = p.duration := by
  unfold clampDts
  split_ifs <;> rfl

theorem convertDuration_duration (m : Muxer) (a b : AVRational) (p : AVPacket) :
    (convertDuration m a b p).duration =
      if 0 < p.duration then rescaleTimestamp m p.duration a b else p.duration := by
  unfold convertDuration
  split_ifs <;> rfl

/-- Rescaling between equal time bases changes nothing. -/
theorem av_rescale_q_equal (a : Int) (q : AVRational) (hn : 0 < q.num) (hd : 0 < q.den)
    (h1 : -INT64_MAX ≤ a) (h2 : a ≤ INT64_MAX) : av_rescale_q a q q = a := by
  have hb : 0 < q.num * q.den := Int.mul_pos hn hd
  simp only [av_rescale_q]
  generalize q.num * q.den = b at hb
  have e1 : ¬ (b ≤ 0 ∨ b < 0) := by omega
  rw [if_neg e1]
  have hz : b / 2 / b = 0 := Int.ediv_eq_zero_of_lt (by omega) (by omega)
  have key : ∀ x : Int, (x * b + b / 2) / b = x := by
    intro x
    rw [add_comm, Int.add_mul_ediv_right _ _ (by omega), hz, zero_add]
  simp only [INT64_MAX, INT64_MIN] at *
  by_cases h : 0 ≤ a
  · rw [if_pos h, key, if_pos (by omega)]
  · rw [if_neg h]
    have hm : max a (-9223372036854775807) = a := max_eq_left (by omega)
    rw [hm, key, if_pos (by omega)]
    omega

end Muxer

/-! ### End-of-stream markers across the stages -/

theorem AudioDecodeLoop.pushFrames_receivedEOF {σ : Type} (n : Nat) :
    ∀ st : AudioDecodeLoop σ, (AudioDecodeLoop.pushFrames n st).receivedEOF = st.receivedEOF := by
  induction n with
  | zero => intro st; rfl
  | succ n ih => intro st; rw [AudioDecodeLoop.pushFrames, ih]

theorem AudioDecodeLoop.receiveLoop_receivedEOF {σ : Type} (burst : List (Nat × Int)) :
    ∀ st : AudioDecodeLoop σ,
      (AudioDecodeLoop.receiveLoop st burst).receivedEOF = st.receivedEOF := by
  induction burst with
  | nil => intro st; rfl
  | cons f rest ih =>
    intro st
    unfold AudioDecodeLoop.receiveLoop at ih ⊢
    rw [List.foldl_cons, ih]
    unfold AudioDecodeLoop.processAudioSamples
    rw [AudioDecodeLoop.pushFrames_receivedEOF]

/-- C26: every end-of-stream marker is recognised by the stage that receives it.  The
packet Demux pushes at end of file passes the test of both decoder threads, whose loop
then sets `receivedEOF` and is left (the video decoder pushing its marker frame last);
the frame the video decoder pushes passes the test of the video encoder thread, which
sets `receivedEOF` and pushes its marker packet last; and the packet
`VideoEncoder::sendEOF` pushes passes the null-data test of the muxer loop, which
marks the stream it was popped for as finished. -/
theorem eos_markers_recognised {σ τ φ : Type} (vlib : DecoderLib σ VideoFrame)
    (alib : DecoderLib σ (Nat × Int)) (elib : EncoderLib τ φ VideoFrame)
    (vd : VideoDecodeLoop σ) (ad : AudioDecodeLoop σ) (ve : VideoEncodeLoop τ φ)
    (packets : List CodecPacket) (frames : List (Option VideoFrame))
    (ret : Int) (mux : MuxLoop) (queued : List (Option EncodedPacket)) :
    Demux.eofPkt.isEof = true ∧
    (VideoDecodeLoop.iteration vlib { isRunning := true, isPaused := false }
      { vd with packetQueue := Demux.eofPkt :: packets }).2 = true ∧
    (VideoDecodeLoop.iteration vlib { isRunning := true, isPaused := false }
      { vd with packetQueue := Demux.eofPkt :: packets }).1.receivedEOF = true ∧
    (VideoDecodeLoop.iteration vlib { isRunning := true, isPaused := false }
      { vd with packetQueue := Demux.eofPkt :: packets }).1.decodedFrameQueue.getLast? =
        some VideoDecodeLoop.eofFrame ∧
    (AudioDecodeLoop.iteration alib { isRunning := true, isPaused := false }
      { ad with packetQueue := Demux.eofPkt :: packets }).2 = true ∧
    (AudioDecodeLoop.iteration alib { isRunning := true, isPaused := false }
      { ad with packetQueue := Demux.eofPkt :: packets }).1.receivedEOF = true ∧
    VideoEncodeLoop.isEofFrame VideoDecodeLoop.eofFrame = true ∧
    (VideoEncodeLoop.iteration elib { isRunning := true, isPaused := false }
      { ve with frameQueue := some VideoDecodeLoop.eofFrame :: frames,
                receivedEOF := false }).1.receivedEOF = true ∧
    (VideoEncodeLoop.iteration elib { isRunning := true, isPaused := false }
      { ve with frameQueue := some VideoDecodeLoop.eofFrame :: frames,
                receivedEOF := false }).1.packetQueue.getLast? =
        some VideoEncodeLoop.eofPacket ∧
    VideoEncodeLoop.eofPacket.data = none ∧
    MuxLoop.isEos (some VideoEncodeLoop.eofPacket) = true ∧
    (MuxLoop.processVideo ret mux (some VideoEncodeLoop.eofPacket) queued).1.videoFinished
      = true ∧
    (MuxLoop.processAudio ret mux (some VideoEncodeLoop.eofPacket) queued).1.audioFinished
      = true := by
  have hE : Demux.eofPkt.isEof = true := by decide
  have hF : VideoEncodeLoop.isEofFrame VideoDecodeLoop.eofFrame = true := by decide
  have hM : MuxLoop.isEos (some VideoEncodeLoop.eofPacket) = true := by decide
  refine ⟨hE, ?_, ?_, ?_, ?_, ?_, hF, ?_, ?_, rfl, hM, ?_, ?_⟩
  · simp [VideoDecodeLoop.iteration, hE]
  · simp [VideoDecodeLoop.iteration, hE]
  · simp [VideoDecodeLoop.iteration, hE]
  · simp [AudioDecodeLoop.iteration, hE]
  · simp [AudioDecodeLoop.iteration, hE, AudioDecodeLoop.receiveLoop_receivedEOF]
  · simp only [VideoEncodeLoop.iteration, hF, Bool.not_false, Bool.and_self, Bool.not_true,
      Bool.false_eq_true, if_false, if_true]
    rw [(VideoEncodeLoop.flush_appends elib _).2.2]
  · simp only [VideoEncodeLoop.iteration, hF, Bool.not_false, Bool.and_self, Bool.not_true,
      Bool.false_eq_true, if_false, if_true]
    obtain ⟨flushed, hq, _⟩ := (VideoEncodeLoop.flush_appends elib
      { ve with frameQueue := frames, receivedEOF := true }).1
    rw [hq, List.getLast?_append]
    rfl
  · rw [(MuxLoop.processVideo_fields ret mux _ queued).2.2.2.1, hM, Bool.or_true]
  · rw [(MuxLoop.processAudio_fields ret mux _ queued).2.2.2.1, hM, Bool.or_true]

/-! ### The representation invariant of the queue over sequences of calls -/

namespace ThreadSafeQueue

variable {T : Type}

theorem deleteNodes_chain :
    ∀ (cells : List (Nat × T)) (mem : Nat → Option (QueueNode T)) (p : Option Nat) (fuel : Nat),
      IsChain mem p cells → (cells.map Prod.fst).Nodup → cells.length ≤ fuel →
      ∃ mem1, deleteNodes fuel mem p = Outcome.ok mem1 := by
  intro cells
  induction cells with
  | nil =>
    intro mem p fuel h _ _
    have hp : p = none := h
    subst hp
    refine ⟨mem, ?_⟩
    cases fuel <;> simp [deleteNodes]
  | cons c rest ih =>
    intro mem p fuel h hnd hf
    obtain ⟨hp, nx, hm, hr⟩ := h
    subst hp
    simp only [List.map_cons, List.nodup_cons] at hnd
    cases fuel with
    | zero => simp at hf
    | succ f =>
      have hf2 : rest.length ≤ f := by simpa using hf
      have hr2 := IsChain.update_of_not_mem c.1 none rest nx hnd.1 hr
      obtain ⟨mem1, e⟩ := ih _ nx f hr2 hnd.2 hf2
      exact ⟨mem1, by simp only [deleteNodes, hm, e]⟩

theorem Repr.length_le_fresh {q : ThreadSafeQueue T} {cells : List (Nat × T)}
    (h : Repr q cells) : cells.length ≤ q.fresh := by
  have hsub : (cells.map Prod.fst).toFinset ⊆ Finset.range q.fresh := by
    intro a ha
    rw [List.mem_toFinset] at ha
    obtain ⟨c, hc, hce⟩ := List.mem_map.mp ha
    rw [Finset.mem_range, ← hce]
    exact h.below c hc
  have hcard := Finset.card_le_card hsub
  rw [List.toFinset_card_of_nodup h.nodup, Finset.card_range, List.length_map] at hcard
  exact hcard

theorem Repr.clear {q : ThreadSafeQueue T} {cells : List (Nat × T)} (h : Repr q cells) :
    ∃ q1, q.clear q.fresh = Outcome.ok q1 ∧ Repr q1 [] ∧ q1.size = 0 := by
  obtain ⟨mem1, e⟩ := deleteNodes_chain cells q.memory q.head q.fresh h.chain h.nodup
    h.length_le_fresh
  refine ⟨{ memory := mem1, fresh := q.fresh, head := none, tail := none, size := 0 }, ?_,
    ⟨rfl, List.nodup_nil, rfl, fun _ hc => absurd hc (List.not_mem_nil _)⟩, rfl⟩
  simp only [ThreadSafeQueue.clear, e]

theorem Repr.head_iff_tail {q : ThreadSafeQueue T} {cells : List (Nat × T)} (h : Repr q cells) :
    (q.head = none ↔ q.tail = none) ∧ (q.tail = none ↔ cells = []) := by
  cases cells with
  | nil =>
    have h1 : q.head = none := h.head_nil
    have h2 : q.tail = none := h.tail_eq
    simp [h1, h2]
  | cons c rest =>
    have h1 : q.head = some c.1 := h.head_cons
    obtain ⟨t, ht⟩ : ∃ t, ((c :: rest).map Prod.fst).getLast? = some t := by
      cases hl : ((c :: rest).map Prod.fst).getLast? with
      | none => simp at hl
      | some t => exact ⟨t, rfl⟩
    have h2 : q.tail = some t := h.tail_eq.trans ht
    simp [h1, h2]

theorem Repr.tail_next {q : ThreadSafeQueue T} {cells : List (Nat × T)} (h : Repr q cells)
    (t : Nat) (ht : q.tail = some t) :
    t ∈ cells.map Prod.fst ∧ ∃ d, q.memory t = some { data := d, next := none } := by
  have hl : (cells.map Prod.fst).getLast? = some t := h.tail_eq.symm.trans ht
  have hmem : t ∈ cells.map Prod.fst := List.mem_of_getLast?_eq_some hl
  refine ⟨hmem, ?_⟩
  cases cells with
  | nil => simp at hl
  | cons c rest =>
    have hfresh : q.fresh ∉ (c :: rest).map Prod.fst := by
      intro hm
      obtain ⟨c2, hc, hce⟩ := List.mem_map.mp hm
      have := h.below c2 hc
      omega
    obtain ⟨d, hd, _⟩ := IsChain.snoc q.fresh c.2 (c :: rest) q.head t h.chain h.nodup hfresh hl
    exact ⟨d, hd⟩

theorem sinceClear_snoc (log : List Event) (e : Event) :
    sinceClear (log ++ [e]) = if e = Event.cleared then [] else sinceClear log ++ [e] := by
  unfold sinceClear
  rw [List.reverse_append, List.reverse_singleton, List.singleton_append, List.takeWhile_cons]
  by_cases he : e = Event.cleared
  · simp [he]
  · simp [he]

theorem netSinceClear_snoc (log : List Event) (e : Event) :
    netSinceClear (log ++ [e]) =
      match e with
      | Event.pushed => netSinceClear log + 1
      | Event.popped => netSinceClear log - 1
      | Event.missed => netSinceClear log
      | Event.cleared => 0 := by
  unfold netSinceClear
  rw [sinceClear_snoc]
  cases e <;> simp [List.count_append] <;> omega

/-- The state of a run: the chain, the `size` field and the count of the log agree,
and the count fits an `int`. -/
theorem call_invariant (c : Call T) (q : ThreadSafeQueue T) (cells : List (Nat × T))
    (log : List Event) (hr : Repr q cells) (hs : q.size = (cells.length : Int))
    (hn : (cells.length : Int) = netSinceClear log) (hb : (cells.length : Int) ≤ INT_MAX)
    (ha : Call.allowed [c] cells.length = true) :
    ∃ e q1 cells1, q.call c = Outcome.ok (e, q1) ∧ Repr q1 cells1 ∧
      q1.size = (cells1.length : Int) ∧ (cells1.length : Int) = netSinceClear (log ++ [e]) ∧
      (cells1.length : Int) ≤ INT_MAX ∧
      ∀ rest, Call.allowed (c :: rest) cells.length = true →
        Call.allowed rest cells1.length = true := by
  cases c with
  | push v =>
    simp only [Call.allowed, Bool.and_eq_true, decide_eq_true_eq, and_true] at ha
    obtain ⟨q1, e, hr1, hs1⟩ := hr.push v
    have hlen : (cells ++ [(q.fresh, v)]).length = cells.length + 1 := by
      rw [List.length_append, List.length_singleton]
    refine ⟨Event.pushed, q1, _, by simp only [call, e], hr1, ?_, ?_, ?_, ?_⟩
    · rw [hs1, hs, hlen]
      push_cast
      apply wrapInt_of_range
      · simp only [INT_MIN]; omega
      · simp only [INT_MAX] at ha ⊢; omega
    · rw [netSinceClear_snoc, hlen]
      push_cast
      show (cells.length : Int) + 1 = netSinceClear log + 1
      omega
    · rw [hlen]; push_cast; simp only [INT_MAX] at ha ⊢; omega
    · intro rest har
      simp only [Call.allowed, Bool.and_eq_true, decide_eq_true_eq] at har
      rw [hlen]; exact har.2
  | pop =>
    simp only [Call.allowed, Bool.and_eq_true, decide_eq_true_eq, and_true] at ha
    cases cells with
    | nil => exact absurd ha (by simp)
    | cons c0 rest0 =>
      obtain ⟨q1, e, hr1, hs1⟩ := hr.pop_cons
      simp only [List.length_cons] at hs hn hb ⊢
      push_cast at hs hn hb
      refine ⟨Event.popped, q1, rest0, by simp only [call, e], hr1, ?_, ?_, ?_, ?_⟩
      · rw [hs1, hs]
        apply (wrapInt_of_range _ _ _).trans
        · omega
        · simp only [INT_MIN]; omega
        · omega
      · rw [netSinceClear_snoc]
        show (rest0.length : Int) = netSinceClear log - 1
        omega
      · omega
      · intro rest har
        simp only [Call.allowed, Bool.and_eq_true, decide_eq_true_eq] at har
        simpa using har.2
  | tryPop value =>
    cases cells with
    | nil =>
      refine ⟨Event.missed, q, [], by simp only [call, hr.tryPop_nil value], hr, hs, ?_, hb, ?_⟩
      · rw [netSinceClear_snoc]; exact hn
      · intro rest har
        simpa [Call.allowed] using har
    | cons c0 rest0 =>
      obtain ⟨q1, e, _, hr1, hs1⟩ := hr.tryPop_cons value
      simp only [List.length_cons] at hs hn hb ⊢
      push_cast at hs hn hb
      refine ⟨Event.popped, q1, rest0, by simp only [call, e], hr1, ?_, ?_, ?_, ?_⟩
      · rw [hs1, hs]
        apply (wrapInt_of_range _ _ _).trans
        · omega
        · simp only [INT_MIN]; omega
        · omega
      · rw [netSinceClear_snoc]
        show (rest0.length : Int) = netSinceClear log - 1
        omega
      · omega
      · intro rest har
        simpa [Call.allowed] using har
  | clear =>
    obtain ⟨q1, e, hr1, hs1⟩ := hr.clear
    refine ⟨Event.cleared, q1, [], by simp only [call, e], hr1, ?_, ?_, ?_, ?_⟩
    · rw [hs1]; rfl
    · rw [netSinceClear_snoc]; rfl
    · simp [INT_MAX]
    · intro rest har
      simpa [Call.allowed] using har

theorem Call.allowed_head (c : Call T) (rest : List (Call T)) (n : Nat)
    (h : Call.allowed (c :: rest) n = true) : Call.allowed [c] n = true := by
  cases c <;> simp only [Call.allowed, Bool.and_eq_true, decide_eq_true_eq, and_true] at h ⊢
  · exact h.1
  · exact h.1

theorem calls_invariant :
    ∀ (cs : List (Call T)) (q : ThreadSafeQueue T) (cells : List (Nat × T)) (log : List Event),
      Repr q cells → q.size = (cells.length : Int) →
      (cells.length : Int) = netSinceClear log → (cells.length : Int) ≤ INT_MAX →
      Call.allowed cs cells.length = true →
      ∃ log1 q1 cells1, calls cs q log = Outcome.ok (log1, q1) ∧ Repr q1 cells1 ∧
        q1.size = (cells1.length : Int) ∧ (cells1.length : Int) = netSinceClear log1 ∧
        log1.length = log.length + cs.length := by
  intro cs
  induction cs with
  | nil =>
    intro q cells log hr hs hn _ _
    exact ⟨log, q, cells, rfl, hr, hs, hn, rfl⟩
  | cons c rest ih =>
    intro q cells log hr hs hn hb ha
    obtain ⟨e, q1, cells1, he, hr1, hs1, hn1, hb1, hrest⟩ :=
      call_invariant c q cells log hr hs hn hb (Call.allowed_head c rest _ ha)
    obtain ⟨log2, q2, cells2, e2, h2⟩ := ih q1 cells1 _ hr1 hs1 hn1 hb1 (hrest rest ha)
    refine ⟨log2, q2, cells2, ?_, h2.1, h2.2.1, h2.2.2.1, ?_⟩
    · simp only [calls, he, e2]
    · rw [h2.2.2.2, List.length_append, List.length_singleton, List.length_cons]; omega

end ThreadSafeQueue

/-- C27: for every sequence of `push`, `pop`, `tryPop` and `clear` calls on a newly
constructed queue in which each `pop` meets a non-empty queue (and no `push` meets a
queue of `INT_MAX` elements), every call returns, and in the state reached
`head == nullptr` iff `tail == nullptr` iff `size == 0`, `size` is the number of nodes
on the chain from `head`, `tail` is the last node of the chain and its `next` is null,
`getSize()` is the number of pushes minus the number of successful pops since the last
clear, and `isEmpty()` holds iff `getSize() == 0`. -/
theorem queue_representation_invariant {T : Type} (cs : List (ThreadSafeQueue.Call T))
    (h : ThreadSafeQueue.Call.allowed cs 0 = true) :
    ∃ log q cells,
      ThreadSafeQueue.calls cs ThreadSafeQueue.new [] = Outcome.ok (log, q) ∧
      log.length = cs.length ∧
      ThreadSafeQueue.IsChain q.memory q.head cells ∧ (cells.map Prod.fst).Nodup ∧
      (q.head = none ↔ q.tail = none) ∧ (q.tail = none ↔ q.size = 0) ∧
      q.size = (cells.length : Int) ∧
      q.tail = (cells.map Prod.fst).getLast? ∧
      (∀ t, q.tail = some t → ∃ d, q.memory t = some { data := d, next := none }) ∧
      q.getSize = ThreadSafeQueue.netSinceClear log ∧
      (q.isEmpty = true ↔ q.getSize = 0) := by
  obtain ⟨log, q, cells, e, hr, hs, hn, hl⟩ :=
    ThreadSafeQueue.calls_invariant cs ThreadSafeQueue.new [] [] ThreadSafeQueue.Repr.new rfl rfl
      (by simp [INT_MAX]) h
  have hz : q.size = 0 ↔ cells = [] := by
    rw [hs]
    constructor
    · intro h0
      exact List.length_eq_zero.mp (by exact_mod_cast h0)
    · intro h0; rw [h0]; rfl
  refine ⟨log, q, cells, e, by simpa using hl, hr.chain, hr.nodup, hr.head_iff_tail.1,
    hr.head_iff_tail.2.trans hz.symm, hs, hr.tail_eq,
    fun t ht => (hr.tail_next t ht).2, ?_, ?_⟩
  · show q.size = _
    rw [hs, hn]
  · show q.head.isNone = true ↔ q.size = 0
    rw [Option.isNone_iff_eq_none, hr.head_iff_tail.1, hr.head_iff_tail.2, hz]

theorem queue_representation_invariant_witness :
    ThreadSafeQueue.Call.allowed ThreadSafeQueue.sampleCalls 0 = true ∧
    ∃ log q cells,
      ThreadSafeQueue.calls ThreadSafeQueue.sampleCalls ThreadSafeQueue.new [] =
        Outcome.ok (log, q) ∧
      log.length = ThreadSafeQueue.sampleCalls.length ∧
      ThreadSafeQueue.IsChain q.memory q.head cells ∧ (cells.map Prod.fst).Nodup ∧
      (q.head = none ↔ q.tail = none) ∧ (q.tail = none ↔ q.size = 0) ∧
      q.size = (cells.length : Int) ∧
      q.tail = (cells.map Prod.fst).getLast? ∧
      (∀ t, q.tail = some t → ∃ d, q.memory t = some { data := d, next := none }) ∧
      q.getSize = ThreadSafeQueue.netSinceClear log ∧
      (q.isEmpty = true ↔ q.getSize = 0) :=
  ⟨by decide, queue_representation_invariant ThreadSafeQueue.sampleCalls (by decide)⟩

/-! ### The index invariant of the ring buffer over sequences of calls -/

namespace RingBuffer

variable {T : Type}

theorem inv_clear (b : RingBuffer T) (h : Inv b) :
    Inv b.clear ∧ b.clear.capacity = b.capacity := by
  refine ⟨⟨h.pos, Nat.zero_le _, h.pos, ?_⟩, rfl⟩
  show 0 = (0 + 0) % b.capacity
  simp

theorem inv_read (b : RingBuffer T) (h : Inv b) (item : T) :
    Inv (b.read item).2.2 ∧ (b.read item).2.2.capacity = b.capacity := by
  unfold read
  by_cases he : b.isEmpty = true
  · simp only [he, if_true]; exact ⟨h, trivial⟩
  · simp only [he, Bool.false_eq_true, if_false]
    have hs : 0 < b.size := by
      simp only [isEmpty, beq_iff_eq] at he; omega
    exact ⟨inv_advance b h hs, trivial⟩

theorem inv_writeLoop :
    ∀ (items : List T) (written : Nat) (b : RingBuffer T), Inv b →
      Inv (writeLoop items written b).2 ∧ (writeLoop items written b).2.capacity = b.capacity := by
  intro items
  induction items with
  | nil => intro written b h; exact ⟨h, rfl⟩
  | cons item rest ih =>
    intro written b h
    obtain ⟨h1, h2, _⟩ := write_spec b h item
    unfold writeLoop
    by_cases hw : (b.write item).1 = true
    · simp only [hw, if_true]
      obtain ⟨h3, h4⟩ := ih (written + 1) _ h1
      exact ⟨h3, h4.trans h2⟩
    · simp only [hw, Bool.false_eq_true, if_false]
      exact ⟨h1, h2⟩

theorem inv_writeMultiple (b : RingBuffer T) (h : Inv b) (items : List T) :
    Inv (b.writeMultiple items).2 ∧ (b.writeMultiple items).2.capacity = b.capacity := by
  unfold writeMultiple
  split_ifs
  · exact ⟨h, rfl⟩
  · exact inv_writeLoop items 0 b h

theorem inv_readLoop :
    ∀ (count : Nat) (acc : List T) (b : RingBuffer T), Inv b →
      Inv (readLoop count acc b).2 ∧ (readLoop count acc b).2.capacity = b.capacity := by
  intro count
  induction count with
  | zero => intro acc b h; exact ⟨h, rfl⟩
  | succ n ih =>
    intro acc b h
    unfold readLoop
    by_cases he : b.isEmpty = true
    · simp only [he, if_true]; exact ⟨h, trivial⟩
    · simp only [he, Bool.false_eq_true, if_false]
      have hs : 0 < b.size := by
        simp only [isEmpty, beq_iff_eq] at he; omega
      obtain ⟨h3, h4⟩ := ih (acc ++ [b.buffer b.head]) _ (inv_advance b h hs)
      exact ⟨h3, h4⟩

theorem inv_apply (b : RingBuffer T) (h : Inv b) (op : Op T) :
    Inv (b.apply op) ∧ (b.apply op).capacity = b.capacity := by
  cases op with
  | write item => exact ⟨(write_spec b h item).1, (write_spec b h item).2.1⟩
  | writeMultiple items => exact inv_writeMultiple b h items
  | read item => exact inv_read b h item
  | readMultiple count => exact inv_readLoop count [] b h
  | peek item => exact ⟨h, rfl⟩
  | clear => exact inv_clear b h

theorem inv_run :
    ∀ (ops : List (Op T)) (b : RingBuffer T), Inv b →
      Inv (run ops b) ∧ (run ops b).capacity = b.capacity := by
  intro ops
  induction ops with
  | nil => intro b h; exact ⟨h, rfl⟩
  | cons op rest ih =>
    intro b h
    obtain ⟨h1, h2⟩ := inv_apply b h op
    obtain ⟨h3, h4⟩ := ih _ h1
    exact ⟨h3, h4.trans h2⟩

theorem Inv.tail_lt {b : RingBuffer T} (h : Inv b) : b.tail < b.capacity := by
  rw [h.tail_eq]; exact Nat.mod_lt _ h.pos

end RingBuffer

namespace ByteRingBuffer

open RingBuffer

theorem inv_copyIn (b : ByteRingBuffer) (h : Inv b) (items : List Nat)
    (hfit : b.size + items.length ≤ b.capacity) :
    Inv (copyIn b items) ∧ (copyIn b items).capacity = b.capacity := by
  refine ⟨⟨h.pos, hfit, h.head_lt, ?_⟩, rfl⟩
  show (b.tail + items.length) % b.capacity = (b.head + (b.size + items.length)) % b.capacity
  rw [h.tail_eq, Nat.mod_add_mod, Nat.add_assoc]

theorem copyRanges_bounds (b : ByteRingBuffer) (h : Inv b) (count : Nat)
    (hfit : count ≤ b.capacity) :
    ∀ r ∈ copyRanges b count, r.1 + r.2 ≤ b.capacity := by
  intro r hr
  have ht := h.tail_lt
  unfold copyRanges at hr
  split_ifs at hr with h1
  · simp only [List.mem_singleton] at hr
    subst hr; exact h1
  · simp only [List.mem_cons, List.mem_singleton, List.not_mem_nil, or_false] at hr
    rcases hr with hr | hr
    · subst hr; show b.tail + (b.capacity - b.tail) ≤ b.capacity; omega
    · subst hr; show 0 + (count - (b.capacity - b.tail)) ≤ b.capacity; omega

/-- The buffer state of the branch that overwrites old bytes: `head` moved on by
`overflow`, `size` reduced by it. -/
theorem inv_skip (b : ByteRingBuffer) (h : Inv b) (overflow : Nat) (ho : overflow ≤ b.size) :
    Inv ({ b with head := (b.head + overflow) % b.capacity,
                  size := b.size - overflow } : ByteRingBuffer) := by
  refine ⟨h.pos, ?_, Nat.mod_lt _ h.pos, ?_⟩
  · show b.size - overflow ≤ b.capacity
    have := h.size_le; omega
  · show b.tail = ((b.head + overflow) % b.capacity + (b.size - overflow)) % b.capacity
    rw [h.tail_eq, Nat.mod_add_mod]
    congr 1
    omega

theorem inv_byte_writeMultiple (b : ByteRingBuffer) (h : Inv b) (items : List Nat) :
    Inv (ByteRingBuffer.writeMultiple b items).2 ∧
    (ByteRingBuffer.writeMultiple b items).2.capacity = b.capacity ∧
    ∀ r ∈ writeRanges b items, r.1 + r.2 ≤ b.capacity := by
  have hsz := h.size_le
  have hpos := h.pos
  unfold ByteRingBuffer.writeMultiple writeRanges
  simp only []
  split_ifs with h0 h1 h2 h3 h4
  · exact ⟨h, rfl, fun r hr => absurd hr (List.not_mem_nil _)⟩
  · exact ⟨h, rfl, fun r hr => absurd hr (List.not_mem_nil _)⟩
  · simp only [Bool.and_eq_true, decide_eq_true_eq] at h2
    have hc := inv_clear b h
    have hlen : (items.drop (items.length - b.capacity)).length = b.capacity := by
      rw [List.length_drop]; omega
    have hfit : b.clear.size + (items.drop (items.length - b.capacity)).length
        ≤ b.clear.capacity := by
      rw [hlen]; show 0 + b.capacity ≤ b.capacity; omega
    obtain ⟨i1, i2⟩ := inv_copyIn b.clear hc.1 _ hfit
    exact ⟨i1, i2, copyRanges_bounds b.clear hc.1 b.capacity (le_refl _)⟩
  · simp only [Bool.and_eq_true, decide_eq_true_eq, not_and, not_lt] at h2 h3
    have hle : items.length ≤ b.capacity := h2 h3.2
    have hs := inv_skip b h (items.length - (b.capacity - b.size)) (by omega)
    have hfit : (b.size - (items.length - (b.capacity - b.size))) + items.length
        ≤ b.capacity := by omega
    obtain ⟨i1, i2⟩ := inv_copyIn _ hs items hfit
    exact ⟨i1, i2, copyRanges_bounds _ hs items.length hle⟩
  · have hlen : (items.take (b.capacity - b.size)).length = b.capacity - b.size := by
      rw [List.length_take]; omega
    have hfit : b.size + (items.take (b.capacity - b.size)).length ≤ b.capacity := by
      rw [hlen]; omega
    obtain ⟨i1, i2⟩ := inv_copyIn b h _ hfit
    exact ⟨i1, i2, copyRanges_bounds b h _ (by omega)⟩
  · have hfit : b.size + items.length ≤ b.capacity := by omega
    obtain ⟨i1, i2⟩ := inv_copyIn b h items hfit
    exact ⟨i1, i2, copyRanges_bounds b h _ (by omega)⟩

theorem inv_byte_readMultiple (b : ByteRingBuffer) (h : Inv b) (count : Nat) :
    Inv (ByteRingBuffer.readMultiple b count).2.2 ∧
    (ByteRingBuffer.readMultiple b count).2.2.capacity = b.capacity ∧
    ∀ r ∈ readRanges b count, r.1 + r.2 ≤ b.capacity := by
  have hsz := h.size_le
  have hh := h.head_lt
  unfold ByteRingBuffer.readMultiple readRanges
  simp only []
  split_ifs with h0 h1 h2 h3
  all_goals first
    | exact ⟨h, rfl, fun r hr => absurd hr (List.not_mem_nil _)⟩
    | refine ⟨inv_skip b h _ (by omega), rfl, ?_⟩
      intro r hr
      simp only [List.mem_cons, List.mem_singleton, List.not_mem_nil, or_false] at hr
      rcases hr with hr | hr <;> subst hr <;> simp only [] <;> omega
    | refine ⟨inv_skip b h _ (by omega), rfl, ?_⟩
      intro r hr
      simp only [List.mem_singleton] at hr
      subst hr; simp only []; omega

theorem byte_inv_apply (b : ByteRingBuffer) (h : Inv b) (op : Op Nat) :
    Inv (ByteRingBuffer.apply b op) ∧ (ByteRingBuffer.apply b op).capacity = b.capacity := by
  cases op with
  | write item => exact ⟨(write_spec b h item).1, (write_spec b h item).2.1⟩
  | writeMultiple items =>
    exact ⟨(inv_byte_writeMultiple b h items).1, (inv_byte_writeMultiple b h items).2.1⟩
  | read item => exact inv_read b h item
  | readMultiple count =>
    exact ⟨(inv_byte_readMultiple b h count).1, (inv_byte_readMultiple b h count).2.1⟩
  | peek item => exact ⟨h, rfl⟩
  | clear => exact inv_clear b h

theorem byte_inv_run :
    ∀ (ops : List (Op Nat)) (b : ByteRingBuffer), Inv b →
      Inv (ByteRingBuffer.run ops b) ∧ (ByteRingBuffer.run ops b).capacity = b.capacity := by
  intro ops
  induction ops with
  | nil => intro b h; exact ⟨h, rfl⟩
  | cons op rest ih =>
    intro b h
    obtain ⟨h1, h2⟩ := byte_inv_apply b h op
    obtain ⟨h3, h4⟩ := ih _ h1
    exact ⟨h3, h4.trans h2⟩

end ByteRingBuffer

/-- C28: for every capacity `c >= 1`, in the state reached from the constructor by
any sequence of `write`, `writeMultiple`, `read`, `readMultiple`, `peek` and `clear`
calls, on the generic class and on the byte specialisation, the capacity is `c`,
`size <= c`, `head < c`, `tail < c` and `tail = (head + size) mod c`, so that
`getAvailableSpace() + getSize() = getCapacity()`; the element indices `head` and
`tail` used by `read`, `peek` and `write` are in bounds, and so is every part of the
array that a `memcpy` of the specialised `writeMultiple` or `readMultiple` called
next touches.  With capacity 0 and `allowOverwrite = true` the new buffer is full and
`write` takes the branch that computes `(head + 1) % capacity`. -/
theorem ring_index_invariant {T : Type} (c : Nat) (o : Bool) (init : Nat → T)
    (ops : List (RingBuffer.Op T)) (bytes : Nat → Nat) (byteOps : List (RingBuffer.Op Nat))
    (items : List Nat) (count : Nat) (item : T) (hc : 1 ≤ c) :
    ((RingBuffer.run ops (RingBuffer.new c o init)).capacity = c ∧
      (RingBuffer.run ops (RingBuffer.new c o init)).size ≤ c ∧
      (RingBuffer.run ops (RingBuffer.new c o init)).head < c ∧
      (RingBuffer.run ops (RingBuffer.new c o init)).tail < c ∧
      (RingBuffer.run ops (RingBuffer.new c o init)).tail =
        ((RingBuffer.run ops (RingBuffer.new c o init)).head +
          (RingBuffer.run ops (RingBuffer.new c o init)).size) % c ∧
      (RingBuffer.run ops (RingBuffer.new c o init)).getAvailableSpace +
        (RingBuffer.run ops (RingBuffer.new c o init)).getSize =
        (RingBuffer.run ops (RingBuffer.new c o init)).getCapacity) ∧
    ((ByteRingBuffer.run byteOps (RingBuffer.new c o bytes)).capacity = c ∧
      (ByteRingBuffer.run byteOps (RingBuffer.new c o bytes)).size ≤ c ∧
      (ByteRingBuffer.run byteOps (RingBuffer.new c o bytes)).head < c ∧
      (ByteRingBuffer.run byteOps (RingBuffer.new c o bytes)).tail < c ∧
      (ByteRingBuffer.run byteOps (RingBuffer.new c o bytes)).tail =
        ((ByteRingBuffer.run byteOps (RingBuffer.new c o bytes)).head +
          (ByteRingBuffer.run byteOps (RingBuffer.new c o bytes)).size) % c ∧
      RingBuffer.getAvailableSpace (ByteRingBuffer.run byteOps (RingBuffer.new c o bytes)) +
        RingBuffer.getSize (ByteRingBuffer.run byteOps (RingBuffer.new c o bytes)) =
        RingBuffer.getCapacity (ByteRingBuffer.run byteOps (RingBuffer.new c o bytes))) ∧
    (∀ r ∈ ByteRingBuffer.writeRanges (ByteRingBuffer.run byteOps (RingBuffer.new c o bytes))
        items, r.1 + r.2 ≤ c) ∧
    (∀ r ∈ ByteRingBuffer.readRanges (ByteRingBuffer.run byteOps (RingBuffer.new c o bytes))
        count, r.1 + r.2 ≤ c) ∧
    ((RingBuffer.new 0 true init).isFull = true ∧
      RingBuffer.write (RingBuffer.new 0 true init) item =
        (true, RingBuffer.store
          { RingBuffer.new 0 true init with head := (0 + 1) % 0, size := 0 - 1 } item)) := by
  obtain ⟨g1, g2⟩ := RingBuffer.inv_run ops (RingBuffer.new c o init)
    (RingBuffer.inv_new c o init hc)
  obtain ⟨b1, b2⟩ := ByteRingBuffer.byte_inv_run byteOps (RingBuffer.new c o bytes)
    (RingBuffer.inv_new c o bytes hc)
  have g3 : (RingBuffer.run ops (RingBuffer.new c o init)).capacity = c := g2
  have b3 : (ByteRingBuffer.run byteOps (RingBuffer.new c o bytes)).capacity = c := b2
  have gs := g1.size_le
  have bs := b1.size_le
  have gh := g1.head_lt
  have bh := b1.head_lt
  have gt := g1.tail_lt
  have bt := b1.tail_lt
  have ge := g1.tail_eq
  have be := b1.tail_eq
  rw [g3] at gs gh gt ge
  rw [b3] at bs bh bt be
  refine ⟨⟨g3, gs, gh, gt, ge, ?_⟩, ⟨b3, bs, bh, bt, be, ?_⟩, ?_, ?_, rfl, rfl⟩
  · simp only [RingBuffer.getAvailableSpace, RingBuffer.getSize, RingBuffer.getCapacity]
    omega
  · simp only [RingBuffer.getAvailableSpace, RingBuffer.getSize, RingBuffer.getCapacity]
    omega
  · intro r hr
    have := (ByteRingBuffer.inv_byte_writeMultiple _ b1 items).2.2 r hr
    rw [b3] at this
    exact this
  · intro r hr
    have := (ByteRingBuffer.inv_byte_readMultiple _ b1 count).2.2 r hr
    rw [b3] at this
    exact this

theorem ring_index_invariant_witness :
    1 ≤ 3 ∧
    (ByteRingBuffer.run ByteRingBuffer.sampleOps (RingBuffer.new 3 true (fun _ => 0))).tail =
      ((ByteRingBuffer.run ByteRingBuffer.sampleOps (RingBuffer.new 3 true (fun _ => 0))).head +
        (ByteRingBuffer.run ByteRingBuffer.sampleOps (RingBuffer.new 3 true (fun _ => 0))).size)
        % 3 ∧
    (RingBuffer.run ByteRingBuffer.sampleOps (RingBuffer.new 3 true (fun _ => 0))).tail =
      ((RingBuffer.run ByteRingBuffer.sampleOps (RingBuffer.new 3 true (fun _ => 0))).head +
        (RingBuffer.run ByteRingBuffer.sampleOps (RingBuffer.new 3 true (fun _ => 0))).size)
        % 3 ∧
    (∀ r ∈ ByteRingBuffer.writeRanges
        (ByteRingBuffer.run ByteRingBuffer.sampleOps (RingBuffer.new 3 true (fun _ => 0)))
        [1, 2, 3, 4], r.1 + r.2 ≤ 3) :=
  ⟨by decide,
    (ring_index_invariant 3 true (fun _ => 0) ByteRingBuffer.sampleOps (fun _ => 0)
      ByteRingBuffer.sampleOps [1, 2, 3, 4] 2 0 (by decide)).2.1.2.2.2.2.1,
    (ring_index_invariant 3 true (fun _ => 0) ByteRingBuffer.sampleOps (fun _ => 0)
      ByteRingBuffer.sampleOps [1, 2, 3, 4] 2 0 (by decide)).1.2.2.2.2.1,
    (ring_index_invariant 3 true (fun _ => 0) ByteRingBuffer.sampleOps (fun _ => 0)
      ByteRingBuffer.sampleOps [1, 2, 3, 4] 2 0 (by decide)).2.2.1⟩

/-! ### Frame numbering of the video encoder -/

namespace VideoEncodeLoop

/-- What one call of `encodeFrame` with a codec context does to the counter and to the
record of submitted frames. -/
theorem encodeFrame_count {σ φ : Type} (lib : EncoderLib σ φ VideoFrame)
    (st : VideoEncodeLoop σ φ) (ctx : σ) (frame : Option VideoFrame)
    (hc : st.codecContext = some ctx) :
    (encodeFrame lib st frame).1.frameCount =
      (if frame.isSome then wrapInt (st.frameCount + 1) else st.frameCount) ∧
    ∃ subs, (encodeFrame lib st frame).1.submitted = st.submitted ++ subs ∧ subs ≠ [] ∧
      (frame = none → subs = [none]) ∧
      ∀ f, frame = some f → ∀ x ∈ subs, ∃ g, x = some g ∧ g.pts = st.frameCount ∧
        g.data0 = f.data0 ∧ g.width = f.width ∧ g.height = f.height ∧ g.format = f.format := by
  have hstamp : ∀ f : VideoFrame, (stamp st.codecName st.frameCount f).pts = st.frameCount ∧
      (stamp st.codecName st.frameCount f).data0 = f.data0 ∧
      (stamp st.codecName st.frameCount f).width = f.width ∧
      (stamp st.codecName st.frameCount f).height = f.height ∧
      (stamp st.codecName st.frameCount f).format = f.format := by
    intro f
    unfold stamp
    split_ifs <;> exact ⟨rfl, rfl, rfl, rfl, rfl⟩
  unfold encodeFrame
  simp only [hc]
  cases frame with
  | none =>
    simp only [Option.map_none', Option.isSome_none, Bool.false_eq_true, if_false]
    split_ifs
    · exact ⟨rfl, [none], rfl, by simp, fun _ => rfl, fun f hf => by simp at hf⟩
    · exact ⟨rfl, [none], rfl, by simp, fun _ => rfl, fun f hf => by simp at hf⟩
  | some f =>
    obtain ⟨s1, s2, s3, s4, s5⟩ := hstamp f
    simp only [Option.map_some', Option.isSome_some, if_true]
    split_ifs
    · refine ⟨rfl, [some (stamp st.codecName st.frameCount f),
        some { stamp st.codecName st.frameCount f with
               pict_type := AV_PICTURE_TYPE_I, key_frame := 1 }], ?_, by simp, by simp, ?_⟩
      · simp only [List.append_assoc, List.singleton_append]
      · intro f2 hf2 x hx
        simp only [Option.some.injEq] at hf2
        subst hf2
        simp only [List.mem_cons, List.mem_singleton, List.not_mem_nil, or_false] at hx
        rcases hx with hx | hx
        · exact ⟨_, hx, s1, s2, s3, s4, s5⟩
        · exact ⟨_, hx, s1, s2, s3, s4, s5⟩
    · refine ⟨rfl, [some (stamp st.codecName st.frameCount f),
        some { stamp st.codecName st.frameCount f with
               pict_type := AV_PICTURE_TYPE_I, key_frame := 1 }], ?_, by simp, by simp, ?_⟩
      · simp only [receiveLoop, List.append_assoc, List.singleton_append]
      · intro f2 hf2 x hx
        simp only [Option.some.injEq] at hf2
        subst hf2
        simp only [List.mem_cons, List.mem_singleton, List.not_mem_nil, or_false] at hx
        rcases hx with hx | hx
        · exact ⟨_, hx, s1, s2, s3, s4, s5⟩
        · exact ⟨_, hx, s1, s2, s3, s4, s5⟩
    · refine ⟨rfl, [some (stamp st.codecName st.frameCount f)], rfl, by simp, by simp, ?_⟩
      intro f2 hf2 x hx
      simp only [Option.some.injEq] at hf2
      subst hf2
      simp only [List.mem_singleton] at hx
      exact ⟨_, hx, s1, s2, s3, s4, s5⟩
    · refine ⟨rfl, [some (stamp st.codecName st.frameCount f)], rfl, by simp, by simp, ?_⟩
      intro f2 hf2 x hx
      simp only [Option.some.injEq] at hf2
      subst hf2
      simp only [List.mem_singleton] at hx
      exact ⟨_, hx, s1, s2, s3, s4, s5⟩

theorem encodeFrames_count {σ φ : Type} (lib : EncoderLib σ φ VideoFrame) :
    ∀ (frames : List (Option VideoFrame)) (st : VideoEncodeLoop σ φ),
      st.codecContext.isSome = true → 0 ≤ st.frameCount →
      st.frameCount + ((frames.filter Option.isSome).length : Int) ≤ INT_MAX →
      (encodeFrames lib st frames).frameCount =
        st.frameCount + ((frames.filter Option.isSome).length : Int) ∧
      (encodeFrames lib st frames).codecContext.isSome = true := by
  intro frames
  induction frames with
  | nil => intro st hc _ _; exact ⟨by simp [encodeFrames], hc⟩
  | cons frame rest ih =>
    intro st hc h0 hmax
    obtain ⟨ctx, hctx⟩ := Option.isSome_iff_exists.mp hc
    have h1 := (encodeFrame_count lib st ctx frame hctx).1
    have h2 : (encodeFrame lib st frame).1.codecContext.isSome = true :=
      ((encodeFrame_appends lib st frame).2.2.2).trans hc
    cases frame with
    | none =>
      simp only [Option.isSome_none, Bool.false_eq_true, if_false] at h1
      simp only [List.filter_cons, Option.isSome_none, Bool.false_eq_true, if_false] at hmax ⊢
      obtain ⟨i1, i2⟩ := ih _ h2 (by rw [h1]; exact h0) (by rw [h1]; exact hmax)
      exact ⟨by rw [encodeFrames, i1, h1], by rw [encodeFrames]; exact i2⟩
    | some f =>
      simp only [Option.isSome_some, if_true] at h1
      simp only [List.filter_cons, Option.isSome_some, if_true, List.length_cons] at hmax ⊢
      push_cast at hmax ⊢
      have hw : wrapInt (st.frameCount + 1) = st.frameCount + 1 := by
        apply wrapInt_of_range
        · simp only [INT_MIN]; omega
        · omega
      rw [hw] at h1
      obtain ⟨i1, i2⟩ := ih _ h2 (by rw [h1]; omega) (by rw [h1]; omega)
      exact ⟨by rw [encodeFrames, i1, h1]; omega, by rw [encodeFrames]; exact i2⟩

end VideoEncodeLoop

/-- C29: on an initialised encoder that has encoded nothing yet (`frameCount` is 0),
after any sequence `before` of calls of `encodeFrame` holding fewer than `INT_MAX`
non-null frames, `getFrameCount()` is the number `n` of non-null frames passed,
whatever `avcodec_send_frame` returned for them; the next non-null frame is handed to
the codec (once, or twice when the "mpeg4" retry is taken) with pts `n` whatever pts
it carried, and counts as one more; a null frame is handed on as null and leaves the
count as it is. -/
theorem video_encoder_renumbers_pts {σ φ : Type} (lib : EncoderLib σ φ VideoFrame)
    (st : VideoEncodeLoop σ φ) (ctx : σ) (before : List (Option VideoFrame)) (f : VideoFrame)
    (hctx : st.codecContext = some ctx) (hfresh : st.frameCount = 0)
    (hlen : ((before.filter Option.isSome).length : Int) < INT_MAX) :
    VideoEncodeLoop.getFrameCount (VideoEncodeLoop.encodeFrames lib st before) =
      ((before.filter Option.isSome).length : Int) ∧
    (∃ subs,
      (VideoEncodeLoop.encodeFrame lib (VideoEncodeLoop.encodeFrames lib st before)
        (some f)).1.submitted =
        (VideoEncodeLoop.encodeFrames lib st before).submitted ++ subs ∧
      subs ≠ [] ∧
      ∀ x ∈ subs, ∃ g, x = some g ∧ g.pts = ((before.filter Option.isSome).length : Int) ∧
        g.data0 = f.data0 ∧ g.width = f.width ∧ g.height = f.height ∧ g.format = f.format) ∧
    VideoEncodeLoop.getFrameCount
      (VideoEncodeLoop.encodeFrame lib (VideoEncodeLoop.encodeFrames lib st before)
        (some f)).1 = ((before.filter Option.isSome).length : Int) + 1 ∧
    VideoEncodeLoop.getFrameCount
      (VideoEncodeLoop.encodeFrame lib (VideoEncodeLoop.encodeFrames lib st before)
        none).1 = ((before.filter Option.isSome).length : Int) ∧
    (VideoEncodeLoop.encodeFrame lib (VideoEncodeLoop.encodeFrames lib st before)
        none).1.submitted =
      (VideoEncodeLoop.encodeFrames lib st before).submitted ++ [none] := by
  have hsome : st.codecContext.isSome = true := by rw [hctx]; rfl
  obtain ⟨c1, c2⟩ := VideoEncodeLoop.encodeFrames_count lib before st hsome
    (by rw [hfresh]) (by rw [hfresh]; omega)
  rw [hfresh, zero_add] at c1
  obtain ⟨ctx2, hctx2⟩ := Option.isSome_iff_exists.mp c2
  obtain ⟨a1, subs, a2, a3, _, a5⟩ :=
    VideoEncodeLoop.encodeFrame_count lib _ ctx2 (some f) hctx2
  obtain ⟨n1, nsubs, n2, _, n4, _⟩ :=
    VideoEncodeLoop.encodeFrame_count lib _ ctx2 none hctx2
  refine ⟨c1, ⟨subs, a2, a3, ?_⟩, ?_, ?_, ?_⟩
  · intro x hx
    obtain ⟨g, g1, g2, g3⟩ := a5 f rfl x hx
    exact ⟨g, g1, g2.trans c1, g3⟩
  · show (VideoEncodeLoop.encodeFrame lib _ (some f)).1.frameCount = _
    rw [a1, c1]
    simp only [Option.isSome_some, if_true]
    apply wrapInt_of_range
    · simp only [INT_MIN]; omega
    · omega
  · show (VideoEncodeLoop.encodeFrame lib _ none).1.frameCount = _
    rw [n1, c1]
    simp
  · rw [n2, n4 rfl]

theorem video_encoder_renumbers_pts_witness :
    (VideoEncodeLoop.start (some ()) "mpeg4" [] : VideoEncodeLoop Unit Unit).codecContext
      = some () ∧
    (VideoEncodeLoop.start (some ()) "mpeg4" [] : VideoEncodeLoop Unit Unit).frameCount = 0 ∧
    VideoEncodeLoop.getFrameCount
      (VideoEncodeLoop.encodeFrame VideoEncodeLoop.failingEncoder
        (VideoEncodeLoop.encodeFrames VideoEncodeLoop.failingEncoder
          (VideoEncodeLoop.start (some ()) "mpeg4" [])
          [some (VideoEncodeLoop.pictureAt 900), none, some (VideoEncodeLoop.pictureAt 77)])
        (some (VideoEncodeLoop.pictureAt 5))).1 =
      (([some (VideoEncodeLoop.pictureAt 900), none,
          some (VideoEncodeLoop.pictureAt 77)].filter Option.isSome).length : Int) + 1 :=
  ⟨rfl, rfl,
    (video_encoder_renumbers_pts VideoEncodeLoop.failingEncoder
      (VideoEncodeLoop.start (some ()) "mpeg4" []) ()
      [some (VideoEncodeLoop.pictureAt 900), none, some (VideoEncodeLoop.pictureAt 77)]
      (VideoEncodeLoop.pictureAt 5) rfl rfl (by decide)).2.2.1⟩

/-! ### Timestamps of the audio encoder -/

namespace AudioEncodeLoop

theorem fixPts_spec (nextPts : Int) (f : AudioFrame) :
    (fixPts nextPts f).nb_samples = f.nb_samples ∧ nextPts ≤ (fixPts nextPts f).pts ∧
    ((f.pts = AV_NOPTS_VALUE ∨ f.pts < nextPts) → (fixPts nextPts f).pts = nextPts) ∧
    (¬ (f.pts = AV_NOPTS_VALUE ∨ f.pts < nextPts) → (fixPts nextPts f).pts = f.pts) := by
  unfold fixPts
  split_ifs with h
  · exact ⟨rfl, le_refl _, fun _ => rfl, fun hn => absurd h hn⟩
  · refine ⟨rfl, ?_, fun hp => absurd hp h, fun _ => rfl⟩
    simp only [not_or, not_lt] at h
    exact h.2

/-- The part of `encodeFrame` after the filter, for the frame `fe` that is encoded. -/
theorem encodeFrame_core {σ φ : Type} (lib : EncoderLib σ φ AudioFrame)
    (s0 : AudioEncodeLoop σ φ) (ctx : σ) (fe : AudioFrame) :
    ∀ r : AudioEncodeLoop σ φ × Bool,
      r = (let f1 := fixPts s0.nextPts fe
           let resize := s0.isAc3 && f1.nb_samples != 1536
           let f2 := if resize then { f1 with nb_samples := 1536 } else f1
           let next := if resize then wrapInt64 (f1.pts + 1536)
             else wrapInt64 (f1.pts + f1.nb_samples)
           let sent := lib.avcodec_send_frame ctx (some f2)
           let st1 := { s0 with nextPts := next, codecContext := some sent.2,
                                submitted := s0.submitted ++ [some f2] }
           if sent.1 < 0 then (st1, false) else receiveLoop lib st1 sent.2) →
      ∃ g, r.1.submitted = s0.submitted ++ [some g] ∧
        r.1.nextPts = wrapInt64 (g.pts + g.nb_samples) ∧
        r.1.isAc3 = s0.isAc3 ∧ r.1.codecContext.isSome = true ∧
        r.1.audioFilter = s0.audioFilter ∧
        g.pts = (fixPts s0.nextPts fe).pts ∧
        g.nb_samples = (if s0.isAc3 then 1536 else fe.nb_samples) := by
  intro r hr
  have hnb := (fixPts_spec s0.nextPts fe).1
  by_cases hres : (s0.isAc3 && (fixPts s0.nextPts fe).nb_samples != 1536) = true
  · simp only [hres, if_true] at hr
    have hac : s0.isAc3 = true := by
      simp only [Bool.and_eq_true] at hres; exact hres.1
    refine ⟨{ fixPts s0.nextPts fe with nb_samples := 1536 }, ?_⟩
    subst hr
    split_ifs <;> simp [receiveLoop, hac]
  · simp only [hres, Bool.false_eq_true, if_false] at hr
    have hg : (fixPts s0.nextPts fe).nb_samples = (if s0.isAc3 then 1536 else fe.nb_samples) := by
      cases hac : s0.isAc3 with
      | false => simp [hnb]
      | true =>
        simp only [hac, Bool.true_and, bne_iff_ne, ne_eq, not_not] at hres
        simp [hres]
    refine ⟨fixPts s0.nextPts fe, ?_⟩
    subst hr
    by_cases hs : (lib.avcodec_send_frame ctx (some (fixPts s0.nextPts fe))).1 < 0
    · simp only [hs, if_true]
      refine ⟨?_, ?_, ?_, ?_, ?_, ?_, hg⟩ <;> first | rfl | trivial
    · simp only [hs, if_false, receiveLoop]
      refine ⟨?_, ?_, ?_, ?_, ?_, ?_, hg⟩ <;> first | rfl | trivial

theorem encodeFrame_pts {σ φ : Type} (lib : EncoderLib σ φ AudioFrame)
    (st : AudioEncodeLoop σ φ) (ctx : σ) (f : AudioFrame) (hc : st.codecContext = some ctx) :
    ∃ fe g, (encodeFrame lib st (some f)).1.submitted = st.submitted ++ [some g] ∧
      (encodeFrame lib st (some f)).1.nextPts = wrapInt64 (g.pts + g.nb_samples) ∧
      (encodeFrame lib st (some f)).1.isAc3 = st.isAc3 ∧
      (encodeFrame lib st (some f)).1.codecContext.isSome = true ∧
      (encodeFrame lib st (some f)).1.audioFilter.isSome = st.audioFilter.isSome ∧
      g.pts = (fixPts st.nextPts fe).pts ∧
      g.nb_samples = (if st.isAc3 then 1536 else fe.nb_samples) ∧
      (fe = f ∨ ∃ flt, st.audioFilter = some flt ∧ (lib.processFrame flt f).1 = some fe) ∧
      (st.audioFilter = none → fe = f) := by
  cases hflt : st.audioFilter with
  | none =>
    obtain ⟨g, h1, h2, h3, h4, h5, h6, h7⟩ := encodeFrame_core lib st ctx f
      (encodeFrame lib st (some f)) (by simp only [encodeFrame, hc, hflt])
    exact ⟨f, g, h1, h2, h3, h4, by rw [h5, hflt], h6, h7, Or.inl rfl, fun _ => rfl⟩
  | some flt =>
    obtain ⟨g, h1, h2, h3, h4, h5, h6, h7⟩ := encodeFrame_core lib
      { st with audioFilter := some (lib.processFrame flt f).2 } ctx
      (((lib.processFrame flt f).1).getD f)
      (encodeFrame lib st (some f)) (by simp only [encodeFrame, hc, hflt])
    refine ⟨((lib.processFrame flt f).1).getD f, g, h1, h2, h3, h4, by rw [h5]; rfl, h6, h7,
      ?_, fun hn => by simp at hn⟩
    cases hp : (lib.processFrame flt f).1 with
    | none => exact Or.inl rfl
    | some out => exact Or.inr ⟨flt, rfl, by simp [hp]⟩

end AudioEncodeLoop

namespace AudioEncodeLoop

theorem sentBy_of_submitted {σ φ : Type} (lib : EncoderLib σ φ AudioFrame)
    (st : AudioEncodeLoop σ φ) (frames : List AudioFrame) (subs : List AudioFrame)
    (h : (encodeFrames lib st frames).submitted = st.submitted ++ subs.map some) :
    sentBy lib st frames = subs := by
  unfold sentBy
  rw [h, List.drop_left, List.filterMap_map]
  simp

/-- The frames submitted by a sequence of calls, and what holds of them when no sum
`pts + nb_samples` leaves the range of `int64_t`. -/
theorem encodeFrames_chain {σ φ : Type} (lib : EncoderLib σ φ AudioFrame) :
    ∀ (frames : List AudioFrame) (st : AudioEncodeLoop σ φ),
      st.codecContext.isSome = true → INT64_MIN ≤ st.nextPts →
      (∀ x ∈ frames, 0 < x.nb_samples) →
      (∀ flt, ∀ x ∈ frames, ∀ out, (lib.processFrame flt x).1 = some out →
        0 < out.nb_samples) →
      ∃ subs : List AudioFrame,
        (encodeFrames lib st frames).submitted = st.submitted ++ subs.map some ∧
        subs.length = frames.length ∧
        (encodeFrames lib st frames).codecContext.isSome = true ∧
        (encodeFrames lib st frames).audioFilter.isSome = st.audioFilter.isSome ∧
        (st.isAc3 = true → ∀ g ∈ subs, g.nb_samples = 1536) ∧
        ((∀ g ∈ subs, g.pts + g.nb_samples ≤ INT64_MAX) →
          (∀ g ∈ subs, st.nextPts ≤ g.pts) ∧
          List.Chain' (fun a b => a.pts + a.nb_samples ≤ b.pts) subs ∧
          List.Pairwise (fun a b => a.pts < b.pts) subs ∧
          INT64_MIN ≤ (encodeFrames lib st frames).nextPts ∧
          (∀ last, subs.getLast? = some last →
            (encodeFrames lib st frames).nextPts = last.pts + last.nb_samples)) := by
  intro frames
  induction frames with
  | nil =>
    intro st hc hr _ _
    refine ⟨[], by simp [encodeFrames], rfl, hc, rfl, fun _ g hg => absurd hg (List.not_mem_nil _),
      fun _ => ⟨fun g hg => absurd hg (List.not_mem_nil _), List.chain'_nil, List.Pairwise.nil,
        hr, fun last hl => by simp at hl⟩⟩
  | cons f rest ih =>
    intro st hc hr hpos hflt
    obtain ⟨ctx, hctx⟩ := Option.isSome_iff_exists.mp hc
    obtain ⟨fe, g, e1, e2, e3, e4, e5, e6, e7, e8, _⟩ := encodeFrame_pts lib st ctx f hctx
    have hfe : 0 < fe.nb_samples := by
      rcases e8 with h | ⟨flt, _, hp⟩
      · rw [h]; exact hpos f (List.mem_cons_self _ _)
      · exact hflt flt f (List.mem_cons_self _ _) fe hp
    have hgpos : 0 < g.nb_samples := by
      rw [e7]; split_ifs
      · decide
      · exact hfe
    have hgpts : st.nextPts ≤ g.pts := by
      rw [e6]; exact (fixPts_spec st.nextPts fe).2.1
    obtain ⟨subs, i1, i2, i3, i4, i5, i6⟩ := ih (encodeFrame lib st (some f)).1 e4
      (by rw [e2]; exact Muxer.wrapInt64_ge _)
      (fun x hx => hpos x (List.mem_cons_of_mem _ hx))
      (fun flt x hx => hflt flt x (List.mem_cons_of_mem _ hx))
    refine ⟨g :: subs, ?_, by simp [i2], by rw [encodeFrames]; exact i3,
      by rw [encodeFrames, i4, e5], ?_, ?_⟩
    · rw [encodeFrames, i1, e1]
      simp
    · intro hac x hx
      rcases List.mem_cons.mp hx with h | h
      · rw [h, e7, if_pos hac]
      · exact i5 (e3.trans hac) x h
    · intro hno
      have hg1 : g.pts + g.nb_samples ≤ INT64_MAX := hno g (List.mem_cons_self _ _)
      have hnext : (encodeFrame lib st (some f)).1.nextPts = g.pts + g.nb_samples := by
        rw [e2]
        exact Muxer.wrapInt64_of_range _ (by omega) hg1
      obtain ⟨j1, j2, j3, j4, j5⟩ := i6 (fun x hx => hno x (List.mem_cons_of_mem _ hx))
      rw [hnext] at j1
      refine ⟨?_, ?_, ?_, by rw [encodeFrames]; exact j4, ?_⟩
      · intro x hx
        rcases List.mem_cons.mp hx with h | h
        · rw [h]; exact hgpts
        · have := j1 x h; omega
      · rw [List.chain'_cons']
        exact ⟨fun y hy => j1 y (List.mem_of_mem_head? hy), j2⟩
      · rw [List.pairwise_cons]
        exact ⟨fun y hy => by have := j1 y hy; omega, j3⟩
      · intro last hl
        rw [encodeFrames]
        cases subs with
        | nil =>
          simp only [List.getLast?_singleton, Option.some.injEq] at hl
          have hz : rest = [] := List.length_eq_zero.mp (by simpa using i2.symm)
          rw [hz, encodeFrames, hnext, hl]
        | cons s2 more =>
          rw [List.getLast?_cons_cons] at hl
          exact j5 last hl

end AudioEncodeLoop

/-- C30: on an initialised audio encoder, for every sequence of non-null frames with
`nb_samples > 0` passed to `encodeFrame` (a filter, if any, delivering frames with
`nb_samples > 0`), in a run in which no sum `pts + nb_samples` of a submitted frame
exceeds `INT64_MAX`: one frame is handed to the codec per call, the pts of each is at
least the pts of the one before plus the sample count of the one before (which is 1536
for every frame of an AC3 encoder), so the pts handed to the codec are strictly
increasing; and the frame encoded next gets exactly the expected next pts (the pts
plus the sample count of the last frame submitted) when its own pts is unset or
smaller, and keeps its pts otherwise. -/
theorem audio_encoder_pts_increasing {σ φ : Type} (lib : EncoderLib σ φ AudioFrame)
    (st : AudioEncodeLoop σ φ) (ctx : σ) (frames : List AudioFrame) (f : AudioFrame)
    (hctx : st.codecContext = some ctx) (hrange : INT64_MIN ≤ st.nextPts)
    (hpos : ∀ x ∈ frames, 0 < x.nb_samples)
    (hfilter : ∀ flt, ∀ x ∈ frames, ∀ out, (lib.processFrame flt x).1 = some out →
      0 < out.nb_samples)
    (hno : ∀ g ∈ AudioEncodeLoop.sentBy lib st frames, g.pts + g.nb_samples ≤ INT64_MAX) :
    (AudioEncodeLoop.sentBy lib st frames).length = frames.length ∧
    List.Chain' (fun a b => a.pts + a.nb_samples ≤ b.pts)
      (AudioEncodeLoop.sentBy lib st frames) ∧
    List.Pairwise (fun a b => a.pts < b.pts) (AudioEncodeLoop.sentBy lib st frames) ∧
    (∀ g ∈ AudioEncodeLoop.sentBy lib st frames, st.nextPts ≤ g.pts) ∧
    (st.isAc3 = true → ∀ g ∈ AudioEncodeLoop.sentBy lib st frames, g.nb_samples = 1536) ∧
    (∀ last, (AudioEncodeLoop.sentBy lib st frames).getLast? = some last →
      (AudioEncodeLoop.encodeFrames lib st frames).nextPts = last.pts + last.nb_samples) ∧
    (∃ fe g,
      AudioEncodeLoop.sentBy lib (AudioEncodeLoop.encodeFrames lib st frames) [f] = [g] ∧
      (st.audioFilter = none → fe = f) ∧
      (fe = f ∨ ∃ flt, (lib.processFrame flt f).1 = some fe) ∧
      ((fe.pts = AV_NOPTS_VALUE ∨
          fe.pts < (AudioEncodeLoop.encodeFrames lib st frames).nextPts) →
        g.pts = (AudioEncodeLoop.encodeFrames lib st frames).nextPts) ∧
      (¬ (fe.pts = AV_NOPTS_VALUE ∨
          fe.pts < (AudioEncodeLoop.encodeFrames lib st frames).nextPts) →
        g.pts = fe.pts)) := by
  have hsome : st.codecContext.isSome = true := by rw [hctx]; rfl
  obtain ⟨subs, i1, i2, i3, i4, i5, i6⟩ :=
    AudioEncodeLoop.encodeFrames_chain lib frames st hsome hrange hpos hfilter
  have hs := AudioEncodeLoop.sentBy_of_submitted lib st frames subs i1
  rw [hs] at hno ⊢
  obtain ⟨j1, j2, j3, _, j5⟩ := i6 hno
  obtain ⟨ctx2, hctx2⟩ := Option.isSome_iff_exists.mp i3
  obtain ⟨fe, g, e1, _, _, _, _, e6, _, e8, e9⟩ :=
    AudioEncodeLoop.encodeFrame_pts lib (AudioEncodeLoop.encodeFrames lib st frames) ctx2 f hctx2
  have hsp := AudioEncodeLoop.fixPts_spec (AudioEncodeLoop.encodeFrames lib st frames).nextPts fe
  refine ⟨i2, j2, j3, j1, i5, j5, fe, g, ?_, ?_, ?_, ?_, ?_⟩
  · apply AudioEncodeLoop.sentBy_of_submitted
    simp only [AudioEncodeLoop.encodeFrames, e1, List.map_cons, List.map_nil]
  · intro hn
    apply e9
    have := i4
    rw [hn] at this
    simpa using this
  · rcases e8 with h | ⟨flt, _, hp⟩
    · exact Or.inl h
    · exact Or.inr ⟨flt, hp⟩
  · intro h; rw [e6]; exact hsp.2.2.1 h
  · intro h; rw [e6]; exact hsp.2.2.2 h

theorem audio_encoder_pts_increasing_witness :
    AudioEncodeLoop.ac3Start.codecContext = some () ∧
    INT64_MIN ≤ AudioEncodeLoop.ac3Start.nextPts ∧
    (∀ x ∈ AudioEncodeLoop.sampleFrames, 0 < x.nb_samples) ∧
    AudioEncodeLoop.sentBy (silentEncoder AudioFrame) AudioEncodeLoop.ac3Start
      AudioEncodeLoop.sampleFrames =
      [{ pts := 0, nb_samples := 1536 }, { pts := 1536, nb_samples := 1536 },
       { pts := 5000, nb_samples := 1536 }] ∧
    List.Pairwise (fun a b => a.pts < b.pts)
      (AudioEncodeLoop.sentBy (silentEncoder AudioFrame) AudioEncodeLoop.ac3Start
        AudioEncodeLoop.sampleFrames) :=
  ⟨rfl, by decide, by decide, by decide,
    (audio_encoder_pts_increasing (silentEncoder AudioFrame) AudioEncodeLoop.ac3Start ()
      AudioEncodeLoop.sampleFrames { pts := 0, nb_samples := 1 } rfl (by decide) (by decide)
      (fun _ x hx out ho => by
        have hout : out = x := by
          simpa [silentEncoder] using ho.symm
        rw [hout]
        exact (by decide : ∀ y ∈ AudioEncodeLoop.sampleFrames, 0 < y.nb_samples) x hx)
      (by decide)).2.2.1⟩

/-! ## Rounding to binary64 -/

namespace Double

theorem roundEven_intCast (n : Int) : roundEven (n : ℚ) = n := by
  simp [roundEven]

theorem abs_cast_lt (m : Int) (hm : |m| < 2 ^ 53) : |(m : ℚ)| < (2 : ℚ) ^ (53 : ℕ) := by
  have : ((|m| : Int) : ℚ) < ((2 ^ 53 : Int) : ℚ) := by exact_mod_cast hm
  simpa using this

theorem abs_lt_zpow (m e : Int) (hm : |m| < 2 ^ 53) :
    |(m : ℚ) * (2 : ℚ) ^ e| < (2 : ℚ) ^ (e + 53) := by
  have h2 : (0 : ℚ) < (2 : ℚ) ^ e := zpow_pos (by norm_num) e
  rw [abs_mul, abs_of_pos h2, zpow_add₀ (by norm_num : (2 : ℚ) ≠ 0), mul_comm]
  have h53 : (2 : ℚ) ^ (53 : Int) = (2 : ℚ) ^ (53 : ℕ) := by norm_cast
  rw [h53]
  exact mul_lt_mul_of_pos_left (abs_cast_lt m hm) h2

theorem ulpExp_le (q : ℚ) (m e : Int) (hm : |m| < 2 ^ 53) (he : -1074 ≤ e)
    (hq : q = (m : ℚ) * (2 : ℚ) ^ e) (h0 : q ≠ 0) : ulpExp q ≤ e := by
  unfold ulpExp
  apply max_le _ he
  have hpos : 0 < |q| := abs_pos.mpr h0
  have hlt : |q| < ((2 : ℕ) : ℚ) ^ (e + 53) := by
    rw [hq, Nat.cast_ofNat]
    exact abs_lt_zpow m e hm
  have := (Int.lt_zpow_iff_log_lt (by norm_num : 1 < 2) hpos).mp hlt
  omega

theorem roundNearest_zero : roundNearest 0 = fin 0 := by
  unfold roundNearest
  have hp : ¬ (2 : ℚ) ^ (1024 : Int) ≤ 0 := not_le.mpr (zpow_pos (by norm_num) _)
  simp [roundEven, hp]

/-- A value that is a `double` is not changed by rounding. -/
theorem roundNearest_of_representable (q : ℚ) (h : Representable q) :
    roundNearest q = fin q := by
  by_cases h0 : q = 0
  · rw [h0]; exact roundNearest_zero
  obtain ⟨m, e, hm, he1, he2, hq⟩ := h
  have hk := ulpExp_le q m e hm he1 hq h0
  have h2 : (2 : ℚ) ≠ 0 := by norm_num
  have hbound : ¬ (2 : ℚ) ^ (1024 : Int) ≤ |q| := by
    rw [not_le, hq]
    exact lt_of_lt_of_le (abs_lt_zpow m e hm)
      (zpow_le_zpow_right₀ (by norm_num) (by omega))
  unfold roundNearest
  generalize ulpExp q = k at hk ⊢
  obtain ⟨d, hd⟩ : ∃ d : ℕ, e = k + d := ⟨(e - k).toNat, by omega⟩
  have hk0 : (2 : ℚ) ^ k ≠ 0 := zpow_ne_zero k h2
  have hdiv : q / (2 : ℚ) ^ k = ((m * 2 ^ d : Int) : ℚ) := by
    rw [hq, hd, zpow_add₀ h2, zpow_natCast]
    field_simp
    ring
  have hr : (roundEven (q / (2 : ℚ) ^ k) : ℚ) * (2 : ℚ) ^ k = q := by
    rw [hdiv, roundEven_intCast, ← hdiv]
    field_simp
  simp only [hr, hbound, if_false]

theorem roundEven_near (x : ℚ) (n : Int) (h : |x - n| < 1 / 2) : roundEven x = n := by
  rw [abs_lt] at h
  unfold roundEven
  by_cases hx : (n : ℚ) ≤ x
  · have hf : ⌊x⌋ = n := Int.floor_eq_iff.mpr ⟨hx, by linarith⟩
    rw [hf, if_pos (by linarith)]
  · have hx1 : x < n := not_le.mp hx
    have hf : ⌊x⌋ = n - 1 := Int.floor_eq_iff.mpr ⟨by push_cast; linarith, by push_cast; linarith⟩
    rw [hf]
    push_cast
    rw [if_neg (by linarith), if_pos (by linarith)]
    ring

theorem roundEven_tie (x : ℚ) (f : Int) (h : x = f + 1 / 2) :
    roundEven x = if f % 2 = 0 then f else f + 1 := by
  have hf : ⌊x⌋ = f := Int.floor_eq_iff.mpr ⟨by rw [h]; linarith, by rw [h]; linarith⟩
  unfold roundEven
  rw [hf, h]
  have e : (f : ℚ) + 1 / 2 - f = 1 / 2 := by ring
  rw [e, if_neg (lt_irrefl _), if_neg (lt_irrefl _)]

theorem ulpExp_eq (q : ℚ) (L : Int) (hlo : (2 : ℚ) ^ L ≤ |q|) (hhi : |q| < (2 : ℚ) ^ (L + 1)) :
    ulpExp q = max (L - 52) (-1074) := by
  have hpos : 0 < |q| := lt_of_lt_of_le (zpow_pos (by norm_num) L) hlo
  have h1 : L ≤ Int.log 2 |q| :=
    (Int.zpow_le_iff_le_log (by norm_num : 1 < 2) hpos).mp (by rw [Nat.cast_ofNat]; exact hlo)
  have h2 : Int.log 2 |q| < L + 1 :=
    (Int.lt_zpow_iff_log_lt (by norm_num : 1 < 2) hpos).mp (by rw [Nat.cast_ofNat]; exact hhi)
  have h3 : Int.log 2 |q| = L := by omega
  unfold ulpExp
  rw [h3]

/-- Evaluation of `roundNearest` from the binade of `q` and the rounded significand. -/
theorem roundNearest_eq (q : ℚ) (L k n : Int) (hlo : (2 : ℚ) ^ L ≤ |q|)
    (hhi : |q| < (2 : ℚ) ^ (L + 1)) (hk : k = max (L - 52) (-1074))
    (hn : roundEven (q / (2 : ℚ) ^ k) = n)
    (hb : |(n : ℚ) * (2 : ℚ) ^ k| < (2 : ℚ) ^ (1024 : Int)) :
    roundNearest q = fin ((n : ℚ) * (2 : ℚ) ^ k) := by
  unfold roundNearest
  rw [ulpExp_eq q L hlo hhi, ← hk]
  simp only [hn, not_le.mpr hb, if_false]

end Double

namespace Arith

/-- Binary64 arithmetic rounds correctly. -/
theorem binary64_correct : Arith.binary64.Correct :=
  ⟨fun t h => Double.roundNearest_of_representable _ h,
    fun x y _ _ h => Double.roundNearest_of_representable _ h,
    fun x y _ _ h => by
      show Double.rounded (Double.add (Double.fin x) (Double.neg (Double.fin y))) = _
      simp only [Double.neg, Double.add, Double.rounded, ← sub_eq_add_neg]
      exact Double.roundNearest_of_representable _ h,
    fun x y _ _ h => Double.roundNearest_of_representable _ h,
    fun x y _ _ hy h => by
      show Double.rounded (Double.div (Double.fin x) (Double.fin y)) = _
      simp only [Double.div, hy, if_false, Double.rounded]
      exact Double.roundNearest_of_representable _ h⟩

end Arith

/-! ## Properties that do not depend on how `double` arithmetic rounds -/

namespace Arith

theorem exact_correct : Arith.exact.Correct :=
  ⟨fun _ _ => rfl, fun _ _ _ _ _ => rfl, fun x y _ _ _ => by
      show Double.add (Double.fin x) (Double.neg (Double.fin y)) = Double.fin (x - y)
      simp only [Double.neg, Double.add, sub_eq_add_neg],
    fun _ _ _ _ _ => rfl, fun x y _ _ hy _ => by
      show Double.div (Double.fin x) (Double.fin y) = Double.fin (x / y)
      simp only [Double.div, hy, if_false]⟩

theorem representable_int (t : Int) (h : |t| < 2 ^ 53) : Double.Representable (t : ℚ) :=
  ⟨t, 0, h, by decide, by decide, by simp⟩

theorem representable_half (t : Int) (h : |t| < 2 ^ 53) : Double.Representable ((t : ℚ) / 2) :=
  ⟨t, -1, h, by decide, by decide, by
    rw [zpow_neg, zpow_one, div_eq_mul_inv]⟩

/-- Under correct rounding, halving a non-negative timestamp below `2^53` is exact:
conversion, division by `2.0` and truncation give `t / 2`. -/
theorem speedAdjust_two_exact (A : Arith) (hA : A.Correct) (t : Int) (h0 : 0 ≤ t)
    (h1 : t < 2 ^ 53) : A.speedAdjust (Double.fin 2) t = t / 2 := by
  have hlt : Double.lt (Double.fin 1) (Double.fin 2) = true := by decide
  have habs : |t| < 2 ^ 53 := by rw [abs_of_nonneg h0]; exact h1
  have e1 : A.ofInt64 t = Double.fin (t : ℚ) := hA.ofInt64_exact t (representable_int t habs)
  have r2 : Double.Representable (2 : ℚ) := by
    have := representable_int 2 (by decide)
    simpa using this
  have e2 : A.div (Double.fin (t : ℚ)) (Double.fin 2) = Double.fin ((t : ℚ) / 2) :=
    hA.div_exact _ _ (representable_int t habs) r2 (by norm_num) (representable_half t habs)
  simp only [speedAdjust, hlt, if_true, e1, e2, Double.toInt64, Double.truncRat_div_two t h0]
  have h2 : t < 9007199254740992 := by simpa using h1
  simp only [INT64_MIN, INT64_MAX]
  rw [if_pos (by omega)]

theorem convertTimestamps_pts_eq (A : Arith) (m : Muxer) (a b : AVRational) (p : AVPacket) :
    (A.convertTimestamps m a b p).pts =
      if p.pts ≠ AV_NOPTS_VALUE then A.rescaleTimestamp m p.pts a b else p.pts := by
  unfold convertTimestamps
  by_cases h1 : p.pts ≠ AV_NOPTS_VALUE <;> by_cases h2 : p.dts ≠ AV_NOPTS_VALUE <;> simp [h1, h2]

theorem convertTimestamps_dts_eq (A : Arith) (m : Muxer) (a b : AVRational) (p : AVPacket) :
    (A.convertTimestamps m a b p).dts =
      if p.dts ≠ AV_NOPTS_VALUE then A.rescaleTimestamp m p.dts a b
      else (A.convertTimestamps m a b p).pts := by
  rw [convertTimestamps_pts_eq]
  unfold convertTimestamps
  by_cases h1 : p.pts ≠ AV_NOPTS_VALUE <;> by_cases h2 : p.dts ≠ AV_NOPTS_VALUE <;> simp [h1, h2]

theorem convertTimestamps_duration_eq (A : Arith) (m : Muxer) (a b : AVRational)
    (p : AVPacket) : (A.convertTimestamps m a b p).duration = p.duration := by
  unfold convertTimestamps
  by_cases h1 : p.pts ≠ AV_NOPTS_VALUE <;> by_cases h2 : p.dts ≠ AV_NOPTS_VALUE <;> simp [h1, h2]

theorem applySpeed_pts_eq (A : Arith) (m : Muxer) (p : AVPacket) :
    (A.applySpeed m p).pts =
      if Double.ne m.playbackSpeed (Double.fin 1) = true ∧ p.pts ≠ AV_NOPTS_VALUE then
        A.speedAdjust m.playbackSpeed p.pts else p.pts := by
  unfold applySpeed
  by_cases h0 : Double.ne m.playbackSpeed (Double.fin 1) = true <;>
    by_cases h1 : p.pts ≠ AV_NOPTS_VALUE <;> by_cases h2 : p.dts ≠ AV_NOPTS_VALUE <;>
    by_cases h3 : 0 < p.duration <;> simp [h0, h1, h2, h3]

theorem applySpeed_dts_eq (A : Arith) (m : Muxer) (p : AVPacket) :
    (A.applySpeed m p).dts =
      if Double.ne m.playbackSpeed (Double.fin 1) = true ∧ p.dts ≠ AV_NOPTS_VALUE then
        A.speedAdjust m.playbackSpeed p.dts else p.dts := by
  unfold applySpeed
  by_cases h0 : Double.ne m.playbackSpeed (Double.fin 1) = true <;>
    by_cases h1 : p.pts ≠ AV_NOPTS_VALUE <;> by_cases h2 : p.dts ≠ AV_NOPTS_VALUE <;>
    by_cases h3 : 0 < p.duration <;> simp [h0, h1, h2, h3]

theorem applySpeed_duration_eq (A : Arith) (m : Muxer) (p : AVPacket) :
    (A.applySpeed m p).duration =
      if Double.ne m.playbackSpeed (Double.fin 1) = true ∧ 0 < p.duration then
        A.speedAdjust m.playbackSpeed p.duration else p.duration := by
  unfold applySpeed
  by_cases h0 : Double.ne m.playbackSpeed (Double.fin 1) = true <;>
    by_cases h1 : p.pts ≠ AV_NOPTS_VALUE <;> by_cases h2 : p.dts ≠ AV_NOPTS_VALUE <;>
    by_cases h3 : 0 < p.duration <;> simp [h0, h1, h2, h3]

theorem convertDuration_duration_eq (A : Arith) (m : Muxer) (a b : AVRational)
    (p : AVPacket) :
    (A.convertDuration m a b p).duration =
      if 0 < p.duration then A.rescaleTimestamp m p.duration a b else p.duration := by
  unfold convertDuration
  split_ifs <;> rfl

theorem writePacket_unfold (A : Arith) (m : Muxer) (pkt : AVPacket) (isVideo : Bool) (ret : Int)
    (s : OutputStream) (hfc : m.formatContext = true) (hs : m.stream isVideo = some s) :
    A.writePacket m (some pkt) isVideo ret =
      (decide (0 ≤ ret),
        m.setLast isVideo
          (Muxer.clampDts (Muxer.correctMonotonic (m.lastPts isVideo) (m.lastDts isVideo)
            (A.rescaled m s pkt))).pts
          (Muxer.clampDts (Muxer.correctMonotonic (m.lastPts isVideo) (m.lastDts isVideo)
            (A.rescaled m s pkt))).dts,
        some (A.convertDuration m s.codecTimeBase s.time_base
          (Muxer.clampDts (Muxer.correctMonotonic (m.lastPts isVideo) (m.lastDts isVideo)
            (A.rescaled m s pkt))))) := by
  unfold writePacket
  simp only [hfc, hs]

end Arith

namespace MuxLoop

theorem tryAudioFirst_parity_case (A : Arith) (sqrt : Double → Double) (st : MuxLoop)
    (counter : Int) (h : A.outOfSync sqrt st = true)
    (h1 : Double.lt (A.add st.lastVideoTimeSec
      (A.adjustedSyncThreshold sqrt st.muxer.playbackSpeed)) st.lastAudioTimeSec = false)
    (h2 : Double.lt (A.add st.lastAudioTimeSec
      (A.adjustedSyncThreshold sqrt st.muxer.playbackSpeed)) st.lastVideoTimeSec = false) :
    A.tryAudioFirst sqrt st counter =
      (Double.ne st.muxer.playbackSpeed (Double.fin 1) || decide (counter % 2 = 0)) := by
  simp only [Arith.tryAudioFirst, h, h1, h2, if_true, Bool.false_eq_true, if_false]

end MuxLoop

/-- C21 (amended): on every iteration of the mux scheduling loop, whatever the rounding
of the `double` operations, the sync test is `lastVideoTimeSec > 0 &&
lastAudioTimeSec > 0 && fabs(lastAudioTimeSec - lastVideoTimeSec) > T` with `T` the
adjusted threshold.  When it holds, video is tried first if
`lastAudioTimeSec > lastVideoTimeSec + T`, audio is tried first if that fails and
`lastVideoTimeSec > lastAudioTimeSec + T`, and if both comparisons fail the speed and
the parity of the counter decide.  When the test fails, in particular while one of the
two times is not positive, audio is tried first exactly when the speed is not 1.0 or
the counter is even. -/
theorem sync_preference_rule (A : Arith) (sqrt : Double → Double) (st : MuxLoop)
    (counter : Int) :
    (A.outOfSync sqrt st =
      (Double.lt (Double.fin 0) st.lastVideoTimeSec &&
        Double.lt (Double.fin 0) st.lastAudioTimeSec &&
        Double.lt (A.adjustedSyncThreshold sqrt st.muxer.playbackSpeed)
          (Double.fabs (A.sub st.lastAudioTimeSec st.lastVideoTimeSec)))) ∧
    (A.outOfSync sqrt st = true →
      Double.lt (A.add st.lastVideoTimeSec
        (A.adjustedSyncThreshold sqrt st.muxer.playbackSpeed)) st.lastAudioTimeSec = true →
      A.tryAudioFirst sqrt st counter = false) ∧
    (A.outOfSync sqrt st = true →
      Double.lt (A.add st.lastVideoTimeSec
        (A.adjustedSyncThreshold sqrt st.muxer.playbackSpeed)) st.lastAudioTimeSec = false →
      Double.lt (A.add st.lastAudioTimeSec
        (A.adjustedSyncThreshold sqrt st.muxer.playbackSpeed)) st.lastVideoTimeSec = true →
      A.tryAudioFirst sqrt st counter = true) ∧
    (A.outOfSync sqrt st = true →
      Double.lt (A.add st.lastVideoTimeSec
        (A.adjustedSyncThreshold sqrt st.muxer.playbackSpeed)) st.lastAudioTimeSec = false →
      Double.lt (A.add st.lastAudioTimeSec
        (A.adjustedSyncThreshold sqrt st.muxer.playbackSpeed)) st.lastVideoTimeSec = false →
      A.tryAudioFirst sqrt st counter =
        (Double.ne st.muxer.playbackSpeed (Double.fin 1) || decide (counter % 2 = 0))) ∧
    (A.outOfSync sqrt st = false →
      A.tryAudioFirst sqrt st counter =
        (Double.ne st.muxer.playbackSpeed (Double.fin 1) || decide (counter % 2 = 0))) ∧
    ((Double.lt (Double.fin 0) st.lastVideoTimeSec = false ∨
        Double.lt (Double.fin 0) st.lastAudioTimeSec = false) →
      A.tryAudioFirst sqrt st counter =
        (Double.ne st.muxer.playbackSpeed (Double.fin 1) || decide (counter % 2 = 0))) := by
  have hfail : A.outOfSync sqrt st = false →
      A.tryAudioFirst sqrt st counter =
        (Double.ne st.muxer.playbackSpeed (Double.fin 1) || decide (counter % 2 = 0)) := by
    intro h
    simp only [Arith.tryAudioFirst, h, Bool.false_eq_true, if_false]
  refine ⟨rfl, ?_, ?_, ?_, hfail, ?_⟩
  · intro h h1
    simp only [Arith.tryAudioFirst, h, h1, if_true]
  · intro h h1 h2
    simp only [Arith.tryAudioFirst, h, h1, h2, if_true, Bool.false_eq_true, if_false]
  · intro h h1 h2
    simp only [Arith.tryAudioFirst, h, h1, h2, if_true, Bool.false_eq_true, if_false]
  · intro h
    apply hfail
    unfold Arith.outOfSync
    rcases h with h | h
    · rw [h]; rfl
    · rw [h, Bool.and_false]; rfl

/-- C25 (amended): for every playback speed other than 1.0 and whatever the rounding of
the `double` operations, the speed adjustment of a timestamp `t` is
`(int64_t)((double)t / speed)` above 1.0 and `(int64_t)((double)t * (1.0 / speed))`
otherwise, computed in `double` arithmetic; `writePacket` replaces a set pts by its
adjustment, and, provided the adjusted value is not the sentinel `AV_NOPTS_VALUE`,
`rescaleTimestamp` adjusts it once more before the time-base conversion; the same
holds for a set dts, and for a positive duration provided the adjusted duration is
still positive.  With correctly rounding arithmetic, equal time bases and speed 2.0,
the pre-correction pts of a source pts `n` with `0 <= n < 2^53` is `floor(n/4)`. -/
theorem speed_adjusted_twice (A : Arith) (m : Muxer) (s : OutputStream) (pkt : AVPacket)
    (isVideo : Bool) (ret : Int) (hS : Double.ne m.playbackSpeed (Double.fin 1) = true)
    (hfc : m.formatContext = true) (hs : m.stream isVideo = some s) :
    (∀ t : Int, A.speedAdjust m.playbackSpeed t =
      if Double.lt (Double.fin 1) m.playbackSpeed then
        Double.toInt64 (A.div (A.ofInt64 t) m.playbackSpeed)
      else Double.toInt64 (A.mul (A.ofInt64 t) (A.div (Double.fin 1) m.playbackSpeed))) ∧
    (pkt.pts ≠ AV_NOPTS_VALUE →
      (A.applySpeed m pkt).pts = A.speedAdjust m.playbackSpeed pkt.pts) ∧
    (pkt.pts ≠ AV_NOPTS_VALUE → A.speedAdjust m.playbackSpeed pkt.pts ≠ AV_NOPTS_VALUE →
      (A.rescaled m s pkt).pts =
        av_rescale_q (A.speedAdjust m.playbackSpeed (A.speedAdjust m.playbackSpeed pkt.pts))
          s.codecTimeBase s.time_base) ∧
    (pkt.dts ≠ AV_NOPTS_VALUE → A.speedAdjust m.playbackSpeed pkt.dts ≠ AV_NOPTS_VALUE →
      (A.rescaled m s pkt).dts =
        av_rescale_q (A.speedAdjust m.playbackSpeed (A.speedAdjust m.playbackSpeed pkt.dts))
          s.codecTimeBase s.time_base) ∧
    (0 < pkt.duration → 0 < A.speedAdjust m.playbackSpeed pkt.duration →
      ∃ out, (A.writePacket m (some pkt) isVideo ret).2.2 = some out ∧
        out.duration =
          av_rescale_q
            (A.speedAdjust m.playbackSpeed (A.speedAdjust m.playbackSpeed pkt.duration))
            s.codecTimeBase s.time_base) ∧
    (A.Correct → m.playbackSpeed = Double.fin 2 → s.codecTimeBase = s.time_base →
      0 < s.time_base.num → 0 < s.time_base.den → 0 ≤ pkt.pts → pkt.pts < 2 ^ 53 →
      (A.rescaled m s pkt).pts = pkt.pts / 4) := by
  refine ⟨fun _ => rfl, ?_, ?_, ?_, ?_, ?_⟩
  · intro h1
    rw [Arith.applySpeed_pts_eq]
    simp only [hS, h1, ne_eq, not_false_eq_true, and_self, if_true]
  · intro h1 h2
    unfold Arith.rescaled
    rw [Arith.convertTimestamps_pts_eq, Arith.applySpeed_pts_eq]
    simp only [hS, h1, ne_eq, not_false_eq_true, and_self, if_true, h2, Arith.rescaleTimestamp]
  · intro h1 h2
    unfold Arith.rescaled
    rw [Arith.convertTimestamps_dts_eq, Arith.applySpeed_dts_eq]
    simp only [hS, h1, ne_eq, not_false_eq_true, and_self, if_true, h2, Arith.rescaleTimestamp]
  · intro h1 h2
    rw [Arith.writePacket_unfold A m pkt isVideo ret s hfc hs]
    refine ⟨_, rfl, ?_⟩
    have hd : (A.rescaled m s pkt).duration = A.speedAdjust m.playbackSpeed pkt.duration := by
      unfold Arith.rescaled
      rw [Arith.convertTimestamps_duration_eq, Arith.applySpeed_duration_eq]
      simp only [hS, h1, and_self, if_true]
    have hne : A.speedAdjust m.playbackSpeed pkt.duration ≠ AV_NOPTS_VALUE := by
      simp only [AV_NOPTS_VALUE, INT64_MIN]; omega
    rw [Arith.convertDuration_duration_eq, Muxer.clampDts_duration,
      Muxer.correctMonotonic_duration, hd]
    simp only [h2, if_true, Arith.rescaleTimestamp, hS, hne, ne_eq, not_false_eq_true, and_self]
  · intro hA hm hq hn hd h0 h1
    have h1b : pkt.pts < 9007199254740992 := by simpa using h1
    have hn1 : pkt.pts ≠ AV_NOPTS_VALUE := by
      simp only [AV_NOPTS_VALUE, INT64_MIN]; omega
    have hn2 : pkt.pts / 2 ≠ AV_NOPTS_VALUE := by
      simp only [AV_NOPTS_VALUE, INT64_MIN]; omega
    have b2 : pkt.pts / 2 / 2 ≤ INT64_MAX := by simp only [INT64_MAX]; omega
    have b3 : -INT64_MAX ≤ pkt.pts / 2 / 2 := by simp only [INT64_MAX]; omega
    have a1 := Arith.speedAdjust_two_exact A hA pkt.pts h0 h1
    have a2 := Arith.speedAdjust_two_exact A hA (pkt.pts / 2) (by omega)
      (by have : pkt.pts / 2 < 9007199254740992 := by omega
          simpa using this)
    unfold Arith.rescaled
    rw [Arith.convertTimestamps_pts_eq, Arith.applySpeed_pts_eq, hm, hq]
    simp only [Muxer.ne_two_one, hn1, ne_eq, not_false_eq_true, and_self, if_true, a1, hn2,
      Arith.rescaleTimestamp, hm, a2]
    rw [Muxer.av_rescale_q_equal _ _ hn hd b3 b2]
    omega


/-! ## The two scenarios in machine arithmetic -/

namespace Arith

theorem representable_scaled (m e : Int) (h : |m| < 2 ^ 53) (h1 : -1074 ≤ e) (h2 : e ≤ 971) :
    Double.Representable ((m : ℚ) * (2 : ℚ) ^ e) :=
  ⟨m, e, h, h1, h2, rfl⟩

/-- Under correct rounding `-1` at speed 2.0 becomes `(int64_t)(-0.5)`, which is 0. -/
theorem speedAdjust_two_neg_one_exact (A : Arith) (hA : A.Correct) :
    A.speedAdjust (Double.fin 2) (-1) = 0 := by
  have hlt : Double.lt (Double.fin 1) (Double.fin 2) = true := by decide
  have r1 : Double.Representable (((-1 : Int) : ℚ)) := representable_int (-1) (by decide)
  have e1 : A.ofInt64 (-1) = Double.fin (((-1 : Int) : ℚ)) := hA.ofInt64_exact (-1) r1
  have r2 : Double.Representable (2 : ℚ) := by
    have := representable_int 2 (by decide)
    simpa using this
  have e2 : A.div (Double.fin (((-1 : Int) : ℚ))) (Double.fin 2) =
      Double.fin ((((-1 : Int) : ℚ)) / 2) :=
    hA.div_exact _ _ r1 r2 (by norm_num) (representable_half (-1) (by decide))
  simp only [speedAdjust, hlt, if_true, e1, e2, Double.toInt64, Double.truncRat]
  have n1 : (((-1 : Int) : ℚ) / 2).num = -1 := by norm_num
  have n2 : (((-1 : Int) : ℚ) / 2).den = 2 := by norm_num
  rw [n1, n2]
  decide

/-- Under correct rounding `-2^62` at speed 0.5 becomes `-2^63`, the sentinel. -/
theorem speedAdjust_half_sentinel (A : Arith) (hA : A.Correct) :
    A.speedAdjust (Double.fin (1 / 2)) (-4611686018427387904) = AV_NOPTS_VALUE := by
  have hlt : Double.lt (Double.fin 1) (Double.fin (1 / 2)) = false := by
    simp only [Double.lt, decide_eq_false_iff_not]; norm_num
  have r1 : Double.Representable (1 : ℚ) := by
    have := representable_int 1 (by decide)
    simpa using this
  have rh : Double.Representable ((1 : ℚ) / 2) := by
    have := representable_half 1 (by decide)
    simpa using this
  have r2 : Double.Representable (2 : ℚ) := by
    have := representable_int 2 (by decide)
    simpa using this
  have rt : Double.Representable (((-4611686018427387904 : Int) : ℚ)) := by
    have := representable_scaled (-1) 62 (by decide) (by decide) (by decide)
    have e : (((-1 : Int) : ℚ)) * (2 : ℚ) ^ (62 : Int) = ((-4611686018427387904 : Int) : ℚ) := by
      norm_num
    rwa [e] at this
  have rp : Double.Representable ((((-4611686018427387904 : Int) : ℚ)) * 2) := by
    have := representable_scaled (-1) 63 (by decide) (by decide) (by decide)
    have e : (((-1 : Int) : ℚ)) * (2 : ℚ) ^ (63 : Int) =
        (((-4611686018427387904 : Int) : ℚ)) * 2 := by
      norm_num
    rwa [e] at this
  have e1 : A.ofInt64 (-4611686018427387904) = Double.fin (((-4611686018427387904 : Int) : ℚ)) :=
    hA.ofInt64_exact _ rt
  have e2 : A.div (Double.fin 1) (Double.fin (1 / 2)) = Double.fin 2 := by
    have := hA.div_exact 1 (1 / 2) r1 rh (by norm_num) (by
      have e : (1 : ℚ) / (1 / 2) = 2 := by norm_num
      rw [e]; exact r2)
    have e : (1 : ℚ) / (1 / 2) = 2 := by norm_num
    rwa [e] at this
  have e3 : A.mul (Double.fin (((-4611686018427387904 : Int) : ℚ))) (Double.fin 2) =
      Double.fin ((((-4611686018427387904 : Int) : ℚ)) * 2) := hA.mul_exact _ _ rt r2 rp
  have e4 : (((-4611686018427387904 : Int) : ℚ)) * 2 = ((-9223372036854775808 : Int) : ℚ) := by
    norm_num
  simp only [speedAdjust, hlt, Bool.false_eq_true, if_false, e1, e2, e3, e4, Double.toInt64,
    Double.truncRat_intCast]
  decide

end Arith

namespace MuxLoop

/-- C21 (counterexample): after ten seconds of audio and no video packet yet
(`lastVideoTimeSec` is still `0.0`), at speed 1.0 and an even counter, the two times
differ by more than the threshold and the audio is ahead, yet audio is tried first:
the sync preference is not applied while one of the two times is not positive.  The
values are exact in `double` arithmetic: the gap exceeds the threshold for every
correctly rounding arithmetic, and audio is tried first whatever the rounding. -/
theorem tryAudioFirst_ignores_gap :
    Double.lt (adjustedSyncThreshold sampleSqrt audioAhead.muxer.playbackSpeed)
      (Double.fabs (Double.sub audioAhead.lastAudioTimeSec audioAhead.lastVideoTimeSec)) = true ∧
    Double.lt audioAhead.lastVideoTimeSec audioAhead.lastAudioTimeSec = true ∧
    tryAudioFirst sampleSqrt audioAhead 2 = true ∧
    (∀ (A : Arith) (sqrt : Double → Double), A.Correct →
      Double.lt (A.adjustedSyncThreshold sqrt audioAhead.muxer.playbackSpeed)
        (Double.fabs (A.sub audioAhead.lastAudioTimeSec audioAhead.lastVideoTimeSec)) = true) ∧
    (∀ (A : Arith) (sqrt : Double → Double), A.tryAudioFirst sqrt audioAhead 2 = true) := by
  refine ⟨?_, ?_, ?_, ?_, ?_⟩
  · simp [adjustedSyncThreshold, audioVideoSyncThreshold, audioAhead, start, Muxer.initialised,
      Double.lt, Double.sub, Double.add, Double.neg, Double.fabs]
    norm_num
  · simp [audioAhead, start, Double.lt]
  · simp [tryAudioFirst, outOfSync, audioAhead, start, Muxer.initialised, Double.lt, Double.ne]
  · intro A sqrt hA
    have r10 : Double.Representable (10 : ℚ) := by
      have := Arith.representable_int 10 (by decide)
      simpa using this
    have r0 : Double.Representable (0 : ℚ) := by
      have := Arith.representable_int 0 (by decide)
      simpa using this
    have e : A.sub (Double.fin 10) (Double.fin 0) = Double.fin 10 := by
      have := hA.sub_exact 10 0 r10 r0 (by simpa using r10)
      simpa using this
    simp only [Arith.adjustedSyncThreshold, audioVideoSyncThreshold, audioAhead, start,
      Muxer.initialised, e, Double.fabs, Double.lt]
    norm_num
  · intro A sqrt
    simp [Arith.tryAudioFirst, Arith.outOfSync, audioAhead, start, Muxer.initialised,
      Double.lt, Double.ne]

end MuxLoop

namespace Muxer

/-- C25 (counterexample): at speed 2.0 with both time bases 1/30 the source pts -1
reaches the monotonicity check as 0 (both adjustments truncate towards zero), not as
floor(-1/4) = -1; and at speed 0.5 the set pts `-2^62` becomes the sentinel
`AV_NOPTS_VALUE` in the first adjustment, after which neither the second adjustment
nor the time-base conversion is applied to it.  Every operation involved is exact in
`double` arithmetic, so the same holds for every correctly rounding arithmetic. -/
theorem precorrection_pts_not_floor :
    negativePacket.pts ≠ AV_NOPTS_VALUE ∧
    (rescaled doubleSpeed videoStream30 negativePacket).pts = 0 ∧
    negativePacket.pts / 4 = -1 ∧
    sentinelPacket.pts ≠ AV_NOPTS_VALUE ∧
    (rescaled halfSpeed videoStream30 sentinelPacket).pts = AV_NOPTS_VALUE ∧
    (∀ A : Arith, A.Correct →
      (A.rescaled doubleSpeed videoStream30 negativePacket).pts = 0 ∧
      (A.applySpeed halfSpeed sentinelPacket).pts = AV_NOPTS_VALUE ∧
      (A.rescaled halfSpeed videoStream30 sentinelPacket).pts = AV_NOPTS_VALUE) := by
  have hm : doubleSpeed.playbackSpeed = Double.fin 2 := by
    simp only [doubleSpeed, setPlaybackSpeed_two]
  have hh : halfSpeed.playbackSpeed = Double.fin (1 / 2) := by rw [halfSpeed_eq]
  have hne : Double.ne (Double.fin (1 / 2)) (Double.fin 1) = true := by
    simp only [Double.ne, decide_eq_true_eq, ne_eq, Double.fin.injEq]; norm_num
  have h0 : (0 : Int) ≠ AV_NOPTS_VALUE := by decide
  have hn : (-1 : Int) ≠ AV_NOPTS_VALUE := by decide
  have hp : (-4611686018427387904 : Int) ≠ AV_NOPTS_VALUE := by decide
  refine ⟨by decide, ?_, by decide, by decide, by rw [rescaled_sentinelPacket], ?_⟩
  · unfold rescaled
    rw [convertTimestamps_pts, applySpeed_pts, hm]
    simp only [negativePacket, videoStream30, ne_two_one, hn, ne_eq, not_false_eq_true, and_self,
      if_true, speedAdjust_two_neg_one, h0, rescaleTimestamp, hm,
      speedAdjust_two 0 (le_refl _) (by decide)]
    exact av_rescale_q_same _ (by decide) (by decide)
  · intro A hA
    have a0 := Arith.speedAdjust_two_exact A hA 0 (le_refl _) (by decide)
    have ha : (A.applySpeed halfSpeed sentinelPacket).pts = AV_NOPTS_VALUE := by
      rw [Arith.applySpeed_pts_eq, hh]
      simp only [sentinelPacket, hne, hp, ne_eq, not_false_eq_true, and_self, if_true,
        Arith.speedAdjust_half_sentinel A hA]
    refine ⟨?_, ha, ?_⟩
    · unfold Arith.rescaled
      rw [Arith.convertTimestamps_pts_eq, Arith.applySpeed_pts_eq, hm]
      simp only [negativePacket, videoStream30, ne_two_one, hn, ne_eq, not_false_eq_true,
        and_self, if_true, Arith.speedAdjust_two_neg_one_exact A hA, h0,
        Arith.rescaleTimestamp, hm, a0]
      exact av_rescale_q_same _ (by decide) (by decide)
    · unfold Arith.rescaled
      rw [Arith.convertTimestamps_pts_eq, Arith.applySpeed_pts_eq, hh]
      simp only [sentinelPacket, hne, hp, ne_eq, not_false_eq_true, and_self, if_true,
        Arith.speedAdjust_half_sentinel A hA, not_true_eq_false, if_false]

end Muxer

/-! ## Where rounding shows -/

namespace Arith

theorem representable_tenth : Double.Representable Double.tenth :=
  ⟨3602879701896397, -55, by decide, by decide, by decide, by
    unfold Double.tenth; norm_num⟩

/-- In binary64 the quotient `1.0 / 0.1` is exactly `10.0`. -/
theorem binary64_one_div_tenth :
    Arith.binary64.div (Double.fin 1) (Double.fin Double.tenth) = Double.fin 10 := by
  have hne : Double.tenth ≠ 0 := by unfold Double.tenth; norm_num
  show Double.rounded (Double.div (Double.fin 1) (Double.fin Double.tenth)) = _
  simp only [Double.div, hne, if_false, Double.rounded]
  have h := Double.roundNearest_eq (1 / Double.tenth) 3 (-49) 5629499534213120
    (by unfold Double.tenth; norm_num [abs_of_pos])
    (by unfold Double.tenth; norm_num [abs_of_pos]) (by decide)
    (Double.roundEven_near _ _ (by
      unfold Double.tenth; rw [abs_lt]; constructor <;> norm_num))
    (by norm_num [abs_of_pos])
  rw [h]
  norm_num

/-- The speed adjustment in binary64 is not the truncated exact quotient: at the speed
nearest to 0.1 the timestamp 1 becomes 10, because `1.0 / speed` rounds up to `10.0`,
while the exact product `1 * (1 / speed)` lies below 10 and truncates to 9. -/
theorem speedAdjust_tenth_rounds :
    Arith.binary64.speedAdjust (Double.fin Double.tenth) 1 = 10 ∧
    Double.truncRat ((1 : ℚ) * (1 / Double.tenth)) = 9 ∧
    Arith.exact.speedAdjust (Double.fin Double.tenth) 1 = 9 := by
  have hlt : Double.lt (Double.fin 1) (Double.fin Double.tenth) = false := by
    simp only [Double.lt, Double.tenth, decide_eq_false_iff_not]; norm_num
  have r1 : Double.Representable (((1 : Int) : ℚ)) := representable_int 1 (by decide)
  have e1 : Arith.binary64.ofInt64 1 = Double.fin 1 := by
    have := binary64_correct.ofInt64_exact 1 r1
    simpa using this
  have r10 : Double.Representable (10 : ℚ) := by
    have := representable_int 10 (by decide)
    simpa using this
  have e3 : Arith.binary64.mul (Double.fin 1) (Double.fin 10) = Double.fin 10 := by
    have := binary64_correct.mul_exact 1 10 (by simpa using r1) r10 (by simpa using r10)
    simpa using this
  have hq : (1 : ℚ) * (1 / Double.tenth) = 36028797018963968 / 3602879701896397 := by
    unfold Double.tenth; norm_num
  have n1 : ((36028797018963968 : ℚ) / 3602879701896397).num = 36028797018963968 := by
    norm_num
  have n2 : ((36028797018963968 : ℚ) / 3602879701896397).den = 3602879701896397 := by
    norm_num
  have ht : Double.truncRat ((1 : ℚ) * (1 / Double.tenth)) = 9 := by
    rw [hq]
    unfold Double.truncRat
    rw [n1, n2]
    decide
  refine ⟨?_, ht, ?_⟩
  · simp only [speedAdjust, hlt, Bool.false_eq_true, if_false, e1, binary64_one_div_tenth, e3,
      Double.toInt64]
    have e10 : Double.truncRat (10 : ℚ) = 10 := by
      have := Double.truncRat_intCast 10
      simpa using this
    rw [e10]
    decide
  · have hne : Double.tenth ≠ 0 := by unfold Double.tenth; norm_num
    have hcast : Double.ofInt64 1 = Double.fin 1 := by simp [Double.ofInt64]
    simp only [speedAdjust, hlt, Bool.false_eq_true, if_false, Arith.exact, hcast, Double.div,
      hne, Double.mul, Double.toInt64, ht]
    decide

end Arith

namespace MuxLoop

/-- Beyond the threshold and still decided by the counter: with the video time
`57 * (1 / 50.0)` and the audio time `30720 * (1 / 48000.0)` the sync test holds in
binary64 (the difference is `0.5000000000000001`), video is ahead, and neither
`audio > video + 0.5` nor `video > audio + 0.5` holds, because `audio + 0.5` rounds to
the video time; on an odd counter video is tried first. -/
theorem parity_decides_near_threshold (sqrt : Double → Double) :
    Double.lt nearThreshold.lastAudioTimeSec nearThreshold.lastVideoTimeSec = true ∧
    Arith.binary64.outOfSync sqrt nearThreshold = true ∧
    Double.lt (Arith.binary64.add nearThreshold.lastVideoTimeSec
      (Arith.binary64.adjustedSyncThreshold sqrt nearThreshold.muxer.playbackSpeed))
      nearThreshold.lastAudioTimeSec = false ∧
    Arith.binary64.add nearThreshold.lastAudioTimeSec
      (Arith.binary64.adjustedSyncThreshold sqrt nearThreshold.muxer.playbackSpeed) =
      nearThreshold.lastVideoTimeSec ∧
    Arith.binary64.tryAudioFirst sqrt nearThreshold 1 = false := by
  have hT : Arith.binary64.adjustedSyncThreshold sqrt nearThreshold.muxer.playbackSpeed =
      Double.fin (1 / 2) := by
    simp [Arith.adjustedSyncThreshold, audioVideoSyncThreshold, nearThreshold, start,
      Muxer.initialised, Double.lt]
  have hv : nearThreshold.lastVideoTimeSec =
      Double.fin (2567051787601183 / 2251799813685248) := rfl
  have ha : nearThreshold.lastAudioTimeSec =
      Double.fin (5764607523034235 / 9007199254740992) := rfl
  have hs : nearThreshold.muxer.playbackSpeed = Double.fin 1 := rfl
  have rv : Double.Representable (2567051787601183 / 2251799813685248) :=
    ⟨2567051787601183, -51, by decide, by decide, by decide, by norm_num⟩
  have ra : Double.Representable (5764607523034235 / 9007199254740992) :=
    ⟨5764607523034235, -53, by decide, by decide, by decide, by norm_num⟩
  have rh : Double.Representable (1 / 2) :=
    ⟨1, -1, by decide, by decide, by decide, by norm_num⟩
  have rd : Double.Representable
      ((5764607523034235 : ℚ) / 9007199254740992 - 2567051787601183 / 2251799813685248) :=
    ⟨-4503599627370497, -53, by decide, by decide, by decide, by norm_num⟩
  have rs : Double.Representable
      ((2567051787601183 : ℚ) / 2251799813685248 + 1 / 2) :=
    ⟨3692951694443807, -51, by decide, by decide, by decide, by norm_num⟩
  have esub := Arith.binary64_correct.sub_exact _ _ ra rv rd
  have eadd1 := Arith.binary64_correct.add_exact _ _ rv rh rs
  have eadd2 : Arith.binary64.add (Double.fin (5764607523034235 / 9007199254740992))
      (Double.fin (1 / 2)) = Double.fin (2567051787601183 / 2251799813685248) := by
    show Double.rounded (Double.add (Double.fin (5764607523034235 / 9007199254740992))
      (Double.fin (1 / 2))) = _
    simp only [Double.add, Double.rounded]
    have h := Double.roundNearest_eq
      ((5764607523034235 : ℚ) / 9007199254740992 + 1 / 2) 0 (-52) 5134103575202366
      (by norm_num [abs_of_pos]) (by norm_num [abs_of_pos]) (by decide)
      (by
        rw [Double.roundEven_tie _ 5134103575202365 (by norm_num)]
        decide)
      (by norm_num [abs_of_pos])
    rw [h]
    norm_num
  have ho : Arith.binary64.outOfSync sqrt nearThreshold = true := by
    unfold Arith.outOfSync
    rw [hT, hv, ha, esub]
    simp only [Double.lt, Double.fabs, Bool.and_eq_true, decide_eq_true_eq]
    refine ⟨⟨by norm_num, by norm_num⟩, ?_⟩
    norm_num [abs_of_neg]
  have h1 : Double.lt (Arith.binary64.add nearThreshold.lastVideoTimeSec
      (Arith.binary64.adjustedSyncThreshold sqrt nearThreshold.muxer.playbackSpeed))
      nearThreshold.lastAudioTimeSec = false := by
    rw [hT, hv, ha, eadd1]
    simp only [Double.lt, decide_eq_false_iff_not]
    norm_num
  have h2 : Arith.binary64.add nearThreshold.lastAudioTimeSec
      (Arith.binary64.adjustedSyncThreshold sqrt nearThreshold.muxer.playbackSpeed) =
      nearThreshold.lastVideoTimeSec := by
    rw [hT, hv, ha, eadd2]
  have h3 : Double.lt (Arith.binary64.add nearThreshold.lastAudioTimeSec
      (Arith.binary64.adjustedSyncThreshold sqrt nearThreshold.muxer.playbackSpeed))
      nearThreshold.lastVideoTimeSec = false := by
    rw [h2, hv]
    simp [Double.lt]
  refine ⟨?_, ho, h1, h2, ?_⟩
  · rw [hv, ha]
    simp only [Double.lt, decide_eq_true_eq]
    norm_num
  · have hp := (tryAudioFirst_parity_case Arith.binary64 sqrt nearThreshold 1 ho h1 h3)
    rw [hp, hs]
    decide

end MuxLoop

namespace Arith

/-- In binary64 the conversion of `2^53 + 3` gives `2^53 + 4` (a tie, resolved to the
even significand). -/
theorem binary64_ofInt64_large :
    Arith.binary64.ofInt64 9007199254740995 = Double.fin 9007199254740996 := by
  show Double.roundNearest ((9007199254740995 : Int) : ℚ) = _
  have h := Double.roundNearest_eq ((9007199254740995 : Int) : ℚ) 53 1 4503599627370498
    (by norm_num [abs_of_pos]) (by norm_num [abs_of_pos]) (by decide)
    (by
      rw [Double.roundEven_tie _ 4503599627370497 (by norm_num)]
      decide)
    (by norm_num [abs_of_pos])
  rw [h]
  norm_num

/-- Above `2^53` the double application no longer gives `floor(n/4)`: at speed 2.0 with
both time bases 1/30 the source pts `2^53 + 3` reaches the monotonicity check as
`2^51 + 1` in binary64, while `floor((2^53 + 3)/4)` is `2^51`. -/
theorem rescaled_large_pts :
    (Arith.binary64.rescaled Muxer.doubleSpeed Muxer.videoStream30 Muxer.largePacket).pts =
      2251799813685249 ∧
    Muxer.largePacket.pts / 4 = 2251799813685248 := by
  have hm : Muxer.doubleSpeed.playbackSpeed = Double.fin 2 := by
    simp only [Muxer.doubleSpeed, Muxer.setPlaybackSpeed_two]
  have hlt : Double.lt (Double.fin 1) (Double.fin 2) = true := by decide
  have r2 : Double.Representable (2 : ℚ) := by
    have := representable_int 2 (by decide)
    simpa using this
  have rbig : Double.Representable (9007199254740996 : ℚ) :=
    ⟨2251799813685249, 2, by decide, by decide, by decide, by norm_num⟩
  have rhalf : Double.Representable ((9007199254740996 : ℚ) / 2) :=
    ⟨2251799813685249, 1, by decide, by decide, by decide, by norm_num⟩
  have ediv : Arith.binary64.div (Double.fin 9007199254740996) (Double.fin 2) =
      Double.fin (((4503599627370498 : Int) : ℚ)) := by
    have := binary64_correct.div_exact _ _ rbig r2 (by norm_num) rhalf
    rw [this]
    norm_num
  have a1 : Arith.binary64.speedAdjust (Double.fin 2) 9007199254740995 = 4503599627370498 := by
    have e : Double.toInt64 (Double.fin ((4503599627370498 : Int) : ℚ)) = 4503599627370498 := by
      simp only [Double.toInt64, Double.truncRat_intCast]
      rw [if_pos (by simp only [INT64_MIN, INT64_MAX]; omega)]
    unfold speedAdjust
    rw [if_pos hlt, binary64_ofInt64_large, ediv]
    exact e
  have a2 := speedAdjust_two_exact Arith.binary64 binary64_correct 4503599627370498
    (by decide) (by decide)
  have hn1 : (9007199254740995 : Int) ≠ AV_NOPTS_VALUE := by decide
  have hn2 : (4503599627370498 : Int) ≠ AV_NOPTS_VALUE := by decide
  refine ⟨?_, by decide⟩
  unfold Arith.rescaled
  rw [convertTimestamps_pts_eq, applySpeed_pts_eq, hm]
  simp only [Muxer.largePacket, Muxer.videoStream30, Muxer.ne_two_one, hn1, ne_eq,
    not_false_eq_true, and_self, if_true, a1, hn2, Arith.rescaleTimestamp, hm, a2]
  exact Muxer.av_rescale_q_same _ (by decide) (by decide)

end Arith

theorem speed_adjusted_twice_witness :
    Double.ne Muxer.doubleSpeed.playbackSpeed (Double.fin 1) = true ∧
    Muxer.doubleSpeed.formatContext = true ∧
    Muxer.doubleSpeed.stream true = some Muxer.videoStream30 ∧
    (Arith.binary64.rescaled Muxer.doubleSpeed Muxer.videoStream30 Muxer.tenPacket).pts =
      Muxer.tenPacket.pts / 4 ∧
    (Arith.binary64.applySpeed Muxer.doubleSpeed Muxer.tenPacket).pts =
      Arith.binary64.speedAdjust Muxer.doubleSpeed.playbackSpeed Muxer.tenPacket.pts :=
  ⟨by simp only [Muxer.doubleSpeed, Muxer.setPlaybackSpeed_two, Muxer.ne_two_one],
    by simp only [Muxer.doubleSpeed, Muxer.setPlaybackSpeed_two]; rfl,
    by simp only [Muxer.doubleSpeed, Muxer.setPlaybackSpeed_two]; rfl,
    (speed_adjusted_twice Arith.binary64 Muxer.doubleSpeed Muxer.videoStream30 Muxer.tenPacket
      true 0
      (by simp only [Muxer.doubleSpeed, Muxer.setPlaybackSpeed_two, Muxer.ne_two_one])
      (by simp only [Muxer.doubleSpeed, Muxer.setPlaybackSpeed_two]; rfl)
      (by simp only [Muxer.doubleSpeed, Muxer.setPlaybackSpeed_two]; rfl)).2.2.2.2.2
      Arith.binary64_correct
      (by simp only [Muxer.doubleSpeed, Muxer.setPlaybackSpeed_two])
      rfl (by decide) (by decide) (by decide) (by decide),
    (speed_adjusted_twice Arith.binary64 Muxer.doubleSpeed Muxer.videoStream30 Muxer.tenPacket
      true 0
      (by simp only [Muxer.doubleSpeed, Muxer.setPlaybackSpeed_two, Muxer.ne_two_one])
      (by simp only [Muxer.doubleSpeed, Muxer.setPlaybackSpeed_two]; rfl)
      (by simp only [Muxer.doubleSpeed, Muxer.setPlaybackSpeed_two]; rfl)).2.1 (by decide)⟩
